import Mathlib

/-!
# Convoy flashlight firmware: mode management core

A shallow embedding of the persistent state store, the boot transition, the main
loop and the voltage monitor of the `biscotti` and `simple` firmware variants
(`src/biscotti/biscotti.c`, `src/simple/simple_NOTES.c`), and of the `biscuit`
variant (`src/biscuit/biscuit.c`).  biscotti and simple share the code embedded
here word for word; they differ in their mode group tables and in the special
modes that the main loop dispatches.

Bytes are natural numbers; the places where the C code relies on `uint8_t`
wrap-around carry an explicit `% 256`.  The EEPROM is a map from addresses to
bytes, the global variables of the C program are the fields of `State`.
-/

namespace Convoy

/-! ## Constants -/

/-- Number of EEPROM bytes of the ATtiny13 (`#define EEPSIZE 64`, simple_NOTES.c line 56 and
biscuit.c line 57; biscotti.c obtains the same constant from its MCU header). -/
def EEPSIZE : Nat := 64

/-- Length of the wear-levelled ring, `#define WEAR_LVL_LEN (EEPSIZE/2)`. -/
def WEAR_LVL_LEN : Nat := EEPSIZE / 2

/-- Address of the mode group byte, `#define OPT_modegroup (EEPSIZE-1)`. -/
def OPT_modegroup : Nat := EEPSIZE - 1

/-- Address of the memory flag byte, `#define OPT_memory (EEPSIZE-2)`. -/
def OPT_memory : Nat := EEPSIZE - 2

/-- Address of the override flag byte, `#define OPT_mode_override (EEPSIZE-3)`. -/
def OPT_mode_override : Nat := EEPSIZE - 3

/-- Special mode code `#define BATTCHECK 254`. -/
def BATTCHECK : Nat := 254

/-- Special mode code `#define GROUP_SELECT_MODE 253`. -/
def GROUP_SELECT_MODE : Nat := 253

/-- Special mode code `#define BIKING_STROBE 250`. -/
def BIKING_STROBE : Nat := 250

/-- Special mode code `#define POLICE_STROBE 248`. -/
def POLICE_STROBE : Nat := 248

/-- Special mode code `#define SOS 246`. -/
def SOS : Nat := 246

/-! ## Firmware variants -/

/-- What distinguishes the firmware variants in the code embedded below: the number of mode
groups and the flash table of mode groups. -/
structure Variant where
  NUM_MODEGROUPS : Nat
  modegroups : List Nat

/-- Mode group table of biscotti.c (lines 170 to 185); the last row is cut short in the source. -/
def biscotti : Variant where
  NUM_MODEGROUPS := 12
  modegroups :=
    [ 1, 2, 3, 5, 7, POLICE_STROBE, BIKING_STROBE, BATTCHECK,
      1, 2, 3, 5, 7, 0, 0, 0,
      7, 5, 3, 2, 1, 0, 0, 0,
      2, 4, 7, POLICE_STROBE, BIKING_STROBE, BATTCHECK, SOS, 0,
      2, 4, 7, 0, 0, 0, 0, 0,
      7, 4, 2, 0, 0, 0, 0, 0,
      1, 2, 3, 6, POLICE_STROBE, BIKING_STROBE, BATTCHECK, SOS,
      1, 2, 3, 6, 0, 0, 0, 0,
      6, 3, 2, 1, 0, 0, 0, 0,
      2, 3, 5, 7, 0, 0, 0, 0,
      7, 4, POLICE_STROBE, 0, 0, 0, 0, 0,
      7, 0 ]

/-- Mode group table of simple_NOTES.c (lines 187 to 191). -/
def simple : Variant where
  NUM_MODEGROUPS := 2
  modegroups :=
    [ 1, 2, 3, 4, 5, 6, 7, 0,
      1, 2, 3, 5, 7, 0, 0, 0 ]

/-! ## Program state -/

/-- The global variables of the firmware together with the EEPROM contents. -/
structure State where
  modegroup : Nat
  memory : Nat
  mode_override : Nat
  mode_idx : Nat
  eepos : Nat
  fast_presses : Nat
  long_press : Nat
  solid_modes : Nat
  modes : List Nat
  eeprom : Nat → Nat

/-- The state in which `main` starts: variables without the `.noinit` attribute are zeroed by
the C start-up code, `fast_presses` and `long_press` keep whatever the RAM cells hold, and the
EEPROM holds what earlier runs left in it. -/
def boot_state (eeprom : Nat → Nat) (fast_presses long_press : Nat) : State where
  modegroup := 0
  memory := 0
  mode_override := 0
  mode_idx := 0
  eepos := 0
  fast_presses := fast_presses
  long_press := long_press
  solid_modes := 0
  modes := [0, 0, 0, 0, 0, 0, 0, 0]
  eeprom := eeprom

/-- An erased EEPROM: every byte reads `0xFF`. -/
def blank_eeprom : Nat → Nat := fun _ => 0xff

/-! ## EEPROM and flash access -/

/-- Read of one EEPROM byte (`eeprom_read_byte`). -/
def eeprom_read_byte (e : Nat → Nat) (addr : Nat) : Nat := e addr

/-- Write of one EEPROM byte (`eeprom_write_byte`). -/
def eeprom_write_byte (e : Nat → Nat) (addr val : Nat) : Nat → Nat :=
  fun a => if a = addr then val else e a

/-- Read of one byte of a flash table (`pgm_read_byte`); a read behind the end of the table
yields 0 in this model. -/
def pgm_read_byte (tbl : List Nat) (i : Nat) : Nat := tbl.getD i 0

/-! ## Persistent state store (biscotti.c lines 193 to 299) -/

/-- Embedding of `save_mode`: the cursor moves to the next ring cell, the mode index is written
there and the previous cursor cell is erased, in this order. -/
def save_mode (s : State) : State :=
  let oldpos := s.eepos
  let eepos := (s.eepos + 1) &&& (WEAR_LVL_LEN - 1)
  let e1 := eeprom_write_byte s.eeprom eepos s.mode_idx
  let e2 := eeprom_write_byte e1 oldpos 0xff
  { s with eepos := eepos, eeprom := e2 }

/-- Embedding of `save_state`: `save_mode`, then the three configuration bytes. -/
def save_state (s : State) : State :=
  let s1 := save_mode s
  let e1 := eeprom_write_byte s1.eeprom OPT_modegroup s1.modegroup
  let e2 := eeprom_write_byte e1 OPT_memory s1.memory
  let e3 := eeprom_write_byte e2 OPT_mode_override s1.mode_override
  { s1 with eeprom := e3 }

/-- Embedding of `reset_state`: mode index, mode group and override flag are zeroed and the
state is saved; the variable `memory` is not assigned. -/
def reset_state (s : State) : State :=
  save_state { s with mode_idx := 0, modegroup := 0, mode_override := 0 }

/-- The scan loop of `restore_state`,
`for(eepos=0; eepos<WEAR_LVL_LEN; eepos++) { ... break; }`, entered with `n` cells still to be
visited (`n = WEAR_LVL_LEN - eepos`).  The second component is the flag `first`. -/
def restore_scan : Nat → State → State × Nat
  | 0, s => (s, 1)
  | n + 1, s =>
    let eep := eeprom_read_byte s.eeprom s.eepos
    if eep ≠ 0xff then ({ s with mode_idx := eep }, 0)
    else restore_scan n { s with eepos := s.eepos + 1 }

/-- Embedding of `restore_state`. -/
def restore_state (v : Variant) (s : State) : State :=
  let r := restore_scan WEAR_LVL_LEN { s with eepos := 0 }
  if r.2 ≠ 0 then reset_state r.1
  else
    let s1 := r.1
    let s2 := { s1 with modegroup := eeprom_read_byte s1.eeprom OPT_modegroup }
    let s3 := { s2 with memory := eeprom_read_byte s2.eeprom OPT_memory }
    let s4 := { s3 with mode_override := eeprom_read_byte s3.eeprom OPT_mode_override }
    if s4.modegroup ≥ v.NUM_MODEGROUPS then reset_state s4 else s4

/-! ## Mode selection (biscotti.c lines 301 to 347) -/

/-- Embedding of `next_mode`; `mode_idx += 1` is an `uint8_t` addition. -/
def next_mode (s : State) : State :=
  let s1 := { s with mode_idx := (s.mode_idx + 1) % 256 }
  if s1.mode_idx ≥ s1.solid_modes then { s1 with mode_idx := 0 } else s1

/-- The copy loop of `count_modes`, entered with `n = 8 - count` iterations left before the
test `count<8` fails; `src` is the offset into the table.  It returns the buffer `modes` and
the final `count`. -/
def count_modes_loop (tbl : List Nat) : Nat → Nat → Nat → List Nat → List Nat × Nat
  | 0, _, count, modes => (modes, count)
  | n + 1, src, count, modes =>
    if pgm_read_byte tbl src ≠ 0 then
      count_modes_loop tbl n (src + 1) (count + 1) (modes.set count (pgm_read_byte tbl src))
    else (modes, count)

/-- Embedding of `count_modes`: the row of the active group is copied to `modes` up to its
first zero entry and `solid_modes` is the number of entries copied. -/
def count_modes (v : Variant) (s : State) : State :=
  let r := count_modes_loop v.modegroups 8 (s.modegroup <<< 3) 0 s.modes
  { s with modes := r.1, solid_modes := r.2 }

/-! ## Boot transition (biscotti.c lines 461 to 493) -/

/-- The gesture handling of `main`, from `if (! mode_override)` to `long_press = 0;`. -/
def boot_gesture (s : State) : State :=
  let s1 :=
    if s.mode_override = 0 then
      if s.long_press = 0 then
        next_mode { s with fast_presses := (s.fast_presses + 1) &&& 0x1f }
      else
        let s2 := { s with fast_presses := 0 }
        if s2.memory = 0 then { s2 with mode_idx := 0 } else s2
    else s
  { s1 with long_press := 0 }

/-- The start of `main`: `restore_state`, `count_modes`, the gesture handling and the
`save_mode` that persists the resulting mode index. -/
def main_boot (v : Variant) (s : State) : State :=
  save_mode (boot_gesture (count_modes v (restore_state v s)))

/-! ## Runs of saves -/

/-- A run of `save_mode` calls, one for each mode index of the list in order: the index is
assigned to `mode_idx` and saved. -/
def save_modes : List Nat → State → State
  | [], s => s
  | m :: ms, s => save_modes ms (save_mode { s with mode_idx := m })

/-! ## Predicates on the ring -/

/-- Every cell of the ring holds the sentinel `0xFF`. -/
def RingBlank (s : State) : Prop := ∀ i, i < WEAR_LVL_LEN → s.eeprom i = 0xff

/-- The ring holds at most one cell different from `0xFF`, and if it holds one the cursor
`eepos` is its address. -/
def RingInv (s : State) : Prop :=
  (∀ i j, i < WEAR_LVL_LEN → j < WEAR_LVL_LEN →
    s.eeprom i ≠ 0xff → s.eeprom j ≠ 0xff → i = j) ∧
  (∀ i, i < WEAR_LVL_LEN → s.eeprom i ≠ 0xff → s.eepos = i)

/-- Exactly one cell of the ring is different from `0xFF`: the one under the cursor, and it
holds `m`. -/
def RingLive (s : State) (m : Nat) : Prop :=
  s.eepos < WEAR_LVL_LEN ∧ s.eeprom s.eepos = m ∧
  ∀ i, i < WEAR_LVL_LEN → (s.eeprom i ≠ 0xff ↔ i = s.eepos)

/-- The state that `restore_state` has loaded when the scan stopped at cell `k`, before the
validity check of the mode group. -/
def loaded (s : State) (k : Nat) : State :=
  { s with eepos := k, mode_idx := s.eeprom k, modegroup := s.eeprom OPT_modegroup,
           memory := s.eeprom OPT_memory, mode_override := s.eeprom OPT_mode_override }

/-! ## The main program of biscotti and simple: locals and rendering -/

/-- Number of ramp levels, `#define RAMP_SIZE 7`. -/
def RAMP_SIZE : Nat := 7

/-- Level used by `blink`, `#define BLINK_BRIGHTNESS 3`. -/
def BLINK_BRIGHTNESS : Nat := 3

/-- Timer mode `#define PHASE 0x21`. -/
def PHASE : Nat := 0x21

/-- Timer mode `#define FAST 0x23`. -/
def FAST : Nat := 0x23

/-- The ramp table `ramp_FET` (`#define RAMP_FET 1,7,32,63,107,127,255`). -/
def ramp_FET : List Nat := [1, 7, 32, 63, 107, 127, 255]

/-- The state of `main` in biscotti and simple: the globals with the EEPROM (`st`), the local
variables `output`, `actual_level`, `lowbatt_cnt` and `i`, the timer registers written by
`set_level`, and what the program has done to the outside: `levels` lists the arguments of
all `set_level` calls made so far, the latest first, and `asleep` tells that `sleep_mode()`
was entered in power-down mode, from which the program does not come back. -/
structure Main where
  st : State
  output : Nat
  actual_level : Nat
  lowbatt_cnt : Nat
  i : Nat
  TCCR0A : Nat
  PWM_LVL : Nat
  levels : List Nat
  asleep : Bool

/-- Read of `modes[i]`.  The buffer has eight entries; what a read behind them yields
depends on the memory layout and is the parameter `junk`. -/
def modes_read (junk : Nat) (s : State) (i : Nat) : Nat := s.modes.getD i junk

/-- Embedding of `set_level` (with `set_output` inlined); the call is recorded in `levels`. -/
def set_level (level : Nat) (m : Main) : Main :=
  let m1 := { m with TCCR0A := PHASE, levels := level :: m.levels }
  if level = 0 then { m1 with PWM_LVL := 0 }
  else
    let m2 := if level > 2 then { m1 with TCCR0A := FAST } else m1
    { m2 with PWM_LVL := pgm_read_byte ramp_FET (level - 1) }

/-- The macro `#define set_mode set_level`. -/
def set_mode (level : Nat) (m : Main) : Main := set_level level m

/-- Embedding of `blink(val, speed)`: `val` flashes at `BLINK_BRIGHTNESS`; the delays are
not part of the state. -/
def blink : Nat → Main → Main
  | 0, m => m
  | val + 1, m => blink val (set_level 0 (set_level BLINK_BRIGHTNESS m))

/-- Embedding of `SOS_mode`: three groups of three flashes. -/
def SOS_mode (m : Main) : Main := blink 3 (blink 3 (blink 3 m))

/-- The two options that `toggle` is called on: `&mode_override` and `&memory`. -/
inductive ConfigVar where
  | mode_override
  | memory
  deriving DecidableEq

/-- Read of `*var`. -/
def var_read (var : ConfigVar) (s : State) : Nat :=
  match var with
  | .mode_override => s.mode_override
  | .memory => s.memory

/-- Assignment to `*var`. -/
def var_write (var : ConfigVar) (x : Nat) (s : State) : State :=
  match var with
  | .mode_override => { s with mode_override := x }
  | .memory => { s with memory := x }

/-- The EEPROM address at which `save_state` stores the option. -/
def var_addr (var : ConfigVar) : Nat :=
  match var with
  | .mode_override => OPT_mode_override
  | .memory => OPT_memory

/-- The first half of `toggle`: the option number is blinked, the option is flipped with
`*var ^= 1` and the state is saved.  The result is the state at the start of the commit
window. -/
def toggle_apply (var : ConfigVar) (num : Nat) (m : Main) : Main :=
  let m1 := blink num m
  { m1 with st := save_state (var_write var (var_read var m1.st ^^^ 1) m1.st) }

/-- Embedding of `toggle`: after `toggle_apply` the commit window is the buzz `blink(32, ..)`;
if the program is still running after it, the option is flipped back and saved again. -/
def toggle (var : ConfigVar) (num : Nat) (m : Main) : Main :=
  let m2 := blink 32 (toggle_apply var num m)
  { m2 with st := save_state (var_write var (var_read var m2.st ^^^ 1) m2.st) }

/-- The part of `main` between the boot transition and the loop: `output` and `actual_level`
are looked up in `modes`, and a pending override clears `fast_presses` and puts `mode_idx`
itself into `output`. -/
def main_init (junk : Nat) (s : State) : Main :=
  let output := modes_read junk s s.mode_idx
  let m : Main :=
    { st := s, output := output, actual_level := output, lowbatt_cnt := 0, i := 0,
      TCCR0A := 0, PWM_LVL := 0, levels := [], asleep := false }
  if s.mode_override ≠ 0 then
    { m with st := { s with fast_presses := 0 }, output := s.mode_idx }
  else m

/-! ## The main loop of biscotti and simple -/

/-- The branches of the dispatch at the top of the main loop. -/
inductive Branch where
  | config
  | biking_strobe
  | sos
  | battcheck
  | group_select
  | solid
  deriving DecidableEq

/-- The `if` chain of the main loop of biscotti.c as compiled: `STROBE`, `ANY_STROBE`,
`RANDOM_STROBE` and `RAMP` are not defined, so their branches are absent. -/
def biscotti_branch (m : Main) : Branch :=
  if m.st.fast_presses > 9 then .config
  else if m.output = BIKING_STROBE then .biking_strobe
  else if m.output = SOS then .sos
  else if m.output = BATTCHECK then .battcheck
  else if m.output = GROUP_SELECT_MODE then .group_select
  else .solid

/-- The `if` chain of the main loop of simple_NOTES.c. -/
def simple_branch (m : Main) : Branch :=
  if m.st.fast_presses > 9 then .config
  else if m.output = GROUP_SELECT_MODE then .group_select
  else .solid

/-- The config mode block of the main loop (`if (fast_presses > 9) { ... }`). -/
def config_mode (junk : Nat) (m : Main) : Main :=
  let m1 := { m with st := { m.st with fast_presses := 0, mode_idx := 0 } }
  let m2 := { m1 with st := { m1.st with mode_idx := GROUP_SELECT_MODE } }
  let m3 := toggle .mode_override 1 m2
  let m4 := { m3 with st := { m3.st with mode_idx := 0 } }
  let m5 := toggle .memory 2 m4
  let output := modes_read junk m5.st m5.st.mode_idx
  { m5 with output := output, actual_level := output }

/-- The loop `for(i=0; i<NUM_MODEGROUPS; i++)` of the group selection, entered with
`n = NUM_MODEGROUPS - i` iterations left. -/
def group_select_loop : Nat → Main → Main
  | 0, m => m
  | n + 1, m =>
    let m1 := { m with st := save_state { m.st with modegroup := m.i } }
    let m2 := blink (m1.i + 1) m1
    group_select_loop n { m2 with i := m2.i + 1 }

/-- The group selection block of the main loop. -/
def group_select (v : Variant) (m : Main) : Main :=
  let m1 := { m with st := { m.st with mode_idx := 0, mode_override := 0 } }
  group_select_loop v.NUM_MODEGROUPS { m1 with i := 0 }

/-- The dispatch step of one pass of the main loop for the branch `br`, followed by
`fast_presses = 0;`.  `blinks` is the value that `battcheck()` returns in this pass. -/
def main_dispatch (junk : Nat) (v : Variant) (br : Branch) (blinks : Nat) (m : Main) : Main :=
  let m1 :=
    match br with
    | .config => config_mode junk m
    | .biking_strobe => set_mode 3 (set_mode RAMP_SIZE m)
    | .sos => SOS_mode m
    | .battcheck => blink blinks m
    | .group_select => group_select v m
    | .solid => set_mode m.actual_level m
  { m1 with st := { m1.st with fast_presses := 0 } }

/-- The step-down block of the voltage monitor, run when `lowbatt_cnt >= 8`.  In the last
branch the light is turned off and the program sleeps; the statements after the block are
then never reached. -/
def step_down (m : Main) : Main :=
  if m.actual_level > RAMP_SIZE then
    let m1 := { m with actual_level := RAMP_SIZE / 2 }
    let m2 := set_mode m1.actual_level m1
    { m2 with output := m2.actual_level, lowbatt_cnt := 0 }
  else if m.actual_level > 1 then
    let m1 := { m with actual_level := m.actual_level - 1 }
    let m2 := set_mode m1.actual_level m1
    { m2 with output := m2.actual_level, lowbatt_cnt := 0 }
  else
    { set_level 0 m with asleep := true }

/-- The voltage monitor at the end of a pass of the main loop.  `sample` is the ADC reading
when one is ready (`ADCSRA & (1 << ADIF)`), `ADC_LOW` the calibration constant of
`tk-calibration.h`; `lowbatt_cnt ++` is an `uint8_t` increment. -/
def battery_monitor (ADC_LOW : Nat) (sample : Option Nat) (m : Main) : Main :=
  match sample with
  | none => m
  | some voltage =>
    let m1 :=
      if voltage < ADC_LOW then { m with lowbatt_cnt := (m.lowbatt_cnt + 1) % 256 }
      else { m with lowbatt_cnt := 0 }
    if m1.lowbatt_cnt ≥ 8 then step_down m1 else m1

/-- One pass of the main loop of biscotti; a program that sleeps makes no further pass. -/
def biscotti_pass (junk ADC_LOW : Nat) (sample : Option Nat) (blinks : Nat) (m : Main) : Main :=
  if m.asleep then m
  else battery_monitor ADC_LOW sample (main_dispatch junk biscotti (biscotti_branch m) blinks m)

/-- One pass of the main loop of simple; a program that sleeps makes no further pass. -/
def simple_pass (junk ADC_LOW : Nat) (sample : Option Nat) (m : Main) : Main :=
  if m.asleep then m
  else battery_monitor ADC_LOW sample (main_dispatch junk simple (simple_branch m) 0 m)

/-- The voltage monitor on one ready sample, as the running main loop executes it. -/
def monitor_step (ADC_LOW : Nat) (voltage : Nat) (m : Main) : Main :=
  if m.asleep then m else battery_monitor ADC_LOW (some voltage) m

/-- The voltage monitor over a stream of ready samples, first sample first. -/
def monitor_run (ADC_LOW : Nat) : List Nat → Main → Main
  | [], m => m
  | voltage :: vs, m => monitor_run ADC_LOW vs (monitor_step ADC_LOW voltage m)

/-- For each sample of the stream, whether the monitor acted at it, that is whether it
called `set_level` (to render a lowered level or to turn the light off). -/
def monitor_actions (ADC_LOW : Nat) : List Nat → Main → List Bool
  | [], _ => []
  | voltage :: vs, m =>
    decide ((monitor_step ADC_LOW voltage m).levels ≠ m.levels) ::
      monitor_actions ADC_LOW vs (monitor_step ADC_LOW voltage m)

/-! ## The biscuit variant (biscuit.c) -/

/-- Number of brightness levels including level 0, `#define NUM_LEVELS 8`. -/
def NUM_LEVELS : Nat := 8

/-- The global `num_levels`, initialised to `NUM_LEVELS` and never assigned. -/
def num_levels : Nat := NUM_LEVELS

/-- The table `pwm_values` of biscuit.c. -/
def pwm_values : List Nat := [0, 1, 7, 15, 32, 63, 127, 255]

/-- The state of biscuit: the two `.noinit` variables `long_press` and `level_idx`, the local
`lowbatt_cnt`, the timer registers, the arguments of the `set_level` calls made so far
(latest first) and whether the program has entered its final sleep. -/
structure Biscuit where
  long_press : Nat
  level_idx : Nat
  lowbatt_cnt : Nat
  TCCR0A : Nat
  PWM_LVL : Nat
  levels : List Nat
  asleep : Bool

/-- Embedding of `next_level` of biscuit.c; `level_idx += 1` is an `uint8_t` addition. -/
def biscuit_next_level (b : Biscuit) : Biscuit :=
  let b1 := { b with level_idx := (b.level_idx + 1) % 256 }
  if b1.level_idx ≥ num_levels then { b1 with level_idx := 1 } else b1

/-- Embedding of `set_level` of biscuit.c. -/
def biscuit_set_level (level : Nat) (b : Biscuit) : Biscuit :=
  let b1 := { b with TCCR0A := PHASE, levels := level :: b.levels }
  if level = 0 then { b1 with PWM_LVL := 0 }
  else
    let b2 := if level > 2 then { b1 with TCCR0A := FAST } else b1
    { b2 with PWM_LVL := pgm_read_byte pwm_values level }

/-- The start of `main` of biscuit.c up to the loop, run on the values that the RAM cells of
`long_press` and `level_idx` hold at power-on. -/
def biscuit_boot (long_press level_idx : Nat) : Biscuit :=
  let b : Biscuit :=
    { long_press := long_press, level_idx := level_idx, lowbatt_cnt := 0,
      TCCR0A := 0, PWM_LVL := 0, levels := [], asleep := false }
  let b1 :=
    if b.long_press = 0 ∧ b.level_idx < num_levels then biscuit_next_level b
    else { b with level_idx := 1 }
  let b2 := { b1 with long_press := 0 }
  biscuit_set_level b2.level_idx b2

/-- The voltage monitor of the main loop of biscuit.c on the ADC reading `sample`, when one
is ready. -/
def biscuit_monitor (ADC_LOW : Nat) (sample : Option Nat) (b : Biscuit) : Biscuit :=
  match sample with
  | none => b
  | some voltage =>
    let b1 :=
      if voltage < ADC_LOW then { b with lowbatt_cnt := (b.lowbatt_cnt + 1) % 256 }
      else { b with lowbatt_cnt := 0 }
    if b1.lowbatt_cnt ≥ 8 then
      if b1.level_idx > 1 then
        let b2 := { b1 with level_idx := b1.level_idx - 1 }
        let b3 := biscuit_set_level b2.level_idx b2
        { b3 with lowbatt_cnt := 0 }
      else
        { biscuit_set_level 0 { b1 with level_idx := 0 } with asleep := true }
    else b1

/-- A debounced low-battery event: eight consecutive ready samples with the value `v`,
processed by the voltage monitor. -/
def lowbatt_event (ADC_LOW v : Nat) (m : Main) : Main :=
  monitor_run ADC_LOW (List.replicate 8 v) m

/-! ## Intermediate states, write traces and runs of passes -/

/-- Every live ring cell lies at or above the cursor, so the scan of `restore_state` meets
the cursor cell first when that cell is live. -/
def LiveAbove (s : State) : Prop :=
  ∀ i, i < WEAR_LVL_LEN → s.eeprom i ≠ 0xff → s.eepos ≤ i

/-- The state of the group selection block right after the `save_state` of the iteration
with `i = k`: the first `k` iterations have run completely, then `modegroup = i` was assigned
and saved. -/
def group_select_at (k : Nat) (m : Main) : Main :=
  let m1 := { m with st := { m.st with mode_idx := 0, mode_override := 0 } }
  let mk := group_select_loop k { m1 with i := 0 }
  { mk with st := save_state { mk.st with modegroup := mk.i } }

/-- The EEPROM after a sequence of byte writes, given as pairs of address and value, the
first write first. -/
def apply_writes (e : Nat → Nat) : List (Nat × Nat) → Nat → Nat
  | [] => e
  | w :: ws => apply_writes (eeprom_write_byte e w.1 w.2) ws

/-- The byte writes of `save_mode` in program order: the mode index to the next cell, then
`0xff` to the old cursor cell. -/
def save_mode_writes (s : State) : List (Nat × Nat) :=
  [((s.eepos + 1) &&& (WEAR_LVL_LEN - 1), s.mode_idx), (s.eepos, 0xff)]

/-- The byte writes of a run of `save_mode` calls (see `save_modes`), in program order. -/
def save_modes_writes : List Nat → State → List (Nat × Nat)
  | [], _ => []
  | m :: ms, s =>
    save_mode_writes { s with mode_idx := m } ++
      save_modes_writes ms (save_mode { s with mode_idx := m })

/-- The table offsets that the copy loop of `count_modes` reads, in order, when entered with
`n = 8 - count` iterations left at offset `src`: the loop test reads `src` whenever
`count < 8`, and the body reads the same offset again. -/
def count_modes_reads (tbl : List Nat) : Nat → Nat → List Nat
  | 0, _ => []
  | n + 1, src =>
    src :: (if pgm_read_byte tbl src ≠ 0 then count_modes_reads tbl n (src + 1) else [])

/-- A run of passes of the main loop of biscotti; each pass gets the ADC sample that is
ready, if any, and the value that `battcheck()` would return. -/
def biscotti_run (junk ADC_LOW : Nat) : List (Option Nat × Nat) → Main → Main
  | [], m => m
  | inp :: inps, m =>
    biscotti_run junk ADC_LOW inps (biscotti_pass junk ADC_LOW inp.1 inp.2 m)

/-- A run of passes of the main loop of simple; each pass gets the ADC sample that is ready,
if any. -/
def simple_run (junk ADC_LOW : Nat) : List (Option Nat) → Main → Main
  | [], m => m
  | inp :: inps, m => simple_run junk ADC_LOW inps (simple_pass junk ADC_LOW inp m)

/-! ## Concrete stores and states used as instances -/

/-- A blank ring below a mode group byte of 0. -/
def store_group0 : Nat → Nat := eeprom_write_byte blank_eeprom OPT_modegroup 0

/-- A state on `store_group0` with the cursor where the scan of a blank ring leaves it. -/
def blank_ring_state : State := { boot_state store_group0 0 0 with eepos := WEAR_LVL_LEN }

/-- A store with mode index 2 in ring cell 0, the memory byte set to 1 and the mode group
byte equal to the `NUM_MODEGROUPS` of biscotti; the remaining bytes are erased. -/
def corrupt_group_store : Nat → Nat :=
  eeprom_write_byte (eeprom_write_byte (eeprom_write_byte blank_eeprom 0 2) OPT_memory 1)
    OPT_modegroup 12

/-- A store with mode index 3 in ring cell 0 and every other byte erased, the mode group
byte included. -/
def erased_config_store : Nat → Nat := eeprom_write_byte blank_eeprom 0 3

/-- A store with two live ring cells, 4 in cell 9 and 1 in cell 20, and mode group 1. -/
def two_live_store : Nat → Nat :=
  eeprom_write_byte (eeprom_write_byte (eeprom_write_byte blank_eeprom 9 4) 20 1)
    OPT_modegroup 1

/-- The store left behind when power is cut right after the reverting `save_state` of
`toggle(&mode_override, 1)`: the ring holds `GROUP_SELECT_MODE` while the override byte is 0;
mode group 1 has five modes. -/
def leftover_select_store : Nat → Nat :=
  eeprom_write_byte (eeprom_write_byte (eeprom_write_byte (eeprom_write_byte blank_eeprom
    5 GROUP_SELECT_MODE) OPT_modegroup 1) OPT_memory 0) OPT_mode_override 0

/-- The state that a short-press boot of biscotti restores from `leftover_select_store`. -/
def leftover_select_boot : State :=
  count_modes biscotti (restore_state biscotti (boot_state leftover_select_store 3 0))

/-- A store with mode index 4 in ring cell 17, mode group 0, memory off and override
clear. -/
def mode4_store : Nat → Nat :=
  eeprom_write_byte (eeprom_write_byte (eeprom_write_byte (eeprom_write_byte blank_eeprom
    17 4) OPT_modegroup 0) OPT_memory 0) OPT_mode_override 0

/-- The state that a boot of biscotti restores from `mode4_store` with 31 in `fast_presses`
and the press flag `lp`. -/
def mode4_boot (lp : Nat) : State :=
  count_modes biscotti (restore_state biscotti (boot_state mode4_store 31 lp))

/-- The state that a boot of biscotti restores from `mode4_store` with `fp` in `fast_presses`
and the press flag `lp`. -/
def press_boot (fp lp : Nat) : State :=
  count_modes biscotti (restore_state biscotti (boot_state mode4_store fp lp))

/-- A store with `GROUP_SELECT_MODE` in ring cell 5, mode group 1 and the override flag
set, as `toggle(&mode_override, 1)` leaves it when the light is switched off inside the
commit window. -/
def override_store : Nat → Nat :=
  eeprom_write_byte (eeprom_write_byte (eeprom_write_byte (eeprom_write_byte blank_eeprom
    5 GROUP_SELECT_MODE) OPT_modegroup 1) OPT_memory 0) OPT_mode_override 1

/-- The state that a boot of biscotti restores from `override_store` with 20 in
`fast_presses` and the press flag `lp`. -/
def override_restored (lp : Nat) : State :=
  count_modes biscotti (restore_state biscotti (boot_state override_store 20 lp))

/-- The state of `main` of biscotti at the entry of the loop after a boot from `mode4_store`
with `fp` in `fast_presses` and the press flag `lp`. -/
def loop_entry (fp lp : Nat) : Main :=
  main_init 0 (main_boot biscotti (boot_state mode4_store fp lp))

/-- The store `leftover_select_store` with the memory option switched on. -/
def leftover_memory_store : Nat → Nat :=
  eeprom_write_byte leftover_select_store OPT_memory 1

/-- The EEPROM when power is lost inside `save_mode` called in state `s`, after the write of
the mode index to the next cell and before the erase of the old cursor cell. -/
def torn_store (s : State) : Nat → Nat :=
  apply_writes s.eeprom ((save_mode_writes s).take 1)

/-- The store left by a first boot on an erased EEPROM that loses power inside the
`save_mode` of `reset_state`: cell 1 holds 0 and the configuration bytes are still erased. -/
def first_boot_torn_store : Nat → Nat :=
  torn_store
    { (restore_scan WEAR_LVL_LEN { boot_state blank_eeprom 0 0 with eepos := 0 }).1 with
      mode_idx := 0, modegroup := 0, mode_override := 0 }

/-- The state in which the second boot, on `first_boot_torn_store`, calls `save_mode` from
`reset_state`: the scan stopped at cell 1 and the erased mode group byte was rejected. -/
def second_boot_torn_state : State :=
  { loaded (boot_state first_boot_torn_store 0 0) 1 with
    mode_idx := 0, modegroup := 0, mode_override := 0 }

/-! ## The mode indices handed to `save_mode` -/

/-- The values of `mode_idx` at the `save_mode` calls of `reset_state`: one call, through
`save_state`, after `mode_idx = 0`. -/
def reset_state_saves (s : State) : List Nat :=
  [({ s with mode_idx := 0, modegroup := 0, mode_override := 0 } : State).mode_idx]

/-- The values of `mode_idx` at the `save_mode` calls of `restore_state`, in order. -/
def restore_state_saves (v : Variant) (s : State) : List Nat :=
  let r := restore_scan WEAR_LVL_LEN { s with eepos := 0 }
  if r.2 ≠ 0 then reset_state_saves r.1
  else
    let s1 := r.1
    let s2 := { s1 with modegroup := eeprom_read_byte s1.eeprom OPT_modegroup }
    let s3 := { s2 with memory := eeprom_read_byte s2.eeprom OPT_memory }
    let s4 := { s3 with mode_override := eeprom_read_byte s3.eeprom OPT_mode_override }
    if s4.modegroup ≥ v.NUM_MODEGROUPS then reset_state_saves s4 else []

/-- The values of `mode_idx` at the `save_mode` calls of the start of `main`: those of
`restore_state`, then the call after the gesture handling. -/
def main_boot_saves (v : Variant) (s : State) : List Nat :=
  restore_state_saves v s ++ [(boot_gesture (count_modes v (restore_state v s))).mode_idx]

/-- The values of `mode_idx` at the two `save_mode` calls of `toggle`, made through
`save_state`. -/
def toggle_saves (var : ConfigVar) (num : Nat) (m : Main) : List Nat :=
  let m1 := blink num m
  let m2 := blink 32 (toggle_apply var num m)
  [(var_write var (var_read var m1.st ^^^ 1) m1.st).mode_idx,
   (var_write var (var_read var m2.st ^^^ 1) m2.st).mode_idx]

/-- The values of `mode_idx` at the `save_mode` calls of the config mode block. -/
def config_mode_saves (m : Main) : List Nat :=
  let m1 := { m with st := { m.st with fast_presses := 0, mode_idx := 0 } }
  let m2 := { m1 with st := { m1.st with mode_idx := GROUP_SELECT_MODE } }
  let m3 := toggle .mode_override 1 m2
  let m4 := { m3 with st := { m3.st with mode_idx := 0 } }
  toggle_saves .mode_override 1 m2 ++ toggle_saves .memory 2 m4

/-- The values of `mode_idx` at the `save_mode` calls of the loop of the group selection. -/
def group_select_loop_saves : Nat → Main → List Nat
  | 0, _ => []
  | n + 1, m =>
    let m1 := { m with st := save_state { m.st with modegroup := m.i } }
    let m2 := blink (m1.i + 1) m1
    ({ m.st with modegroup := m.i } : State).mode_idx ::
      group_select_loop_saves n { m2 with i := m2.i + 1 }

/-- The values of `mode_idx` at the `save_mode` calls of the group selection block. -/
def group_select_saves (v : Variant) (m : Main) : List Nat :=
  let m1 := { m with st := { m.st with mode_idx := 0, mode_override := 0 } }
  group_select_loop_saves v.NUM_MODEGROUPS { m1 with i := 0 }

/-- The values of `mode_idx` at the `save_mode` calls of the dispatch step of one pass; the
branches other than the config mode and the group selection save nothing, and neither does
the voltage monitor. -/
def main_dispatch_saves (v : Variant) (br : Branch) (m : Main) : List Nat :=
  match br with
  | .config => config_mode_saves m
  | .group_select => group_select_saves v m
  | _ => []

/-- The values of `mode_idx` at the `save_mode` calls of a run of passes of biscotti. -/
def biscotti_run_saves (junk ADC_LOW : Nat) : List (Option Nat × Nat) → Main → List Nat
  | [], _ => []
  | inp :: inps, m =>
    (if m.asleep then [] else main_dispatch_saves biscotti (biscotti_branch m) m) ++
      biscotti_run_saves junk ADC_LOW inps (biscotti_pass junk ADC_LOW inp.1 inp.2 m)

/-- The values of `mode_idx` at the `save_mode` calls of a run of passes of simple. -/
def simple_run_saves (junk ADC_LOW : Nat) : List (Option Nat) → Main → List Nat
  | [], _ => []
  | inp :: inps, m =>
    (if m.asleep then [] else main_dispatch_saves simple (simple_branch m) m) ++
      simple_run_saves junk ADC_LOW inps (simple_pass junk ADC_LOW inp m)

/-! ## Battery check (tk-voltage.h, `BATTCHECK_4bars`) -/

/-- The table `voltage_blinks` for `BATTCHECK_4bars`; the five thresholds come from
`tk-calibration.h` and are parameters. -/
def voltage_blinks (ADC_0p ADC_25p ADC_50p ADC_75p ADC_100p : Nat) : List Nat :=
  [ADC_0p, ADC_25p, ADC_50p, ADC_75p, ADC_100p, 255]

/-- The scan loop of `battcheck`,
`for (i=0; voltage > pgm_read_byte(voltage_blinks + i); i ++) {}`, entered at index `i` with
the loop test still to be made at most `fuel` times; `i` is an `uint8_t`.  The result is the
value of `i` at which the test fails, or `none` when the test was made `fuel` times without
failing. -/
def battcheck_loop (tbl : List Nat) (voltage : Nat) : Nat → Nat → Option Nat
  | 0, _ => none
  | fuel + 1, i =>
    if voltage > pgm_read_byte tbl i then battcheck_loop tbl voltage fuel ((i + 1) % 256)
    else some i

/-- The table offsets that the scan loop of `battcheck` reads, in order. -/
def battcheck_reads (tbl : List Nat) (voltage : Nat) : Nat → Nat → List Nat
  | 0, _ => []
  | fuel + 1, i =>
    i :: (if voltage > pgm_read_byte tbl i then
      battcheck_reads tbl voltage fuel ((i + 1) % 256) else [])

/-- Embedding of `battcheck` on the reading `voltage` that `get_voltage` returned. -/
def battcheck (tbl : List Nat) (voltage fuel : Nat) : Option Nat :=
  battcheck_loop tbl voltage fuel 0

/-! ## Further concrete stores and states -/

/-- A store with mode index 5 in ring cell 17, mode group 3, memory off and override clear;
a short-press boot of biscotti goes to mode 6 of group 3, the SOS mode. -/
def sos_store : Nat → Nat :=
  eeprom_write_byte (eeprom_write_byte (eeprom_write_byte (eeprom_write_byte blank_eeprom
    17 5) OPT_modegroup 3) OPT_memory 0) OPT_mode_override 0

/-- The state of `main` of biscotti at the entry of the loop after a short-press boot from
`sos_store`. -/
def sos_entry : Main :=
  main_init 0 (main_boot biscotti (boot_state sos_store 0 0))

/-- The state of biscotti after the dispatch step of the eighth pass from `sos_entry`, when
each of the first seven passes read the ADC sample 50 with `ADC_LOW = 100`. -/
def sos_eighth_dispatch : Main :=
  main_dispatch 0 biscotti
    (biscotti_branch (biscotti_run 0 100 (List.replicate 7 (some 50, 0)) sos_entry)) 0
    (biscotti_run 0 100 (List.replicate 7 (some 50, 0)) sos_entry)

/-- The state of `main` of biscotti at the entry of the loop after a boot from
`override_store`, when the byte behind the `modes` buffer reads `junk`. -/
def override_entry (junk : Nat) : Main :=
  main_init junk (main_boot biscotti (boot_state override_store 0 0))

/-! ## Basic facts about the store -/

theorem WEAR_LVL_LEN_eq : WEAR_LVL_LEN = 32 := rfl

theorem OPT_modegroup_eq : OPT_modegroup = 63 := rfl

theorem OPT_memory_eq : OPT_memory = 62 := rfl

theorem OPT_mode_override_eq : OPT_mode_override = 61 := rfl

theorem eeprom_write_byte_apply (e : Nat → Nat) (addr val a : Nat) :
    eeprom_write_byte e addr val a = if a = addr then val else e a := rfl

theorem save_mode_eepos (s : State) : (save_mode s).eepos = (s.eepos + 1) % 32 := by
  show (s.eepos + 1) &&& (2 ^ 5 - 1) = (s.eepos + 1) % 2 ^ 5
  exact Nat.and_pow_two_sub_one_eq_mod _ 5

theorem save_mode_eeprom (s : State) (a : Nat) :
    (save_mode s).eeprom a =
      if a = s.eepos then 0xff else if a = (s.eepos + 1) % 32 then s.mode_idx
      else s.eeprom a := by
  have h : (s.eepos + 1) &&& (WEAR_LVL_LEN - 1) = (s.eepos + 1) % 32 := save_mode_eepos s
  simp only [save_mode, eeprom_write_byte_apply, h]

theorem save_mode_eeprom_high (s : State) (a : Nat) (hc : s.eepos ≤ 32) (ha : 32 < a) :
    (save_mode s).eeprom a = s.eeprom a := by
  rw [save_mode_eeprom]
  have h1 : a ≠ s.eepos := by omega
  have h2 : a ≠ (s.eepos + 1) % 32 := by omega
  simp [h1, h2]

theorem save_modes_eeprom_high (a : Nat) (ha : 32 < a) :
    ∀ (ms : List Nat) (s : State), s.eepos ≤ 32 → (save_modes ms s).eeprom a = s.eeprom a := by
  intro ms
  induction ms with
  | nil => intro s _; rfl
  | cons x xs ih =>
    intro s hc
    have hc2 : (save_mode { s with mode_idx := x }).eepos ≤ 32 := by
      rw [save_mode_eepos]; omega
    show (save_modes xs (save_mode { s with mode_idx := x })).eeprom a = s.eeprom a
    rw [ih _ hc2]
    exact save_mode_eeprom_high { s with mode_idx := x } a hc ha

theorem ringInv_of_blank {s : State} (h : RingBlank s) : RingInv s :=
  ⟨fun i _ hi _ hne _ => absurd (h i hi) hne, fun i hi hne => absurd (h i hi) hne⟩

theorem ringInv_of_live {s : State} {m : Nat} (h : RingLive s m) : RingInv s := by
  obtain ⟨_, _, h3⟩ := h
  refine ⟨fun i j hi hj hi2 hj2 => ?_, fun i hi hi2 => ?_⟩
  · rw [(h3 i hi).1 hi2, (h3 j hj).1 hj2]
  · exact ((h3 i hi).1 hi2).symm

theorem save_mode_ringLive (s : State) (hinv : RingInv s) (hm : s.mode_idx ≠ 0xff) :
    RingLive (save_mode s) s.mode_idx := by
  have hne : (s.eepos + 1) % 32 ≠ s.eepos := by omega
  refine ⟨?_, ?_, ?_⟩
  · rw [save_mode_eepos, WEAR_LVL_LEN_eq]; omega
  · rw [save_mode_eeprom, save_mode_eepos]; simp [hne]
  · intro i hi
    rw [save_mode_eeprom, save_mode_eepos]
    by_cases h1 : i = s.eepos
    · subst h1
      simp [Ne.symm hne]
    · by_cases h2 : i = (s.eepos + 1) % 32
      · simp [h2, hm, hne]
      · simp only [h1, h2, if_false, iff_false, not_not]
        by_contra hl
        exact h1 (hinv.2 i hi hl).symm

theorem save_modes_ringLive (ms : List Nat) (m : Nat) (hms : ∀ x ∈ ms, x ≠ 0xff)
    (hm : m ≠ 0xff) : ∀ s : State, RingInv s → RingLive (save_modes (ms ++ [m]) s) m := by
  induction ms with
  | nil =>
    intro s hinv
    exact save_mode_ringLive { s with mode_idx := m } hinv hm
  | cons x xs ih =>
    intro s hinv
    have hx : x ≠ 0xff := hms x (List.mem_cons_self _ _)
    have hstep := save_mode_ringLive { s with mode_idx := x } hinv hx
    exact ih (fun y hy => hms y (List.mem_cons_of_mem _ hy)) _ (ringInv_of_live hstep)

/-! ## Facts about the restore scan -/

theorem restore_scan_found :
    ∀ (n : Nat) (s : State) (k : Nat), s.eepos ≤ k → k < s.eepos + n →
      (∀ j, s.eepos ≤ j → j < k → s.eeprom j = 0xff) → s.eeprom k ≠ 0xff →
      restore_scan n s = ({ s with eepos := k, mode_idx := s.eeprom k }, 0) := by
  intro n
  induction n with
  | zero => intro s k h1 h2; omega
  | succ n ih =>
    intro s k h1 h2 hbl hk
    by_cases hc : s.eepos = k
    · subst hc
      simp [restore_scan, eeprom_read_byte, hk]
    · have h0 : s.eeprom s.eepos = 0xff := hbl _ (le_refl _) (by omega)
      have := ih { s with eepos := s.eepos + 1 } k (by show s.eepos + 1 ≤ k; omega)
        (by show k < s.eepos + 1 + n; omega)
        (fun j hj1 hj2 => hbl j (by have : s.eepos + 1 ≤ j := hj1; omega) hj2) hk
      simp [restore_scan, eeprom_read_byte, h0, this]

theorem restore_scan_blank :
    ∀ (n : Nat) (s : State), (∀ j, s.eepos ≤ j → j < s.eepos + n → s.eeprom j = 0xff) →
      restore_scan n s = ({ s with eepos := s.eepos + n }, 1) := by
  intro n
  induction n with
  | zero => intro s _; rfl
  | succ n ih =>
    intro s hbl
    have h0 : s.eeprom s.eepos = 0xff := hbl _ (le_refl _) (by omega)
    have := ih { s with eepos := s.eepos + 1 }
      (fun j hj1 hj2 => hbl j (by have : s.eepos + 1 ≤ j := hj1; omega)
        (by have : j < s.eepos + 1 + n := hj2; omega))
    simp [restore_scan, eeprom_read_byte, h0, this, Nat.add_assoc, Nat.add_comm 1 n]

theorem restore_state_found (v : Variant) (s : State) (k : Nat) (hk : k < WEAR_LVL_LEN)
    (hbl : ∀ j, j < k → s.eeprom j = 0xff) (hlive : s.eeprom k ≠ 0xff) :
    restore_state v s =
      if s.eeprom OPT_modegroup ≥ v.NUM_MODEGROUPS then reset_state (loaded s k)
      else loaded s k := by
  have h := restore_scan_found WEAR_LVL_LEN { s with eepos := 0 } k (Nat.zero_le _)
    (by show k < 0 + WEAR_LVL_LEN; omega) (fun j _ hj => hbl j hj) hlive
  simp only [restore_state, h, eeprom_read_byte, loaded]
  simp

theorem restore_state_blank (v : Variant) (s : State) (hbl : RingBlank s) :
    restore_state v s = reset_state { s with eepos := WEAR_LVL_LEN } := by
  have h := restore_scan_blank WEAR_LVL_LEN { s with eepos := 0 } (fun j _ hj => hbl j (by
    have : j < 0 + WEAR_LVL_LEN := hj; omega))
  simp only [restore_state, h]
  simp

theorem ringInv_eepos_le {s : State} (hinv : RingInv s)
    (hcur : RingBlank s → s.eepos ≤ WEAR_LVL_LEN) : s.eepos ≤ 32 := by
  by_cases hb : RingBlank s
  · exact hcur hb
  · unfold RingBlank at hb
    push_neg at hb
    obtain ⟨i, hi, hne⟩ := hb
    have h := hinv.2 i hi hne
    have hi2 : i < 32 := hi
    omega

theorem ringLive_congr {t u : State} {m : Nat} (h : RingLive u m)
    (he : ∀ i, i < WEAR_LVL_LEN → t.eeprom i = u.eeprom i) (hc : t.eepos = u.eepos) :
    RingLive t m := by
  obtain ⟨h1, h2, h3⟩ := h
  refine ⟨hc ▸ h1, ?_, fun i hi => ?_⟩
  · rw [hc, he _ h1, h2]
  · rw [hc, he i hi]
    exact h3 i hi

theorem save_state_eeprom (s : State) (a : Nat) :
    (save_state s).eeprom a =
      if a = OPT_mode_override then s.mode_override
      else if a = OPT_memory then s.memory
      else if a = OPT_modegroup then s.modegroup
      else (save_mode s).eeprom a := rfl

theorem save_state_eeprom_ring (s : State) (i : Nat) (hi : i < WEAR_LVL_LEN) :
    (save_state s).eeprom i = (save_mode s).eeprom i := by
  have hi2 : i < 32 := hi
  rw [save_state_eeprom, OPT_mode_override_eq, OPT_memory_eq, OPT_modegroup_eq]
  have h1 : i ≠ 61 := by omega
  have h2 : i ≠ 62 := by omega
  have h3 : i ≠ 63 := by omega
  simp [h1, h2, h3]

theorem save_state_ringLive (s : State) (hinv : RingInv s) (hm : s.mode_idx ≠ 0xff) :
    RingLive (save_state s) s.mode_idx :=
  ringLive_congr (save_mode_ringLive s hinv hm) (save_state_eeprom_ring s) rfl

theorem restore_state_of_ringLive (v : Variant) (t u : State) (m : Nat) (h : RingLive u m)
    (he : t.eeprom = u.eeprom) (hg : u.eeprom OPT_modegroup < v.NUM_MODEGROUPS) :
    restore_state v t = loaded t u.eepos := by
  have hfound := restore_state_found v t u.eepos h.1
    (fun j hj => by
      rw [he]
      by_contra hl
      have := (h.2.2 j (lt_trans hj h.1)).1 hl
      omega)
    (by rw [he]; exact (h.2.2 _ h.1).2 rfl)
  rw [hfound, he, if_neg (by omega)]

theorem exists_first_live (e : Nat → Nat) (n : Nat) (h : ∃ i, i < n ∧ e i ≠ 0xff) :
    ∃ k, k < n ∧ e k ≠ 0xff ∧ ∀ j, j < k → e j = 0xff := by
  classical
  have hex : ∃ i, e i ≠ 0xff := by
    obtain ⟨i, _, hi⟩ := h
    exact ⟨i, hi⟩
  refine ⟨Nat.find hex, ?_, Nat.find_spec hex, fun j hj => ?_⟩
  · obtain ⟨i, hi, hne⟩ := h
    exact lt_of_le_of_lt (Nat.find_min' hex hne) hi
  · by_contra hl
    exact Nat.find_min hex hj hl

theorem blank_ring_state_blank : RingBlank blank_ring_state := by
  intro i hi
  have hi2 : i < 32 := hi
  show (if i = 63 then 0 else 0xff) = 0xff
  rw [if_neg (by omega)]

/-! ## The claims on the persistent state store -/

/-- C1: wear-levelling round trip.  Start from a store whose ring holds at most one cell
different from `0xFF` with the cursor on that cell, the cursor being anywhere in `0..N`
(`N = WEAR_LVL_LEN = 32`) when the ring is blank, and whose mode group byte is below
`NUM_MODEGROUPS`.  After every non-empty run of `save_mode` calls with mode indices
different from `0xFF`, `restore_state` yields the index of the last call as `mode_idx`; this
holds for every state `t` in which `restore_state` is started on the EEPROM left by the run,
be it the state right after the run or the state of the next boot. -/
theorem save_modes_restore_roundtrip (v : Variant) (s t : State) (ms : List Nat) (m : Nat)
    (hinv : RingInv s) (hcur : RingBlank s → s.eepos ≤ WEAR_LVL_LEN)
    (hgrp : s.eeprom OPT_modegroup < v.NUM_MODEGROUPS)
    (hms : ∀ x ∈ ms, x ≠ 0xff) (hm : m ≠ 0xff)
    (ht : t.eeprom = (save_modes (ms ++ [m]) s).eeprom) :
    (restore_state v t).mode_idx = m := by
  have hlive := save_modes_ringLive ms m hms hm s hinv
  have hframe := save_modes_eeprom_high OPT_modegroup (by decide) (ms ++ [m]) s
    (ringInv_eepos_le hinv hcur)
  rw [restore_state_of_ringLive v t _ m hlive ht (by rw [hframe]; exact hgrp)]
  show t.eeprom _ = m
  rw [ht]
  exact hlive.2.1

/-- C2: single-live-cell invariant.  If the ring holds at most one cell different from `0xFF`
and the cursor points at it when there is one, then after a `save_mode` call with
`mode_idx` different from `0xFF` exactly one ring cell is different from `0xFF`, it holds
`mode_idx` and the cursor points at it.  Hence in a run of saves that starts from a blank
ring the same holds after every save, with the index saved last. -/
theorem save_mode_single_live_cell :
    (∀ s : State, RingInv s → s.mode_idx ≠ 0xff → RingLive (save_mode s) s.mode_idx) ∧
    (∀ (s : State) (ms : List Nat) (m : Nat), RingBlank s → (∀ x ∈ ms, x ≠ 0xff) →
      m ≠ 0xff → RingLive (save_modes (ms ++ [m]) s) m) :=
  ⟨save_mode_ringLive, fun s ms m hb hms hm => save_modes_ringLive ms m hms hm s (ringInv_of_blank hb)⟩

/-- C3: first-boot default.  When every byte of the EEPROM is `0xFF`, `restore_state` run at
boot yields `mode_idx = 0`, `modegroup = 0`, `memory = 0` and `mode_override = 0`; it performs
a `save_state` of these values, after which the ring holds exactly one live cell, with value
0, and the configuration bytes at `EEPSIZE-1`, `EEPSIZE-2` and `EEPSIZE-3` are all 0. -/
theorem restore_state_first_boot (v : Variant) (e : Nat → Nat) (fp lp : Nat)
    (hblank : ∀ a, a < EEPSIZE → e a = 0xff) :
    (restore_state v (boot_state e fp lp)).mode_idx = 0 ∧
    (restore_state v (boot_state e fp lp)).modegroup = 0 ∧
    (restore_state v (boot_state e fp lp)).memory = 0 ∧
    (restore_state v (boot_state e fp lp)).mode_override = 0 ∧
    restore_state v (boot_state e fp lp) =
      save_state { boot_state e fp lp with
        eepos := WEAR_LVL_LEN, mode_idx := 0, modegroup := 0, mode_override := 0 } ∧
    RingLive (restore_state v (boot_state e fp lp)) 0 ∧
    (restore_state v (boot_state e fp lp)).eeprom (EEPSIZE - 1) = 0 ∧
    (restore_state v (boot_state e fp lp)).eeprom (EEPSIZE - 2) = 0 ∧
    (restore_state v (boot_state e fp lp)).eeprom (EEPSIZE - 3) = 0 := by
  have hb : RingBlank (boot_state e fp lp) := fun i hi =>
    hblank i (lt_trans (show i < 32 from hi) (by decide))
  have hb2 : RingBlank { boot_state e fp lp with
      eepos := WEAR_LVL_LEN, mode_idx := 0, modegroup := 0, mode_override := 0 } := hb
  have hr := restore_state_blank v (boot_state e fp lp) hb
  rw [hr]
  refine ⟨rfl, rfl, rfl, rfl, rfl, ?_, rfl, rfl, rfl⟩
  exact save_state_ringLive _ (ringInv_of_blank hb2) (by show (0 : Nat) ≠ 0xff; decide)

theorem save_modes_restore_roundtrip_witness :
    RingInv blank_ring_state ∧
    (RingBlank blank_ring_state → blank_ring_state.eepos ≤ WEAR_LVL_LEN) ∧
    blank_ring_state.eeprom OPT_modegroup < biscotti.NUM_MODEGROUPS ∧
    (restore_state biscotti
      (boot_state (save_modes ([3] ++ [5]) blank_ring_state).eeprom 0 0)).mode_idx = 5 :=
  ⟨(ringInv_of_blank blank_ring_state_blank), fun _ => le_refl _, by decide,
    save_modes_restore_roundtrip biscotti blank_ring_state _ [3] 5
      (ringInv_of_blank blank_ring_state_blank) (fun _ => le_refl _) (by decide) (by decide) (by decide)
      rfl⟩

theorem save_mode_single_live_cell_witness :
    RingInv { blank_ring_state with mode_idx := 4 } ∧
    RingLive (save_mode { blank_ring_state with mode_idx := 4 }) 4 ∧
    RingLive (save_modes ([2, 6] ++ [1]) blank_ring_state) 1 :=
  ⟨(ringInv_of_blank blank_ring_state_blank),
    save_mode_single_live_cell.1 { blank_ring_state with mode_idx := 4 }
      (ringInv_of_blank blank_ring_state_blank) (by decide),
    save_mode_single_live_cell.2 blank_ring_state [2, 6] 1 blank_ring_state_blank
      (by decide) (by decide)⟩

theorem restore_state_first_boot_witness :
    (∀ a, a < EEPSIZE → blank_eeprom a = 0xff) ∧
    (restore_state simple (boot_state blank_eeprom 7 0)).mode_idx = 0 ∧
    RingLive (restore_state simple (boot_state blank_eeprom 7 0)) 0 :=
  ⟨fun _ _ => rfl,
    (restore_state_first_boot simple blank_eeprom 7 0 (fun _ _ => rfl)).1,
    (restore_state_first_boot simple blank_eeprom 7 0 (fun _ _ => rfl)).2.2.2.2.2.1⟩

/-- C4, counterexample: on a store whose mode group byte equals `NUM_MODEGROUPS` and whose
memory byte is 1, `restore_state` does not yield the first-boot defaults: `memory` is 1. -/
theorem restore_state_invalid_group_counterexample :
    corrupt_group_store OPT_modegroup ≥ biscotti.NUM_MODEGROUPS ∧
    (restore_state biscotti (boot_state corrupt_group_store 0 0)).memory = 1 ∧
    ¬ ((restore_state biscotti (boot_state corrupt_group_store 0 0)).mode_idx = 0 ∧
       (restore_state biscotti (boot_state corrupt_group_store 0 0)).modegroup = 0 ∧
       (restore_state biscotti (boot_state corrupt_group_store 0 0)).memory = 0 ∧
       (restore_state biscotti (boot_state corrupt_group_store 0 0)).mode_override = 0) := by
  decide

/-- C4, amended: invalid-group recovery.  When the mode group byte is at least
`NUM_MODEGROUPS`, whatever the other bytes hold, `restore_state` yields `mode_idx = 0`,
`modegroup = 0` and `mode_override = 0`.  The variable `memory` is not reset: it is the byte
stored at `EEPSIZE-2` when the ring holds a live cell, and it keeps the value it had before
the call (0 at boot) when the ring is blank. -/
theorem restore_state_invalid_group (v : Variant) (s : State)
    (hgrp : s.eeprom (EEPSIZE - 1) ≥ v.NUM_MODEGROUPS) :
    (restore_state v s).mode_idx = 0 ∧
    (restore_state v s).modegroup = 0 ∧
    (restore_state v s).mode_override = 0 ∧
    ((∃ i, i < WEAR_LVL_LEN ∧ s.eeprom i ≠ 0xff) →
      (restore_state v s).memory = s.eeprom (EEPSIZE - 2)) ∧
    (RingBlank s → (restore_state v s).memory = s.memory) := by
  by_cases hb : RingBlank s
  · rw [restore_state_blank v s hb]
    refine ⟨rfl, rfl, rfl, fun hex => ?_, fun _ => rfl⟩
    obtain ⟨i, hi, hne⟩ := hex
    exact absurd (hb i hi) hne
  · have hex : ∃ i, i < WEAR_LVL_LEN ∧ s.eeprom i ≠ 0xff := by
      unfold RingBlank at hb
      push_neg at hb
      exact hb
    obtain ⟨k, hk, hlive, hfirst⟩ := exists_first_live s.eeprom WEAR_LVL_LEN hex
    have hg : s.eeprom OPT_modegroup ≥ v.NUM_MODEGROUPS := hgrp
    rw [restore_state_found v s k hk hfirst hlive, if_pos hg]
    exact ⟨rfl, rfl, rfl, fun _ => rfl, fun h => absurd h hb⟩

theorem restore_state_invalid_group_witness :
    corrupt_group_store (EEPSIZE - 1) ≥ biscotti.NUM_MODEGROUPS ∧
    (restore_state biscotti (boot_state corrupt_group_store 0 0)).mode_idx = 0 ∧
    (restore_state biscotti (boot_state corrupt_group_store 0 0)).modegroup = 0 ∧
    (restore_state biscotti (boot_state corrupt_group_store 0 0)).mode_override = 0 :=
  ⟨by decide,
    (restore_state_invalid_group biscotti (boot_state corrupt_group_store 0 0) (by decide)).1,
    (restore_state_invalid_group biscotti (boot_state corrupt_group_store 0 0) (by decide)).2.1,
    (restore_state_invalid_group biscotti (boot_state corrupt_group_store 0 0)
      (by decide)).2.2.1⟩

/-- C5: full-state round trip and layout.  For every state with `modegroup` below
`NUM_MODEGROUPS` and `mode_idx` different from `0xFF`, on a store satisfying the
single-live-cell invariant, `save_state` leaves `modegroup` in byte `EEPSIZE-1`, `memory` in
byte `EEPSIZE-2` and `mode_override` in byte `EEPSIZE-3`, and `restore_state`, started in any
state `t` on the EEPROM so written, returns the same `mode_idx`, `modegroup`, `memory` and
`mode_override`. -/
theorem save_state_restore_roundtrip (v : Variant) (s t : State)
    (hinv : RingInv s) (hgrp : s.modegroup < v.NUM_MODEGROUPS) (hm : s.mode_idx ≠ 0xff)
    (ht : t.eeprom = (save_state s).eeprom) :
    (save_state s).eeprom (EEPSIZE - 1) = s.modegroup ∧
    (save_state s).eeprom (EEPSIZE - 2) = s.memory ∧
    (save_state s).eeprom (EEPSIZE - 3) = s.mode_override ∧
    (restore_state v t).mode_idx = s.mode_idx ∧
    (restore_state v t).modegroup = s.modegroup ∧
    (restore_state v t).memory = s.memory ∧
    (restore_state v t).mode_override = s.mode_override := by
  have hlive := save_state_ringLive s hinv hm
  have hg : (save_state s).eeprom OPT_modegroup < v.NUM_MODEGROUPS := hgrp
  rw [restore_state_of_ringLive v t _ _ hlive ht hg]
  refine ⟨rfl, rfl, rfl, ?_, ?_, ?_, ?_⟩
  · show t.eeprom _ = _
    rw [ht]
    exact hlive.2.1
  · show t.eeprom _ = _
    rw [ht]
    rfl
  · show t.eeprom _ = _
    rw [ht]
    rfl
  · show t.eeprom _ = _
    rw [ht]
    rfl

theorem save_state_restore_roundtrip_witness :
    RingInv { blank_ring_state with mode_idx := 3, modegroup := 5, memory := 1 } ∧
    (restore_state biscotti (boot_state (save_state
      { blank_ring_state with mode_idx := 3, modegroup := 5, memory := 1 }).eeprom 0 0)).memory
      = 1 :=
  ⟨(ringInv_of_blank blank_ring_state_blank),
    (save_state_restore_roundtrip biscotti
      { blank_ring_state with mode_idx := 3, modegroup := 5, memory := 1 } _
      (ringInv_of_blank blank_ring_state_blank) (by decide) (by decide) rfl).2.2.2.2.2.1⟩

/-- C6, counterexample: ring cell 0 is live and holds 3 while the mode group byte is `0xFF`;
`restore_state` ends with `mode_idx = 0` and the cursor on cell 1, not with the value and
the address of the lowest live cell. -/
theorem restore_state_scan_counterexample :
    erased_config_store 0 = 3 ∧
    (restore_state biscotti (boot_state erased_config_store 0 0)).mode_idx = 0 ∧
    (restore_state biscotti (boot_state erased_config_store 0 0)).eepos = 1 ∧
    ¬ ((restore_state biscotti (boot_state erased_config_store 0 0)).mode_idx
          = erased_config_store 0 ∧
       (restore_state biscotti (boot_state erased_config_store 0 0)).eepos = 0) := by
  decide

/-- C6, amended: restore scan.  For every ring content with at least one cell different from
`0xFF`, also when several cells are live, and a mode group byte below `NUM_MODEGROUPS`,
`restore_state` sets `mode_idx` to the value of the lowest-addressed cell different from
`0xFF` in `[0,N)` and the cursor to the address of that cell; `modegroup`, `memory` and
`mode_override` are the bytes at `EEPSIZE-1`, `EEPSIZE-2` and `EEPSIZE-3`, and the EEPROM is
not written. -/
theorem restore_state_scan (v : Variant) (s : State)
    (hex : ∃ i, i < WEAR_LVL_LEN ∧ s.eeprom i ≠ 0xff)
    (hgrp : s.eeprom (EEPSIZE - 1) < v.NUM_MODEGROUPS) :
    ∃ k, k < WEAR_LVL_LEN ∧ s.eeprom k ≠ 0xff ∧ (∀ j, j < k → s.eeprom j = 0xff) ∧
      (restore_state v s).mode_idx = s.eeprom k ∧
      (restore_state v s).eepos = k ∧
      (restore_state v s).modegroup = s.eeprom (EEPSIZE - 1) ∧
      (restore_state v s).memory = s.eeprom (EEPSIZE - 2) ∧
      (restore_state v s).mode_override = s.eeprom (EEPSIZE - 3) ∧
      (restore_state v s).eeprom = s.eeprom := by
  obtain ⟨k, hk, hlive, hfirst⟩ := exists_first_live s.eeprom WEAR_LVL_LEN hex
  refine ⟨k, hk, hlive, hfirst, ?_⟩
  have hg : ¬ s.eeprom OPT_modegroup ≥ v.NUM_MODEGROUPS := not_le.mpr hgrp
  rw [restore_state_found v s k hk hfirst hlive, if_neg hg]
  exact ⟨rfl, rfl, rfl, rfl, rfl, rfl⟩

theorem restore_state_scan_witness :
    (∃ i, i < WEAR_LVL_LEN ∧ two_live_store i ≠ 0xff) ∧
    two_live_store (EEPSIZE - 1) < biscotti.NUM_MODEGROUPS ∧
    ∃ k, k < WEAR_LVL_LEN ∧ two_live_store k ≠ 0xff ∧
      (∀ j, j < k → two_live_store j = 0xff) ∧
      (restore_state biscotti (boot_state two_live_store 0 0)).mode_idx = two_live_store k ∧
      (restore_state biscotti (boot_state two_live_store 0 0)).eepos = k :=
  ⟨⟨9, by decide, by decide⟩, by decide,
    (restore_state_scan biscotti (boot_state two_live_store 0 0)
      ⟨9, by decide, by decide⟩ (by decide)).imp
      (fun _ h => ⟨h.1, h.2.1, h.2.2.1, h.2.2.2.1, h.2.2.2.2.1⟩)⟩

/-! ## Facts about mode selection -/

theorem next_mode_solid_modes (s : State) : (next_mode s).solid_modes = s.solid_modes := by
  unfold next_mode
  dsimp only
  split <;> rfl

theorem next_mode_fast_presses (s : State) : (next_mode s).fast_presses = s.fast_presses := by
  unfold next_mode
  dsimp only
  split <;> rfl

theorem next_mode_mode_idx (s : State) :
    (next_mode s).mode_idx =
      if (s.mode_idx + 1) % 256 ≥ s.solid_modes then 0 else (s.mode_idx + 1) % 256 := by
  unfold next_mode
  dsimp only
  by_cases h : (s.mode_idx + 1) % 256 ≥ s.solid_modes
  · rw [if_pos h, if_pos h]
  · rw [if_neg h, if_neg h]

theorem next_mode_of_lt (s : State) (hi : s.mode_idx < s.solid_modes)
    (hn : s.solid_modes ≤ 256) :
    (next_mode s).mode_idx = (s.mode_idx + 1) % s.solid_modes := by
  rw [next_mode_mode_idx]
  by_cases h : s.mode_idx + 1 < s.solid_modes
  · have h256 : (s.mode_idx + 1) % 256 = s.mode_idx + 1 := Nat.mod_eq_of_lt (by omega)
    rw [h256, if_neg (by omega), Nat.mod_eq_of_lt h]
  · have he : s.mode_idx + 1 = s.solid_modes := by omega
    rw [he, Nat.mod_self]
    split
    · rfl
    · omega

theorem iterate_next_mode (k : Nat) (s : State) (hi : s.mode_idx < s.solid_modes)
    (hn : s.solid_modes ≤ 256) :
    (next_mode^[k] s).mode_idx = (s.mode_idx + k) % s.solid_modes ∧
    (next_mode^[k] s).solid_modes = s.solid_modes := by
  induction k with
  | zero => exact ⟨(Nat.mod_eq_of_lt hi).symm, rfl⟩
  | succ k ih =>
    rw [Function.iterate_succ_apply']
    obtain ⟨ih1, ih2⟩ := ih
    have hlt : (next_mode^[k] s).mode_idx < (next_mode^[k] s).solid_modes := by
      rw [ih1, ih2]
      exact Nat.mod_lt _ (by omega)
    refine ⟨?_, by rw [next_mode_solid_modes, ih2]⟩
    rw [next_mode_of_lt _ hlt (by rw [ih2]; exact hn), ih1, ih2, Nat.mod_add_mod]
    rfl

/-! ## The claims on mode cycling and on the boot transition -/

/-- C7: mode cycling closure.  For every `solid_modes` in `1..8` and every `mode_idx` below
`solid_modes`, `solid_modes` applications of `next_mode` return `mode_idx` to its original
value and no smaller positive number of applications does; all the intermediate indices
stay below `solid_modes`.  (A `mode_idx` below `solid_modes` already makes `solid_modes`
at least 1.) -/
theorem next_mode_cycle (s : State) (h8 : s.solid_modes ≤ 8)
    (hi : s.mode_idx < s.solid_modes) :
    (next_mode^[s.solid_modes] s).mode_idx = s.mode_idx ∧
    (∀ k, 0 < k → k < s.solid_modes → (next_mode^[k] s).mode_idx ≠ s.mode_idx) ∧
    (∀ k, (next_mode^[k] s).mode_idx < s.solid_modes) := by
  have hn : s.solid_modes ≤ 256 := by omega
  refine ⟨?_, fun k hk0 hk => ?_, fun k => ?_⟩
  · rw [(iterate_next_mode _ s hi hn).1, Nat.add_mod_right, Nat.mod_eq_of_lt hi]
  · rw [(iterate_next_mode k s hi hn).1]
    by_cases h : s.mode_idx + k < s.solid_modes
    · rw [Nat.mod_eq_of_lt h]
      omega
    · rw [Nat.mod_eq_sub_mod (by omega), Nat.mod_eq_of_lt (by omega)]
      omega
  · rw [(iterate_next_mode k s hi hn).1]
    exact Nat.mod_lt _ (by omega)

theorem next_mode_cycle_witness :
    (next_mode^[5] { blank_ring_state with solid_modes := 5, mode_idx := 3 }).mode_idx = 3 ∧
    (∀ k, 0 < k → k < 5 →
      (next_mode^[k] { blank_ring_state with solid_modes := 5, mode_idx := 3 }).mode_idx
        ≠ 3) :=
  ⟨(next_mode_cycle { blank_ring_state with solid_modes := 5, mode_idx := 3 }
      (by decide) (by decide)).1,
   (next_mode_cycle { blank_ring_state with solid_modes := 5, mode_idx := 3 }
      (by decide) (by decide)).2.1⟩

/-- C8, counterexample: a short-press boot with the override clear restores `mode_idx = 253`
in a group of five solid modes; the new `mode_idx` is 0, whereas `(253 + 1) mod 5` is 4. -/
theorem boot_short_press_mode_counterexample :
    leftover_select_boot.mode_override = 0 ∧ leftover_select_boot.long_press = 0 ∧
    leftover_select_boot.mode_idx = 253 ∧ leftover_select_boot.solid_modes = 5 ∧
    (boot_gesture leftover_select_boot).mode_idx = 0 ∧
    (leftover_select_boot.mode_idx + 1) % leftover_select_boot.solid_modes = 4 ∧
    (boot_gesture leftover_select_boot).mode_idx ≠
      (leftover_select_boot.mode_idx + 1) % leftover_select_boot.solid_modes := by
  decide

/-- C8, amended: short-press advance.  On a boot with `mode_override` clear and a short
press, for every restored `mode_idx` (any `uint8_t` value other than `0xFF`) and every
`solid_modes`, in particular every one of at least 1, the new `mode_idx` is `(mode_idx + 1) mod solid_modes` when the
restored `mode_idx` is below `solid_modes`, and 0 when it is not. -/
theorem boot_short_press_mode (s : State) (ho : s.mode_override = 0) (hl : s.long_press = 0)
    (hb : s.mode_idx < 256) (hne : s.mode_idx ≠ 0xff) :
    (boot_gesture s).mode_idx =
      if s.mode_idx < s.solid_modes then (s.mode_idx + 1) % s.solid_modes else 0 := by
  have h256 : (s.mode_idx + 1) % 256 = s.mode_idx + 1 := Nat.mod_eq_of_lt (by omega)
  have hg : (boot_gesture s).mode_idx =
      (next_mode { s with fast_presses := (s.fast_presses + 1) &&& 0x1f }).mode_idx := by
    simp only [boot_gesture, ho, hl, if_true]
  rw [hg, next_mode_mode_idx]
  show (if (s.mode_idx + 1) % 256 ≥ s.solid_modes then 0 else (s.mode_idx + 1) % 256) = _
  rw [h256]
  by_cases h : s.mode_idx < s.solid_modes
  · rw [if_pos h]
    by_cases h2 : s.mode_idx + 1 < s.solid_modes
    · rw [if_neg (by omega), Nat.mod_eq_of_lt h2]
    · have he : s.mode_idx + 1 = s.solid_modes := by omega
      rw [if_pos (by omega), he, Nat.mod_self]
  · rw [if_neg h, if_pos (by omega)]

theorem boot_short_press_mode_witness :
    leftover_select_boot.mode_override = 0 ∧ leftover_select_boot.long_press = 0 ∧
    (boot_gesture leftover_select_boot).mode_idx =
      if leftover_select_boot.mode_idx < leftover_select_boot.solid_modes then
        (leftover_select_boot.mode_idx + 1) % leftover_select_boot.solid_modes
      else 0 :=
  ⟨by decide, by decide,
    boot_short_press_mode leftover_select_boot (by decide) (by decide) (by decide)
      (by decide)⟩

/-- C9: fast-press counter update.  On a short-press boot with `mode_override` clear,
`fast_presses` becomes `(fast_presses + 1) & 0x1F`, which is `(fast_presses + 1) mod 32`; so
for every initial value of the counter, in particular every `uint8_t` value `0..255`, the
counter after the boot transition lies in `0..31`, and an old value of 31 wraps to 0. -/
theorem boot_short_press_fast_presses (s : State) (ho : s.mode_override = 0)
    (hl : s.long_press = 0) :
    (boot_gesture s).fast_presses = (s.fast_presses + 1) &&& 0x1f ∧
    (boot_gesture s).fast_presses = (s.fast_presses + 1) % 32 ∧
    (boot_gesture s).fast_presses ≤ 31 ∧
    (s.fast_presses = 31 → (boot_gesture s).fast_presses = 0) := by
  have hg : (boot_gesture s).fast_presses = (s.fast_presses + 1) &&& 0x1f := by
    simp only [boot_gesture, ho, hl, if_true]
    exact next_mode_fast_presses _
  have hmod : (s.fast_presses + 1) &&& 0x1f = (s.fast_presses + 1) % 32 :=
    Nat.and_pow_two_sub_one_eq_mod _ 5
  refine ⟨hg, hg.trans hmod, ?_, fun h31 => ?_⟩
  · rw [hg, hmod]
    omega
  · rw [hg, hmod, h31]

theorem boot_short_press_fast_presses_witness :
    (mode4_boot 0).mode_override = 0 ∧ (mode4_boot 0).long_press = 0 ∧
    (mode4_boot 0).fast_presses = 31 ∧ (boot_gesture (mode4_boot 0)).fast_presses = 0 :=
  ⟨by decide, by decide, by decide,
    (boot_short_press_fast_presses (mode4_boot 0) (by decide) (by decide)).2.2.2
      (by decide)⟩

/-- C10: long-press boot.  On a boot with `mode_override` clear that takes the long-press
branch (`long_press` non-zero), `fast_presses` is set to 0, `mode_idx` becomes 0 when
`memory` is 0 and stays equal to the restored `mode_idx` when `memory` is non-zero. -/
theorem boot_long_press (s : State) (ho : s.mode_override = 0) (hl : s.long_press ≠ 0) :
    (boot_gesture s).fast_presses = 0 ∧
    (s.memory = 0 → (boot_gesture s).mode_idx = 0) ∧
    (s.memory ≠ 0 → (boot_gesture s).mode_idx = s.mode_idx) := by
  refine ⟨?_, fun hm => ?_, fun hm => ?_⟩
  · simp only [boot_gesture, ho, hl, if_true, if_false]
    split <;> rfl
  · simp only [boot_gesture, ho, hl, hm, if_true, if_false]
  · simp only [boot_gesture, ho, hl, hm, if_true, if_false]

theorem boot_long_press_witness :
    (mode4_boot 1).mode_override = 0 ∧ (mode4_boot 1).long_press ≠ 0 ∧
    (mode4_boot 1).memory = 0 ∧ (mode4_boot 1).mode_idx = 4 ∧
    (boot_gesture (mode4_boot 1)).fast_presses = 0 ∧
    (boot_gesture (mode4_boot 1)).mode_idx = 0 :=
  ⟨by decide, by decide, by decide, by decide,
    (boot_long_press (mode4_boot 1) (by decide) (by decide)).1,
    (boot_long_press (mode4_boot 1) (by decide) (by decide)).2.1 (by decide)⟩

/-! ## The claims on the press classification and on the entry into the main loop -/

theorem main_boot_eq (v : Variant) (s : State) :
    main_boot v s = save_mode (boot_gesture (count_modes v (restore_state v s))) := rfl

theorem biscotti_branch_config_iff (m : Main) :
    biscotti_branch m = Branch.config ↔ m.st.fast_presses > 9 := by
  unfold biscotti_branch
  by_cases h : m.st.fast_presses > 9
  · simp only [h, if_true]
  · simp only [h, if_false, iff_false]
    split_ifs <;> exact not_false

theorem simple_branch_config_iff (m : Main) :
    simple_branch m = Branch.config ↔ m.st.fast_presses > 9 := by
  unfold simple_branch
  by_cases h : m.st.fast_presses > 9
  · simp only [h, if_true]
  · simp only [h, if_false, iff_false]
    split_ifs <;> exact not_false

theorem biscuit_set_level_level_idx (level : Nat) (b : Biscuit) :
    (biscuit_set_level level b).level_idx = b.level_idx := by
  unfold biscuit_set_level
  dsimp only
  split
  · rfl
  · split <;> rfl

theorem biscuit_next_level_level_idx (b : Biscuit) :
    (biscuit_next_level b).level_idx =
      if (b.level_idx + 1) % 256 ≥ num_levels then 1 else (b.level_idx + 1) % 256 := by
  unfold biscuit_next_level
  dsimp only
  by_cases h : (b.level_idx + 1) % 256 ≥ num_levels
  · rw [if_pos h, if_pos h]
  · rw [if_neg h, if_neg h]

theorem biscuit_boot_level_idx (lp lv : Nat) :
    (biscuit_boot lp lv).level_idx =
      if lp = 0 ∧ lv < num_levels then
        (if (lv + 1) % 256 ≥ num_levels then 1 else (lv + 1) % 256)
      else 1 := by
  unfold biscuit_boot
  dsimp only
  rw [biscuit_set_level_level_idx]
  by_cases h : lp = 0 ∧ lv < num_levels
  · rw [if_pos h, if_pos h]
    exact biscuit_next_level_level_idx _
  · rw [if_neg h, if_neg h]

/-- C11, counterexample: with the override clear, a biscotti boot at which `long_press` reads
0 increments `fast_presses` (3 to 4) and advances the mode (4 to 5), and a boot at which
`long_press` reads 1 resets `fast_presses` and does not advance the mode; in biscuit a boot
with `long_press = 0` advances the level (4 to 5) and one with `long_press = 1` does not. -/
theorem press_polarity_counterexample :
    (press_boot 3 0).mode_override = 0 ∧ (press_boot 3 0).long_press = 0 ∧
    (press_boot 3 0).mode_idx = 4 ∧
    (boot_gesture (press_boot 3 0)).fast_presses = 4 ∧
    (boot_gesture (press_boot 3 0)).mode_idx = 5 ∧
    ¬ ((boot_gesture (press_boot 3 0)).fast_presses = 0 ∧
       (boot_gesture (press_boot 3 0)).mode_idx = (press_boot 3 0).mode_idx) ∧
    (press_boot 3 1).mode_override = 0 ∧ (press_boot 3 1).long_press ≠ 0 ∧
    (boot_gesture (press_boot 3 1)).fast_presses = 0 ∧
    (boot_gesture (press_boot 3 1)).mode_idx = 0 ∧
    (biscuit_boot 0 4).level_idx = 5 ∧ (biscuit_boot 1 4).level_idx = 1 := by
  decide

/-- C11, amended: press classification polarity.  The boot takes the long-press branch
exactly when the retained flag `long_press` reads non-zero.  With the override clear, a boot
at which `long_press == 0` takes the short-press branch (`fast_presses` incremented modulo
32, mode advanced by `next_mode`), and a boot at which `long_press != 0` takes the long-press
branch (`fast_presses` reset to 0, no mode advance: `mode_idx` kept, or reset to 0 when
`memory` is off).  In biscuit `long_press == 0` with a valid `level_idx` advances the level
with `next_level` and `long_press != 0` sets the level to 1. -/
theorem press_polarity (s : State) (lp lv : Nat) (ho : s.mode_override = 0) :
    (s.long_press = 0 →
      boot_gesture s =
        { next_mode { s with fast_presses := (s.fast_presses + 1) &&& 0x1f } with
          long_press := 0 }) ∧
    (s.long_press ≠ 0 →
      (boot_gesture s).fast_presses = 0 ∧
      (boot_gesture s).mode_idx = if s.memory = 0 then 0 else s.mode_idx) ∧
    (lp = 0 → lv < num_levels →
      (biscuit_boot lp lv).level_idx = if lv + 1 ≥ num_levels then 1 else lv + 1) ∧
    (lp ≠ 0 → (biscuit_boot lp lv).level_idx = 1) := by
  refine ⟨fun hl => ?_, fun hl => ⟨?_, ?_⟩, fun hl hv => ?_, fun hl => ?_⟩
  · simp only [boot_gesture, ho, hl, if_true]
  · simp only [boot_gesture, ho, hl, if_true, if_false]
    split <;> rfl
  · simp only [boot_gesture, ho, hl, if_true, if_false]
    split <;> rfl
  · have hv8 : lv < 8 := hv
    have h256 : (lv + 1) % 256 = lv + 1 := Nat.mod_eq_of_lt (by omega)
    rw [biscuit_boot_level_idx, if_pos ⟨hl, hv⟩, h256]
  · rw [biscuit_boot_level_idx, if_neg (fun h => hl h.1)]

theorem press_polarity_witness :
    (press_boot 3 0).mode_override = 0 ∧
    (boot_gesture (press_boot 3 1)).fast_presses = 0 ∧
    (biscuit_boot 0 7).level_idx = (if 7 + 1 ≥ num_levels then 1 else 7 + 1) :=
  ⟨by decide,
    ((press_polarity (press_boot 3 1) 0 7 (by decide)).2.1 (by decide)).1,
    (press_polarity (press_boot 3 0) 0 7 (by decide)).2.2.1 rfl (by decide)⟩

/-- C12: override boot.  When the restored `mode_override` is non-zero, whatever the press
flag, `memory` and the retained `fast_presses` are, the gesture handling leaves `mode_idx`
at the restored value, `save_mode` writes that value to the next ring cell, `output` is set
to `mode_idx` itself, `fast_presses` is cleared and the first loop pass does not take the
config branch.  Here `s` is the state after `restore_state` and `count_modes`, so that
`save_mode (boot_gesture s)` is the state after the boot transition. -/
theorem override_boot (junk : Nat) (s : State) (ho : s.mode_override ≠ 0) :
    (boot_gesture s).mode_idx = s.mode_idx ∧
    (main_init junk (save_mode (boot_gesture s))).st.mode_idx = s.mode_idx ∧
    (save_mode (boot_gesture s)).eepos = (s.eepos + 1) % 32 ∧
    (save_mode (boot_gesture s)).eeprom ((s.eepos + 1) % 32) = s.mode_idx ∧
    (main_init junk (save_mode (boot_gesture s))).output = s.mode_idx ∧
    (main_init junk (save_mode (boot_gesture s))).st.fast_presses = 0 ∧
    biscotti_branch (main_init junk (save_mode (boot_gesture s))) ≠ Branch.config ∧
    simple_branch (main_init junk (save_mode (boot_gesture s))) ≠ Branch.config := by
  have hg : boot_gesture s = { s with long_press := 0 } := by
    simp only [boot_gesture, ho, if_false]
  have ho2 : (save_mode (boot_gesture s)).mode_override ≠ 0 := by
    rw [hg]; exact ho
  have hinit : main_init junk (save_mode (boot_gesture s)) =
      { st := { save_mode (boot_gesture s) with fast_presses := 0 },
        output := (save_mode (boot_gesture s)).mode_idx,
        actual_level := modes_read junk (save_mode (boot_gesture s))
          (save_mode (boot_gesture s)).mode_idx,
        lowbatt_cnt := 0, i := 0, TCCR0A := 0, PWM_LVL := 0, levels := [],
        asleep := false } := by
    simp only [main_init, ho2, ne_eq, not_false_eq_true, if_true]
  have hne : (s.eepos + 1) % 32 ≠ s.eepos := by omega
  refine ⟨by rw [hg], by rw [hinit, hg]; rfl, by rw [save_mode_eepos, hg], ?_,
    by rw [hinit, hg]; rfl, by rw [hinit], ?_, ?_⟩
  · rw [save_mode_eeprom, hg]
    simp [hne]
  · rw [Ne, biscotti_branch_config_iff, hinit]
    exact Nat.not_lt.mpr (Nat.zero_le 9)
  · rw [Ne, simple_branch_config_iff, hinit]
    exact Nat.not_lt.mpr (Nat.zero_le 9)

theorem override_boot_witness :
    (override_restored 0).mode_override ≠ 0 ∧
    (main_init 0 (save_mode (boot_gesture (override_restored 0)))).output
      = (override_restored 0).mode_idx ∧
    (override_restored 0).mode_idx = GROUP_SELECT_MODE :=
  ⟨by decide, (override_boot 0 (override_restored 0) (by decide)).2.2.2.2.1, by decide⟩

/-- C13: config gesture threshold.  In both variants the main loop takes the config branch
in a pass exactly when `fast_presses > 9` at the start of the pass, and the dispatch step
then is the config block followed by `fast_presses = 0`; a counter of 10 triggers it and a
counter of 9 does not. -/
theorem config_threshold (junk blinks : Nat) (m : Main) :
    (biscotti_branch m = Branch.config ↔ m.st.fast_presses > 9) ∧
    (simple_branch m = Branch.config ↔ m.st.fast_presses > 9) ∧
    (m.st.fast_presses > 9 →
      main_dispatch junk biscotti (biscotti_branch m) blinks m =
        { config_mode junk m with
          st := { (config_mode junk m).st with fast_presses := 0 } } ∧
      main_dispatch junk simple (simple_branch m) blinks m =
        { config_mode junk m with
          st := { (config_mode junk m).st with fast_presses := 0 } }) ∧
    (m.st.fast_presses = 10 →
      biscotti_branch m = Branch.config ∧ simple_branch m = Branch.config) ∧
    (m.st.fast_presses = 9 →
      biscotti_branch m ≠ Branch.config ∧ simple_branch m ≠ Branch.config) := by
  refine ⟨biscotti_branch_config_iff m, simple_branch_config_iff m, fun h => ?_,
    fun h => ?_, fun h => ?_⟩
  · rw [(biscotti_branch_config_iff m).2 h, (simple_branch_config_iff m).2 h]
    exact ⟨rfl, rfl⟩
  · exact ⟨(biscotti_branch_config_iff m).2 (by omega),
      (simple_branch_config_iff m).2 (by omega)⟩
  · exact ⟨fun hc => by have := (biscotti_branch_config_iff m).1 hc; omega,
      fun hc => by have := (simple_branch_config_iff m).1 hc; omega⟩

theorem config_threshold_witness :
    (loop_entry 9 0).st.fast_presses = 10 ∧
    biscotti_branch (loop_entry 9 0) = Branch.config ∧
    (loop_entry 8 0).st.fast_presses = 9 ∧
    biscotti_branch (loop_entry 8 0) ≠ Branch.config :=
  ⟨by decide, ((config_threshold 0 0 (loop_entry 9 0)).2.2.2.1 (by decide)).1,
    by decide, ((config_threshold 0 0 (loop_entry 8 0)).2.2.2.2 (by decide)).1⟩

/-! ## The claim on `count_modes` -/

theorem count_modes_loop_spec (tbl : List Nat) :
    ∀ (n src count : Nat) (modes : List Nat), count + n ≤ modes.length →
      ∃ c, (count_modes_loop tbl n src count modes).2 = count + c ∧ c ≤ n ∧
        (∀ k, k < c → pgm_read_byte tbl (src + k) ≠ 0) ∧
        (c = n ∨ pgm_read_byte tbl (src + c) = 0) ∧
        (∀ k, k < c → (count_modes_loop tbl n src count modes).1[count + k]?
          = some (pgm_read_byte tbl (src + k))) ∧
        (∀ k, k < count → (count_modes_loop tbl n src count modes).1[k]? = modes[k]?) ∧
        (count_modes_loop tbl n src count modes).1.length = modes.length := by
  intro n
  induction n with
  | zero =>
    intro src count modes _
    exact ⟨0, rfl, le_refl _, fun k hk => absurd hk (Nat.not_lt_zero k), Or.inl rfl,
      fun k hk => absurd hk (Nat.not_lt_zero k), fun _ _ => rfl, rfl⟩
  | succ n ih =>
    intro src count modes hlen
    by_cases h : pgm_read_byte tbl src ≠ 0
    · have hstep : count_modes_loop tbl (n + 1) src count modes =
          count_modes_loop tbl n (src + 1) (count + 1)
            (modes.set count (pgm_read_byte tbl src)) := by
        simp only [count_modes_loop, h, ne_eq, not_false_eq_true, if_true]
      obtain ⟨c, h1, h2, h3, h4, h5, h6, h7⟩ :=
        ih (src + 1) (count + 1) (modes.set count (pgm_read_byte tbl src))
          (by rw [List.length_set]; omega)
      rw [hstep]
      refine ⟨c + 1, by rw [h1]; omega, by omega, ?_, ?_, ?_, ?_, ?_⟩
      · intro k hk
        cases k with
        | zero => exact h
        | succ k =>
          have := h3 k (by omega)
          rwa [show src + 1 + k = src + (k + 1) by omega] at this
      · rcases h4 with h4 | h4
        · exact Or.inl (by omega)
        · exact Or.inr (by rwa [show src + 1 + c = src + (c + 1) by omega] at h4)
      · intro k hk
        cases k with
        | zero =>
          have h0 := h6 count (by omega)
          rw [List.getElem?_set_self (by omega)] at h0
          exact h0
        | succ k =>
          have := h5 k (by omega)
          rwa [show count + 1 + k = count + (k + 1) by omega,
            show src + 1 + k = src + (k + 1) by omega] at this
      · intro k hk
        rw [h6 k (by omega), List.getElem?_set_ne (by omega)]
      · rw [h7, List.length_set]
    · have hstep : count_modes_loop tbl (n + 1) src count modes = (modes, count) := by
        simp only [count_modes_loop, h, if_false]
      rw [hstep]
      refine ⟨0, rfl, Nat.zero_le _, fun k hk => absurd hk (Nat.not_lt_zero k),
        Or.inr (by simpa using h), fun k hk => absurd hk (Nat.not_lt_zero k),
        fun _ _ => rfl, rfl⟩

theorem count_modes_solid_le (v : Variant) (s : State) (hlen : s.modes.length = 8) :
    (count_modes v s).solid_modes ≤ 8 := by
  obtain ⟨c, h1, h2, _⟩ :=
    count_modes_loop_spec v.modegroups 8 (s.modegroup <<< 3) 0 s.modes (by omega)
  show (count_modes_loop v.modegroups 8 (s.modegroup <<< 3) 0 s.modes).2 ≤ 8
  rw [h1]; omega

/-- C14: `count_modes`.  For every mode group, in particular every one below
`NUM_MODEGROUPS`, `solid_modes` is the length of the longest prefix of non-zero entries among
the first 8 entries of the row of the group: it is at most 8, the row entries below it are
non-zero, and it is 8 or the row entry at offset `solid_modes` is 0; the buffer entries
`modes[0..solid_modes-1]` are those row entries in order.  The row entry at offset `k` is
`modegroups[8 * modegroup + k]`, and `modes` is a buffer of 8 entries. -/
theorem count_modes_spec (v : Variant) (s : State) (hlen : s.modes.length = 8) :
    (count_modes v s).solid_modes ≤ 8 ∧
    (∀ k, k < (count_modes v s).solid_modes →
      pgm_read_byte v.modegroups (8 * s.modegroup + k) ≠ 0) ∧
    ((count_modes v s).solid_modes = 8 ∨
      pgm_read_byte v.modegroups (8 * s.modegroup + (count_modes v s).solid_modes) = 0) ∧
    (∀ k, k < (count_modes v s).solid_modes →
      (count_modes v s).modes[k]? = some (pgm_read_byte v.modegroups (8 * s.modegroup + k))) ∧
    (count_modes v s).modes.length = 8 := by
  have hsrc : s.modegroup <<< 3 = 8 * s.modegroup := by
    rw [Nat.shiftLeft_eq]; omega
  obtain ⟨c, h1, h2, h3, h4, h5, _, h7⟩ :=
    count_modes_loop_spec v.modegroups 8 (s.modegroup <<< 3) 0 s.modes (by omega)
  rw [hsrc] at h1 h3 h4 h5 h7
  have hsolid : (count_modes v s).solid_modes = c := by
    show (count_modes_loop v.modegroups 8 (s.modegroup <<< 3) 0 s.modes).2 = c
    rw [hsrc, h1, Nat.zero_add]
  have hmodes : (count_modes v s).modes =
      (count_modes_loop v.modegroups 8 (8 * s.modegroup) 0 s.modes).1 := by
    show (count_modes_loop v.modegroups 8 (s.modegroup <<< 3) 0 s.modes).1 = _
    rw [hsrc]
  rw [hsolid, hmodes]
  refine ⟨h2, h3, h4, fun k hk => ?_, by rw [h7, hlen]⟩
  have := h5 k hk
  rwa [Nat.zero_add] at this

theorem count_modes_spec_witness :
    (boot_state blank_eeprom 0 0).modes.length = 8 ∧
    (count_modes biscotti { boot_state blank_eeprom 0 0 with modegroup := 3 }).solid_modes
      ≤ 8 ∧
    (count_modes biscotti { boot_state blank_eeprom 0 0 with modegroup := 3 }).solid_modes
      = 7 ∧
    (count_modes biscotti { boot_state blank_eeprom 0 0 with modegroup := 11 }).solid_modes
      = 1 ∧
    (count_modes simple { boot_state blank_eeprom 0 0 with modegroup := 1 }).solid_modes
      = 5 :=
  ⟨rfl,
    (count_modes_spec biscotti { boot_state blank_eeprom 0 0 with modegroup := 3 } rfl).1,
    by decide, by decide, by decide⟩

/-! ## Facts about rendering and the voltage monitor -/

theorem set_level_st (level : Nat) (m : Main) : (set_level level m).st = m.st := by
  unfold set_level
  dsimp only
  split
  · rfl
  · split <;> rfl

theorem set_level_levels (level : Nat) (m : Main) :
    (set_level level m).levels = level :: m.levels := by
  unfold set_level
  dsimp only
  split
  · rfl
  · split <;> rfl

theorem set_level_asleep (level : Nat) (m : Main) :
    (set_level level m).asleep = m.asleep := by
  unfold set_level
  dsimp only
  split
  · rfl
  · split <;> rfl

theorem set_level_locals (level : Nat) (m : Main) :
    (set_level level m).output = m.output ∧
    (set_level level m).actual_level = m.actual_level ∧
    (set_level level m).lowbatt_cnt = m.lowbatt_cnt ∧
    (set_level level m).i = m.i := by
  unfold set_level
  dsimp only
  split
  · exact ⟨rfl, rfl, rfl, rfl⟩
  · split <;> exact ⟨rfl, rfl, rfl, rfl⟩

theorem set_level_zero_pwm (m : Main) : (set_level 0 m).PWM_LVL = 0 := rfl

theorem step_down_high (m : Main) (h : m.actual_level > RAMP_SIZE) :
    (step_down m).actual_level = 3 ∧ (step_down m).output = 3 ∧
    (step_down m).levels = 3 :: m.levels ∧ (step_down m).lowbatt_cnt = 0 ∧
    (step_down m).asleep = m.asleep ∧ (step_down m).st = m.st ∧
    (step_down m).i = m.i := by
  unfold step_down
  rw [if_pos h]
  exact ⟨rfl, rfl, rfl, rfl, rfl, rfl, rfl⟩

theorem step_down_solid (m : Main) (h1 : ¬ m.actual_level > RAMP_SIZE)
    (h2 : m.actual_level > 1) :
    (step_down m).actual_level = m.actual_level - 1 ∧
    (step_down m).output = m.actual_level - 1 ∧
    (step_down m).levels = (m.actual_level - 1) :: m.levels ∧
    (step_down m).lowbatt_cnt = 0 ∧
    (step_down m).asleep = m.asleep ∧ (step_down m).st = m.st ∧
    (step_down m).i = m.i := by
  unfold step_down
  rw [if_neg h1, if_pos h2]
  dsimp only [set_mode]
  exact ⟨(set_level_locals _ _).2.1, (set_level_locals _ _).2.1, set_level_levels _ _, rfl,
    set_level_asleep _ _, set_level_st _ _, (set_level_locals _ _).2.2.2⟩

theorem step_down_off (m : Main) (h : m.actual_level ≤ 1) :
    (step_down m).actual_level = m.actual_level ∧ (step_down m).output = m.output ∧
    (step_down m).levels = 0 :: m.levels ∧ (step_down m).lowbatt_cnt = m.lowbatt_cnt ∧
    (step_down m).asleep = true ∧ (step_down m).st = m.st ∧ (step_down m).i = m.i ∧
    (step_down m).PWM_LVL = 0 := by
  have h1 : ¬ m.actual_level > RAMP_SIZE := by
    have : RAMP_SIZE = 7 := rfl
    omega
  have h2 : ¬ m.actual_level > 1 := by omega
  unfold step_down
  rw [if_neg h1, if_neg h2]
  exact ⟨rfl, rfl, rfl, rfl, rfl, rfl, rfl, rfl⟩

theorem battery_monitor_high (ADC_LOW v : Nat) (m : Main) (hv : ¬ v < ADC_LOW) :
    battery_monitor ADC_LOW (some v) m = { m with lowbatt_cnt := 0 } := by
  simp only [battery_monitor, hv, if_false]
  rfl

theorem battery_monitor_low (ADC_LOW v : Nat) (m : Main) (hv : v < ADC_LOW)
    (hc : m.lowbatt_cnt < 7) :
    battery_monitor ADC_LOW (some v) m = { m with lowbatt_cnt := m.lowbatt_cnt + 1 } := by
  have h256 : (m.lowbatt_cnt + 1) % 256 = m.lowbatt_cnt + 1 := Nat.mod_eq_of_lt (by omega)
  have h8 : ¬ m.lowbatt_cnt + 1 ≥ 8 := by omega
  simp only [battery_monitor, hv, h256, h8, if_true, if_false]

theorem battery_monitor_fire (ADC_LOW v : Nat) (m : Main) (hv : v < ADC_LOW)
    (hc : (m.lowbatt_cnt + 1) % 256 ≥ 8) :
    battery_monitor ADC_LOW (some v) m =
      step_down { m with lowbatt_cnt := (m.lowbatt_cnt + 1) % 256 } := by
  simp only [battery_monitor, hv, hc, if_true]

theorem step_down_levels_ne (m : Main) : (step_down m).levels ≠ m.levels := by
  have hcons : ∀ (x : Nat) (l : List Nat), x :: l ≠ l := fun x l h => by
    have := congrArg List.length h
    simp at this
  by_cases h : m.actual_level > RAMP_SIZE
  · rw [(step_down_high m h).2.2.1]
    exact hcons _ _
  · by_cases h2 : m.actual_level > 1
    · rw [(step_down_solid m h h2).2.2.1]
      exact hcons _ _
    · rw [(step_down_off m (by omega)).2.2.1]
      exact hcons _ _

theorem step_down_asleep_or (m : Main) :
    (step_down m).asleep = true ∨
      ((step_down m).lowbatt_cnt = 0 ∧ (step_down m).asleep = m.asleep) := by
  by_cases h : m.actual_level > RAMP_SIZE
  · exact Or.inr ⟨(step_down_high m h).2.2.2.1, (step_down_high m h).2.2.2.2.1⟩
  · by_cases h2 : m.actual_level > 1
    · exact Or.inr ⟨(step_down_solid m h h2).2.2.2.1, (step_down_solid m h h2).2.2.2.2.1⟩
    · exact Or.inl (step_down_off m (by omega)).2.2.2.2.1

theorem monitor_step_asleep (ADC_LOW v : Nat) (m : Main) (h : m.asleep = true) :
    monitor_step ADC_LOW v m = m := by
  simp only [monitor_step, h, if_true]

theorem monitor_step_awake (ADC_LOW v : Nat) (m : Main) (h : m.asleep = false) :
    monitor_step ADC_LOW v m = battery_monitor ADC_LOW (some v) m := by
  simp only [monitor_step, h, Bool.false_eq_true, if_false]

/-- What one sample does to a running monitor whose counter is below 8. -/
theorem monitor_step_cases (ADC_LOW v : Nat) (m : Main) (hr : m.asleep = false)
    (hc : m.lowbatt_cnt ≤ 7) :
    (v < ADC_LOW ∧ m.lowbatt_cnt < 7 ∧
      monitor_step ADC_LOW v m = { m with lowbatt_cnt := m.lowbatt_cnt + 1 }) ∨
    (¬ v < ADC_LOW ∧ monitor_step ADC_LOW v m = { m with lowbatt_cnt := 0 }) ∨
    (v < ADC_LOW ∧ m.lowbatt_cnt = 7 ∧
      monitor_step ADC_LOW v m = step_down { m with lowbatt_cnt := 8 }) := by
  rw [monitor_step_awake ADC_LOW v m hr]
  by_cases hv : v < ADC_LOW
  · by_cases h7 : m.lowbatt_cnt < 7
    · exact Or.inl ⟨hv, h7, battery_monitor_low ADC_LOW v m hv h7⟩
    · have h7e : m.lowbatt_cnt = 7 := by omega
      refine Or.inr (Or.inr ⟨hv, h7e, ?_⟩)
      rw [battery_monitor_fire ADC_LOW v m hv (by omega), h7e]
  · exact Or.inr (Or.inl ⟨hv, battery_monitor_high ADC_LOW v m hv⟩)

theorem monitor_actions_asleep (ADC_LOW : Nat) :
    ∀ (vs : List Nat) (m : Main) (k : Nat), m.asleep = true →
      (monitor_actions ADC_LOW vs m)[k]? ≠ some true := by
  intro vs
  induction vs with
  | nil => intro m k _; simp [monitor_actions]
  | cons v vs ih =>
    intro m k h
    have hs := monitor_step_asleep ADC_LOW v m h
    cases k with
    | zero => simp [monitor_actions, hs]
    | succ k =>
      simp only [monitor_actions, List.getElem?_cons_succ, hs]
      exact ih m k h

/-- The facts about one monitor step that the debounce argument uses: the counter stays
below 8 unless the program falls asleep, an action needs a counter of 7 and a low sample, and
a counter that is positive afterwards was incremented by a low sample without an action. -/
theorem monitor_step_facts (ADC_LOW v : Nat) (m : Main) (hr : m.asleep = false)
    (hc : m.lowbatt_cnt ≤ 7) :
    ((monitor_step ADC_LOW v m).asleep = true ∨ (monitor_step ADC_LOW v m).lowbatt_cnt ≤ 7) ∧
    ((monitor_step ADC_LOW v m).levels ≠ m.levels → m.lowbatt_cnt = 7 ∧ v < ADC_LOW) ∧
    ((monitor_step ADC_LOW v m).asleep = false → 1 ≤ (monitor_step ADC_LOW v m).lowbatt_cnt →
      v < ADC_LOW ∧ (monitor_step ADC_LOW v m).levels = m.levels ∧
      (monitor_step ADC_LOW v m).lowbatt_cnt = m.lowbatt_cnt + 1) := by
  rcases monitor_step_cases ADC_LOW v m hr hc with ⟨hv, h7, hs⟩ | ⟨_, hs⟩ | ⟨hv, h7, hs⟩
  · rw [hs]
    exact ⟨Or.inr (by show m.lowbatt_cnt + 1 ≤ 7; omega), fun h => absurd rfl h,
      fun _ _ => ⟨hv, rfl, rfl⟩⟩
  · rw [hs]
    refine ⟨Or.inr (Nat.zero_le 7), fun h => absurd rfl h, fun _ h1 => ?_⟩
    have h0 : (0 : Nat) ≥ 1 := h1
    omega
  · rw [hs]
    refine ⟨?_, fun _ => ⟨h7, hv⟩, fun ha h1 => ?_⟩
    · rcases step_down_asleep_or { m with lowbatt_cnt := 8 } with h | h
      · exact Or.inl h
      · exact Or.inr (by rw [h.1]; omega)
    · rcases step_down_asleep_or { m with lowbatt_cnt := 8 } with h | h
      · rw [h] at ha
        exact absurd ha (by decide)
      · rw [h.1] at h1
        omega

theorem monitor_actions_window (ADC_LOW : Nat) :
    ∀ (vs : List Nat) (m : Main) (k : Nat), m.asleep = true ∨ m.lowbatt_cnt ≤ 7 →
      (monitor_actions ADC_LOW vs m)[k]? = some true →
      7 ≤ k + m.lowbatt_cnt ∧
      (∀ j, j ≤ k → k ≤ j + 7 → ∃ v, vs[j]? = some v ∧ v < ADC_LOW) ∧
      (∀ j, j < k → k ≤ j + 7 → (monitor_actions ADC_LOW vs m)[j]? = some false) := by
  intro vs
  induction vs with
  | nil =>
    intro m k _ hact
    simp [monitor_actions] at hact
  | cons v vs ih =>
    intro m k hinv hact
    have hr : m.asleep = false := by
      cases h : m.asleep with
      | false => rfl
      | true => exact absurd hact (monitor_actions_asleep ADC_LOW (v :: vs) m k h)
    have hc : m.lowbatt_cnt ≤ 7 := by
      rcases hinv with h | h
      · rw [hr] at h
        exact absurd h (by decide)
      · exact h
    obtain ⟨f1, f2, f3⟩ := monitor_step_facts ADC_LOW v m hr hc
    have hunf : monitor_actions ADC_LOW (v :: vs) m =
        decide ((monitor_step ADC_LOW v m).levels ≠ m.levels) ::
          monitor_actions ADC_LOW vs (monitor_step ADC_LOW v m) := rfl
    rw [hunf] at hact ⊢
    cases k with
    | zero =>
      rw [List.getElem?_cons_zero] at hact
      have hd : (monitor_step ADC_LOW v m).levels ≠ m.levels :=
        of_decide_eq_true (Option.some.inj hact)
      obtain ⟨h7, hv⟩ := f2 hd
      refine ⟨by omega, fun j hj _ => ?_, fun j hj _ => absurd hj (Nat.not_lt_zero j)⟩
      have hj0 : j = 0 := by omega
      subst hj0
      exact ⟨v, List.getElem?_cons_zero, hv⟩
    | succ k =>
      rw [List.getElem?_cons_succ] at hact
      have hr1 : (monitor_step ADC_LOW v m).asleep = false := by
        cases h : (monitor_step ADC_LOW v m).asleep with
        | false => rfl
        | true => exact absurd hact (monitor_actions_asleep ADC_LOW vs _ k h)
      obtain ⟨i1, i2, i3⟩ := ih (monitor_step ADC_LOW v m) k f1 hact
      refine ⟨?_, fun j hj hw => ?_, fun j hj hw => ?_⟩
      · by_cases h1 : 1 ≤ (monitor_step ADC_LOW v m).lowbatt_cnt
        · have := (f3 hr1 h1).2.2
          omega
        · omega
      · cases j with
        | zero => exact ⟨v, List.getElem?_cons_zero, (f3 hr1 (by omega)).1⟩
        | succ j =>
          rw [List.getElem?_cons_succ]
          exact i2 j (by omega) (by omega)
      · cases j with
        | zero =>
          rw [List.getElem?_cons_zero]
          have hl := (f3 hr1 (by omega)).2.1
          exact congrArg some (decide_eq_false (fun hne => hne hl))
        | succ j =>
          rw [List.getElem?_cons_succ]
          exact i3 j (by omega) (by omega)

theorem monitor_run_append (ADC_LOW : Nat) (as bs : List Nat) :
    ∀ m : Main, monitor_run ADC_LOW (as ++ bs) m =
      monitor_run ADC_LOW bs (monitor_run ADC_LOW as m) := by
  induction as with
  | nil => intro m; rfl
  | cons a as ih => intro m; exact ih _

theorem monitor_actions_append (ADC_LOW : Nat) (as bs : List Nat) :
    ∀ m : Main, monitor_actions ADC_LOW (as ++ bs) m =
      monitor_actions ADC_LOW as m ++ monitor_actions ADC_LOW bs (monitor_run ADC_LOW as m) := by
  induction as with
  | nil => intro m; rfl
  | cons a as ih =>
    intro m
    show _ :: monitor_actions ADC_LOW (as ++ bs) _ = _ :: _ ++ _
    rw [ih]
    rfl

theorem monitor_lows (ADC_LOW : Nat) :
    ∀ (lows : List Nat) (m : Main), m.asleep = false → (∀ x ∈ lows, x < ADC_LOW) →
      m.lowbatt_cnt + lows.length ≤ 7 →
      monitor_run ADC_LOW lows m = { m with lowbatt_cnt := m.lowbatt_cnt + lows.length } ∧
      monitor_actions ADC_LOW lows m = List.replicate lows.length false := by
  intro lows
  induction lows with
  | nil => intro m _ _ _; exact ⟨rfl, rfl⟩
  | cons v vs ih =>
    intro m hr hlow hlen
    have hlen2 : m.lowbatt_cnt + (vs.length + 1) ≤ 7 := hlen
    have hs : monitor_step ADC_LOW v m = { m with lowbatt_cnt := m.lowbatt_cnt + 1 } := by
      rw [monitor_step_awake ADC_LOW v m hr]
      exact battery_monitor_low ADC_LOW v m (hlow v (List.mem_cons_self _ _)) (by omega)
    obtain ⟨h1, h2⟩ := ih { m with lowbatt_cnt := m.lowbatt_cnt + 1 } hr
      (fun x hx => hlow x (List.mem_cons_of_mem _ hx))
      (by show m.lowbatt_cnt + 1 + vs.length ≤ 7; omega)
    constructor
    · show monitor_run ADC_LOW vs (monitor_step ADC_LOW v m) = _
      rw [hs, h1]
      show ({ m with lowbatt_cnt := m.lowbatt_cnt + 1 + vs.length } : Main) =
        { m with lowbatt_cnt := m.lowbatt_cnt + (vs.length + 1) }
      rw [Nat.add_assoc, Nat.add_comm 1]
    · show decide ((monitor_step ADC_LOW v m).levels ≠ m.levels) ::
        monitor_actions ADC_LOW vs (monitor_step ADC_LOW v m) = _
      rw [hs, h2]
      show decide (m.levels ≠ m.levels) :: _ = _
      rw [decide_eq_false (fun hne => hne rfl)]
      rfl

/-! ## The claims on the voltage monitor -/

/-- C15, counterexample: the loop is entered at level 1 with `lowbatt_cnt = 0`; eight low
samples (50, with `ADC_LOW` taken as 130) trigger exactly one action, at the eighth sample,
but the action is the shutdown and the counter is left at 8, not at 0. -/
theorem battery_debounce_counterexample :
    (loop_entry 3 1).lowbatt_cnt = 0 ∧ (loop_entry 3 1).actual_level = 1 ∧
    (loop_entry 3 1).asleep = false ∧
    monitor_actions 130 (List.replicate 8 50) (loop_entry 3 1)
      = [false, false, false, false, false, false, false, true] ∧
    (monitor_run 130 (List.replicate 8 50) (loop_entry 3 1)).asleep = true ∧
    (monitor_run 130 (List.replicate 8 50) (loop_entry 3 1)).lowbatt_cnt = 8 ∧
    (monitor_run 130 (List.replicate 8 50) (loop_entry 3 1)).lowbatt_cnt ≠ 0 := by
  decide

/-- C15, amended: battery debounce.  Over any stream of ready ADC samples processed by the
main loop starting with `lowbatt_cnt = 0`, an action (step-down or shutdown) happens at a
sample only if that sample and the 7 samples directly before it were all below `ADC_LOW`
with no action among those 7.  Seven consecutive low samples followed by one sample at or
above `ADC_LOW` trigger no action.  Eight consecutive low samples trigger exactly one action,
at the eighth; a step-down (level above 1) leaves `lowbatt_cnt = 0`, whereas the shutdown
(level 0 or 1) puts the program to sleep before the counter is reset, so it stays 8. -/
theorem battery_debounce (ADC_LOW : Nat) (m : Main) (hc : m.lowbatt_cnt = 0) :
    (∀ (vs : List Nat) (k : Nat), (monitor_actions ADC_LOW vs m)[k]? = some true →
      7 ≤ k ∧
      (∀ j, j ≤ k → k ≤ j + 7 → ∃ v, vs[j]? = some v ∧ v < ADC_LOW) ∧
      (∀ j, j < k → k ≤ j + 7 → (monitor_actions ADC_LOW vs m)[j]? = some false)) ∧
    (∀ (lows : List Nat) (high : Nat), m.asleep = false → lows.length = 7 →
      (∀ x ∈ lows, x < ADC_LOW) → ADC_LOW ≤ high →
      monitor_actions ADC_LOW (lows ++ [high]) m = List.replicate 8 false ∧
      (monitor_run ADC_LOW (lows ++ [high]) m).lowbatt_cnt = 0) ∧
    (∀ (lows : List Nat) (v : Nat), m.asleep = false → lows.length = 7 →
      (∀ x ∈ lows, x < ADC_LOW) → v < ADC_LOW →
      monitor_actions ADC_LOW (lows ++ [v]) m = List.replicate 7 false ++ [true] ∧
      (1 < m.actual_level →
        (monitor_run ADC_LOW (lows ++ [v]) m).lowbatt_cnt = 0 ∧
        (monitor_run ADC_LOW (lows ++ [v]) m).asleep = false) ∧
      (m.actual_level ≤ 1 →
        (monitor_run ADC_LOW (lows ++ [v]) m).asleep = true ∧
        (monitor_run ADC_LOW (lows ++ [v]) m).lowbatt_cnt = 8)) := by
  refine ⟨fun vs k hact => ?_, fun lows high hr hlen hlow hhigh => ?_,
    fun lows v hr hlen hlow hv => ?_⟩
  · obtain ⟨h1, h2, h3⟩ := monitor_actions_window ADC_LOW vs m k (Or.inr (by omega)) hact
    exact ⟨by omega, h2, h3⟩
  · obtain ⟨hrun, hact⟩ := monitor_lows ADC_LOW lows m hr hlow (by omega)
    rw [monitor_actions_append, monitor_run_append, hact, hrun, hlen]
    have hs : monitor_step ADC_LOW high { m with lowbatt_cnt := m.lowbatt_cnt + 7 } =
        { m with lowbatt_cnt := 0 } := by
      rw [monitor_step_awake ADC_LOW high { m with lowbatt_cnt := m.lowbatt_cnt + 7 } hr]
      exact battery_monitor_high ADC_LOW high _ (by omega)
    constructor
    · show List.replicate 7 false ++
        [decide ((monitor_step ADC_LOW high
          { m with lowbatt_cnt := m.lowbatt_cnt + 7 }).levels ≠ m.levels)] = _
      rw [hs, decide_eq_false (fun hne => hne rfl)]
      rfl
    · show (monitor_step ADC_LOW high { m with lowbatt_cnt := m.lowbatt_cnt + 7 }).lowbatt_cnt
        = 0
      rw [hs]
  · obtain ⟨hrun, hact⟩ := monitor_lows ADC_LOW lows m hr hlow (by omega)
    rw [monitor_actions_append, monitor_run_append, hact, hrun, hlen, hc]
    have hs : monitor_step ADC_LOW v { m with lowbatt_cnt := 0 + 7 } =
        step_down { m with lowbatt_cnt := 8 } := by
      rw [monitor_step_awake ADC_LOW v { m with lowbatt_cnt := 0 + 7 } hr]
      exact battery_monitor_fire ADC_LOW v { m with lowbatt_cnt := 0 + 7 } hv
        (by show (0 + 7 + 1) % 256 ≥ 8; decide)
    refine ⟨?_, fun hL => ?_, fun hL => ?_⟩
    · show List.replicate 7 false ++
        [decide ((monitor_step ADC_LOW v { m with lowbatt_cnt := 0 + 7 }).levels
          ≠ m.levels)] = _
      rw [hs, decide_eq_true (step_down_levels_ne { m with lowbatt_cnt := 8 })]
    · show (monitor_step ADC_LOW v { m with lowbatt_cnt := 0 + 7 }).lowbatt_cnt = 0 ∧
        (monitor_step ADC_LOW v { m with lowbatt_cnt := 0 + 7 }).asleep = false
      rw [hs]
      by_cases h : m.actual_level > RAMP_SIZE
      · have := step_down_high { m with lowbatt_cnt := 8 } h
        exact ⟨this.2.2.2.1, this.2.2.2.2.1.trans hr⟩
      · have := step_down_solid { m with lowbatt_cnt := 8 } h hL
        exact ⟨this.2.2.2.1, this.2.2.2.2.1.trans hr⟩
    · show (monitor_step ADC_LOW v { m with lowbatt_cnt := 0 + 7 }).asleep = true ∧
        (monitor_step ADC_LOW v { m with lowbatt_cnt := 0 + 7 }).lowbatt_cnt = 8
      rw [hs]
      have := step_down_off { m with lowbatt_cnt := 8 } hL
      exact ⟨this.2.2.2.2.1, this.2.2.2.1⟩

theorem battery_debounce_witness :
    (loop_entry 3 0).lowbatt_cnt = 0 ∧
    monitor_actions 130 ([50, 60, 70, 80, 90, 100, 110] ++ [130]) (loop_entry 3 0)
      = List.replicate 8 false ∧
    monitor_actions 130 ([50, 60, 70, 80, 90, 100, 110] ++ [129]) (loop_entry 3 0)
      = List.replicate 7 false ++ [true] :=
  ⟨rfl,
    ((battery_debounce 130 (loop_entry 3 0) rfl).2.1 [50, 60, 70, 80, 90, 100, 110] 130
      rfl rfl (by decide) (by decide)).1,
    ((battery_debounce 130 (loop_entry 3 0) rfl).2.2 [50, 60, 70, 80, 90, 100, 110] 129
      rfl rfl (by decide) (by decide)).1⟩

/-- C16: step-down rule.  When a low sample takes the counter to 8 with `L = actual_level`,
the new `actual_level` is `RAMP_SIZE / 2 = 3` if `L > RAMP_SIZE` and `L - 1` if
`1 < L <= RAMP_SIZE`; in these two cases the new level is rendered with `set_mode`, `output`
is set to it and the program keeps running.  Otherwise (`L <= 1`) `set_level(0)` turns the
light off and the program enters its final sleep. -/
theorem step_down_rule (ADC_LOW v : Nat) (m : Main) (hv : v < ADC_LOW)
    (hc : (m.lowbatt_cnt + 1) % 256 ≥ 8) :
    (m.actual_level > RAMP_SIZE →
      (battery_monitor ADC_LOW (some v) m).actual_level = RAMP_SIZE / 2 ∧
      (battery_monitor ADC_LOW (some v) m).actual_level = 3 ∧
      (battery_monitor ADC_LOW (some v) m).levels = 3 :: m.levels ∧
      (battery_monitor ADC_LOW (some v) m).output = 3 ∧
      (battery_monitor ADC_LOW (some v) m).asleep = m.asleep) ∧
    (1 < m.actual_level → m.actual_level ≤ RAMP_SIZE →
      (battery_monitor ADC_LOW (some v) m).actual_level = m.actual_level - 1 ∧
      (battery_monitor ADC_LOW (some v) m).levels = (m.actual_level - 1) :: m.levels ∧
      (battery_monitor ADC_LOW (some v) m).output = m.actual_level - 1 ∧
      (battery_monitor ADC_LOW (some v) m).asleep = m.asleep) ∧
    (m.actual_level ≤ 1 →
      (battery_monitor ADC_LOW (some v) m).levels = 0 :: m.levels ∧
      (battery_monitor ADC_LOW (some v) m).PWM_LVL = 0 ∧
      (battery_monitor ADC_LOW (some v) m).asleep = true) := by
  rw [battery_monitor_fire ADC_LOW v m hv hc]
  refine ⟨fun h => ?_, fun h1 h2 => ?_, fun h => ?_⟩
  · have := step_down_high { m with lowbatt_cnt := (m.lowbatt_cnt + 1) % 256 } h
    exact ⟨this.1, this.1, this.2.2.1, this.2.1, this.2.2.2.2.1⟩
  · have := step_down_solid { m with lowbatt_cnt := (m.lowbatt_cnt + 1) % 256 }
      (Nat.not_lt.mpr h2) h1
    exact ⟨this.1, this.2.2.1, this.2.1, this.2.2.2.2.1⟩
  · have := step_down_off { m with lowbatt_cnt := (m.lowbatt_cnt + 1) % 256 } h
    exact ⟨this.2.2.1, this.2.2.2.2.2.2.2, this.2.2.2.2.1⟩

theorem step_down_rule_witness :
    (lowbatt_event 130 50 (loop_entry 3 0)).actual_level = 3 ∧
    (battery_monitor 130 (some 50) { loop_entry 3 0 with lowbatt_cnt := 7 }).actual_level
      = 3 ∧
    (battery_monitor 130 (some 50)
      { loop_entry 3 0 with lowbatt_cnt := 7, actual_level := 5 }).actual_level = 5 - 1 ∧
    (battery_monitor 130 (some 50) { loop_entry 3 1 with lowbatt_cnt := 7 }).asleep = true :=
  ⟨by decide,
    ((step_down_rule 130 50 { loop_entry 3 0 with lowbatt_cnt := 7 } (by decide)
      (by decide)).1 (by decide)).2.1,
    ((step_down_rule 130 50 { loop_entry 3 0 with lowbatt_cnt := 7, actual_level := 5 }
      (by decide) (by decide)).2.1 (by decide) (by decide)).1,
    ((step_down_rule 130 50 { loop_entry 3 1 with lowbatt_cnt := 7 } (by decide)
      (by decide)).2.2 (by decide)).2.2⟩

theorem lowbatt_event_awake (ADC_LOW v : Nat) (m : Main) (hv : v < ADC_LOW)
    (hr : m.asleep = false) (hc : m.lowbatt_cnt = 0) :
    lowbatt_event ADC_LOW v m = step_down { m with lowbatt_cnt := 8 } := by
  have hsplit : List.replicate 8 v = List.replicate 7 v ++ [v] := rfl
  have hlow : ∀ x ∈ List.replicate 7 v, x < ADC_LOW := fun x hx => by
    rw [List.eq_of_mem_replicate hx]; exact hv
  obtain ⟨hrun, _⟩ := monitor_lows ADC_LOW (List.replicate 7 v) m hr hlow
    (by rw [hc, List.length_replicate])
  unfold lowbatt_event
  rw [hsplit, monitor_run_append, hrun, hc, List.length_replicate]
  show monitor_step ADC_LOW v { m with lowbatt_cnt := 0 + 7 } = _
  rw [monitor_step_awake ADC_LOW v { m with lowbatt_cnt := 0 + 7 } hr]
  exact battery_monitor_fire ADC_LOW v { m with lowbatt_cnt := 0 + 7 } hv
    (by show (0 + 7 + 1) % 256 ≥ 8; decide)

theorem lowbatt_event_solid (ADC_LOW v : Nat) (m : Main) (hv : v < ADC_LOW)
    (hr : m.asleep = false) (hc : m.lowbatt_cnt = 0) (h1 : 1 < m.actual_level)
    (h7 : m.actual_level ≤ RAMP_SIZE) :
    (lowbatt_event ADC_LOW v m).actual_level = m.actual_level - 1 ∧
    (lowbatt_event ADC_LOW v m).asleep = false ∧
    (lowbatt_event ADC_LOW v m).lowbatt_cnt = 0 := by
  rw [lowbatt_event_awake ADC_LOW v m hv hr hc]
  have := step_down_solid { m with lowbatt_cnt := 8 } (Nat.not_lt.mpr h7) h1
  exact ⟨this.1, this.2.2.2.2.1.trans hr, this.2.2.2.1⟩

theorem lowbatt_event_high (ADC_LOW v : Nat) (m : Main) (hv : v < ADC_LOW)
    (hr : m.asleep = false) (hc : m.lowbatt_cnt = 0) (h7 : m.actual_level > RAMP_SIZE) :
    (lowbatt_event ADC_LOW v m).actual_level = 3 ∧
    (lowbatt_event ADC_LOW v m).asleep = false ∧
    (lowbatt_event ADC_LOW v m).lowbatt_cnt = 0 := by
  rw [lowbatt_event_awake ADC_LOW v m hv hr hc]
  have := step_down_high { m with lowbatt_cnt := 8 } h7
  exact ⟨this.1, this.2.2.2.2.1.trans hr, this.2.2.2.1⟩

theorem lowbatt_event_off (ADC_LOW v : Nat) (m : Main) (hv : v < ADC_LOW)
    (hr : m.asleep = false) (hc : m.lowbatt_cnt = 0) (h1 : m.actual_level ≤ 1) :
    (lowbatt_event ADC_LOW v m).asleep = true ∧
    (lowbatt_event ADC_LOW v m).levels = 0 :: m.levels ∧
    (lowbatt_event ADC_LOW v m).PWM_LVL = 0 := by
  rw [lowbatt_event_awake ADC_LOW v m hv hr hc]
  have := step_down_off { m with lowbatt_cnt := 8 } h1
  exact ⟨this.2.2.2.2.1, this.2.2.1, this.2.2.2.2.2.2.2⟩

theorem iterate_lowbatt_event (ADC_LOW v : Nat) (hv : v < ADC_LOW) (m : Main)
    (hr : m.asleep = false) (hc : m.lowbatt_cnt = 0) (h7 : m.actual_level ≤ RAMP_SIZE) :
    ∀ k, k < m.actual_level →
      ((lowbatt_event ADC_LOW v)^[k] m).actual_level = m.actual_level - k ∧
      ((lowbatt_event ADC_LOW v)^[k] m).asleep = false ∧
      ((lowbatt_event ADC_LOW v)^[k] m).lowbatt_cnt = 0 := by
  intro k
  induction k with
  | zero => intro _; exact ⟨rfl, hr, hc⟩
  | succ k ih =>
    intro hk
    obtain ⟨i1, i2, i3⟩ := ih (by omega)
    rw [Function.iterate_succ_apply']
    have := lowbatt_event_solid ADC_LOW v _ hv i2 i3 (by rw [i1]; omega) (by rw [i1]; omega)
    exact ⟨by rw [this.1, i1]; omega, this.2.1, this.2.2⟩

theorem iterate_lowbatt_event_sleep (ADC_LOW v : Nat) (hv : v < ADC_LOW) (m : Main)
    (hr : m.asleep = false) (hc : m.lowbatt_cnt = 0) (h7 : m.actual_level ≤ RAMP_SIZE)
    (n : Nat) (hn : m.actual_level = n + 1) :
    ((lowbatt_event ADC_LOW v)^[n + 1] m).asleep = true ∧
    ((lowbatt_event ADC_LOW v)^[n + 1] m).levels.head? = some 0 ∧
    ((lowbatt_event ADC_LOW v)^[n + 1] m).PWM_LVL = 0 := by
  obtain ⟨i1, i2, i3⟩ := iterate_lowbatt_event ADC_LOW v hv m hr hc h7 n (by omega)
  rw [Function.iterate_succ_apply']
  have := lowbatt_event_off ADC_LOW v _ hv i2 i3 (by rw [i1]; omega)
  exact ⟨this.1, by rw [this.2.1]; rfl, this.2.2⟩

/-- C17: step-down monotonicity.  A debounced low-battery event is a run of eight
consecutive low samples.  For every solid starting level `L` in `1..RAMP_SIZE`, after `k`
events with `k < L` the level is `L - k` and the program is running, so each of the first
`L - 1` events lowers `actual_level` by exactly 1 and level 1 is reached; the `L`-th event
calls `set_level(0)` and enters the final sleep.  From any starting level the final sleep is
reached after at most `RAMP_SIZE` events. -/
theorem step_down_monotone (ADC_LOW v : Nat) (m : Main) (hv : v < ADC_LOW)
    (hr : m.asleep = false) (hc : m.lowbatt_cnt = 0) :
    (1 ≤ m.actual_level → m.actual_level ≤ RAMP_SIZE →
      (∀ k, k < m.actual_level →
        ((lowbatt_event ADC_LOW v)^[k] m).actual_level = m.actual_level - k ∧
        ((lowbatt_event ADC_LOW v)^[k] m).asleep = false) ∧
      ((lowbatt_event ADC_LOW v)^[m.actual_level - 1] m).actual_level = 1 ∧
      ((lowbatt_event ADC_LOW v)^[m.actual_level] m).asleep = true ∧
      ((lowbatt_event ADC_LOW v)^[m.actual_level] m).levels.head? = some 0 ∧
      ((lowbatt_event ADC_LOW v)^[m.actual_level] m).PWM_LVL = 0) ∧
    (∃ k, k ≤ RAMP_SIZE ∧ ((lowbatt_event ADC_LOW v)^[k] m).asleep = true) := by
  have hR : RAMP_SIZE = 7 := rfl
  constructor
  · intro h1 h7
    have hit := iterate_lowbatt_event ADC_LOW v hv m hr hc h7
    have hsl := iterate_lowbatt_event_sleep ADC_LOW v hv m hr hc h7 (m.actual_level - 1)
      (by omega)
    rw [show m.actual_level - 1 + 1 = m.actual_level by omega] at hsl
    refine ⟨fun k hk => ⟨(hit k hk).1, (hit k hk).2.1⟩, ?_, hsl⟩
    rw [(hit (m.actual_level - 1) (by omega)).1]
    omega
  · by_cases h0 : m.actual_level = 0
    · exact ⟨1, by omega, (lowbatt_event_off ADC_LOW v m hv hr hc (by omega)).1⟩
    · by_cases h7 : m.actual_level ≤ RAMP_SIZE
      · have hsl := iterate_lowbatt_event_sleep ADC_LOW v hv m hr hc h7 (m.actual_level - 1)
          (by omega)
        rw [show m.actual_level - 1 + 1 = m.actual_level by omega] at hsl
        exact ⟨m.actual_level, h7, hsl.1⟩
      · have hh := lowbatt_event_high ADC_LOW v m hv hr hc (by omega)
        have hsl := iterate_lowbatt_event_sleep ADC_LOW v hv _ hh.2.1 hh.2.2
          (by rw [hh.1, hR]; omega) 2 hh.1
        refine ⟨4, by omega, ?_⟩
        rw [Function.iterate_succ_apply]
        exact hsl.1

theorem step_down_monotone_witness :
    ({ loop_entry 3 0 with actual_level := 5 } : Main).asleep = false ∧
    ((lowbatt_event 130 50)^[4] { loop_entry 3 0 with actual_level := 5 }).actual_level
      = 1 ∧
    ((lowbatt_event 130 50)^[5] { loop_entry 3 0 with actual_level := 5 }).asleep = true :=
  ⟨rfl,
    ((step_down_monotone 130 50 { loop_entry 3 0 with actual_level := 5 } (by decide)
      rfl rfl).1 (by decide) (by decide)).2.1,
    ((step_down_monotone 130 50 { loop_entry 3 0 with actual_level := 5 } (by decide)
      rfl rfl).1 (by decide) (by decide)).2.2.1⟩

theorem step_down_frame (m : Main) : (step_down m).st = m.st ∧ (step_down m).i = m.i := by
  by_cases h : m.actual_level > RAMP_SIZE
  · exact ⟨(step_down_high m h).2.2.2.2.2.1, (step_down_high m h).2.2.2.2.2.2⟩
  · by_cases h2 : m.actual_level > 1
    · exact ⟨(step_down_solid m h h2).2.2.2.2.2.1, (step_down_solid m h h2).2.2.2.2.2.2⟩
    · exact ⟨(step_down_off m (by omega)).2.2.2.2.2.1,
        (step_down_off m (by omega)).2.2.2.2.2.2.1⟩

theorem battery_monitor_st (ADC_LOW : Nat) (sample : Option Nat) (m : Main) :
    (battery_monitor ADC_LOW sample m).st = m.st ∧
    (battery_monitor ADC_LOW sample m).i = m.i := by
  cases sample with
  | none => exact ⟨rfl, rfl⟩
  | some v =>
    by_cases hv : v < ADC_LOW
    · by_cases hc : (m.lowbatt_cnt + 1) % 256 ≥ 8
      · rw [battery_monitor_fire ADC_LOW v m hv hc]
        exact step_down_frame _
      · have hs : battery_monitor ADC_LOW (some v) m =
            { m with lowbatt_cnt := (m.lowbatt_cnt + 1) % 256 } := by
          simp only [battery_monitor, hv, hc, if_true, if_false]
        rw [hs]
        exact ⟨rfl, rfl⟩
    · rw [battery_monitor_high ADC_LOW v m hv]
      exact ⟨rfl, rfl⟩

/-- C18: battery step-down frame.  A pass of the voltage monitor of biscotti and simple,
with or without a ready sample and whether or not it steps down or shuts down, leaves
`mode_idx`, `modegroup`, `memory`, `mode_override`, the cursor `eepos` and every EEPROM byte
unchanged, as well as all other globals and the local `i`; what it can change of the
program variables is `lowbatt_cnt`, `actual_level` and `output`. -/
theorem battery_monitor_frame (ADC_LOW : Nat) (sample : Option Nat) (m : Main) :
    (battery_monitor ADC_LOW sample m).st.mode_idx = m.st.mode_idx ∧
    (battery_monitor ADC_LOW sample m).st.modegroup = m.st.modegroup ∧
    (battery_monitor ADC_LOW sample m).st.memory = m.st.memory ∧
    (battery_monitor ADC_LOW sample m).st.mode_override = m.st.mode_override ∧
    (battery_monitor ADC_LOW sample m).st.eepos = m.st.eepos ∧
    (∀ a, (battery_monitor ADC_LOW sample m).st.eeprom a = m.st.eeprom a) ∧
    (battery_monitor ADC_LOW sample m).st = m.st ∧
    (battery_monitor ADC_LOW sample m).i = m.i := by
  obtain ⟨h1, h2⟩ := battery_monitor_st ADC_LOW sample m
  rw [h1]
  exact ⟨rfl, rfl, rfl, rfl, rfl, fun _ => rfl, rfl, h2⟩

/-! ## The claim on the biscuit variant -/

theorem blink_st : ∀ (n : Nat) (m : Main), (blink n m).st = m.st := by
  intro n
  induction n with
  | zero => intro m; rfl
  | succ n ih =>
    intro m
    show (blink n (set_level 0 (set_level BLINK_BRIGHTNESS m))).st = m.st
    rw [ih, set_level_st, set_level_st]

theorem xor_one_twice (x : Nat) : (x ^^^ 1) ^^^ 1 = x := by
  rw [Nat.xor_assoc, Nat.xor_self, Nat.xor_zero]

theorem save_state_var (var : ConfigVar) (x : Nat) (s : State) :
    var_read var (save_state (var_write var x s)) = x ∧
    (save_state (var_write var x s)).eeprom (var_addr var) = x := by
  cases var with
  | mode_override => exact ⟨rfl, rfl⟩
  | memory => exact ⟨rfl, rfl⟩

/-- C20: toggle commit window.  For every value `v` of the toggled option (`mode_override`
or `memory`), `toggle` saves the tentative value `v XOR 1` with `save_state`, and the option
and its configuration byte keep that value throughout the buzz that forms the commit window;
when `toggle` runs to completion the option in memory and its configuration byte are equal
to the original `v` again. -/
theorem toggle_commit_window (var : ConfigVar) (num : Nat) (m : Main) :
    var_read var (toggle_apply var num m).st = var_read var m.st ^^^ 1 ∧
    (toggle_apply var num m).st.eeprom (var_addr var) = var_read var m.st ^^^ 1 ∧
    (∀ j, var_read var (blink j (toggle_apply var num m)).st = var_read var m.st ^^^ 1 ∧
      (blink j (toggle_apply var num m)).st.eeprom (var_addr var)
        = var_read var m.st ^^^ 1) ∧
    var_read var (toggle var num m).st = var_read var m.st ∧
    (toggle var num m).st.eeprom (var_addr var) = var_read var m.st := by
  have happ : (toggle_apply var num m).st =
      save_state (var_write var (var_read var m.st ^^^ 1) m.st) := by
    show save_state (var_write var (var_read var (blink num m).st ^^^ 1) (blink num m).st) = _
    rw [blink_st]
  have hsv := save_state_var var (var_read var m.st ^^^ 1) m.st
  have htog : (toggle var num m).st =
      save_state (var_write var (var_read var (toggle_apply var num m).st ^^^ 1)
        (toggle_apply var num m).st) := by
    show save_state (var_write var
      (var_read var (blink 32 (toggle_apply var num m)).st ^^^ 1)
      (blink 32 (toggle_apply var num m)).st) = _
    rw [blink_st]
  have hsv2 := save_state_var var (var_read var (toggle_apply var num m).st ^^^ 1)
    (toggle_apply var num m).st
  refine ⟨by rw [happ]; exact hsv.1, by rw [happ]; exact hsv.2, fun j => ?_, ?_, ?_⟩
  · rw [blink_st, happ]
    exact hsv
  · rw [htog, hsv2.1, happ, hsv.1, xor_one_twice]
  · rw [htog, hsv2.2, happ, hsv.1, xor_one_twice]
/-! ## Facts about stores whose live cells lie at or above the cursor -/

theorem save_mode_liveAbove (s : State) (h : LiveAbove s) : LiveAbove (save_mode s) := by
  intro i hi hl
  have hi2 : i < 32 := hi
  rw [save_mode_eepos]
  rw [save_mode_eeprom] at hl
  by_cases h1 : i = s.eepos
  · rw [if_pos h1] at hl
    exact absurd rfl hl
  · rw [if_neg h1] at hl
    by_cases h2 : i = (s.eepos + 1) % 32
    · omega
    · rw [if_neg h2] at hl
      have := h i hi hl
      omega

theorem save_mode_cursor_cell (s : State) :
    (save_mode s).eepos < WEAR_LVL_LEN ∧
    (save_mode s).eeprom (save_mode s).eepos = s.mode_idx := by
  have hne : (s.eepos + 1) % 32 ≠ s.eepos := by omega
  constructor
  · rw [save_mode_eepos, WEAR_LVL_LEN_eq]; omega
  · rw [save_mode_eeprom, save_mode_eepos, if_neg hne, if_pos rfl]

theorem save_state_liveAbove (s : State) (h : LiveAbove s) : LiveAbove (save_state s) := by
  intro i hi hl
  rw [save_state_eeprom_ring s i hi] at hl
  exact save_mode_liveAbove s h i hi hl

theorem save_state_cursor_cell (s : State) :
    (save_state s).eepos < WEAR_LVL_LEN ∧
    (save_state s).eeprom (save_state s).eepos = s.mode_idx := by
  obtain ⟨h1, h2⟩ := save_mode_cursor_cell s
  refine ⟨h1, ?_⟩
  rw [← h2]
  exact save_state_eeprom_ring s _ h1

theorem restore_state_of_liveAbove (v : Variant) (t u : State) (h : LiveAbove u)
    (hc : u.eepos < WEAR_LVL_LEN) (hl : u.eeprom u.eepos ≠ 0xff) (he : t.eeprom = u.eeprom) :
    restore_state v t =
      if t.eeprom OPT_modegroup ≥ v.NUM_MODEGROUPS then reset_state (loaded t u.eepos)
      else loaded t u.eepos :=
  restore_state_found v t u.eepos hc
    (fun j hj => by
      rw [he]
      by_contra hne
      have := h j (lt_trans hj hc) hne
      omega)
    (by rw [he]; exact hl)

/-- What `restore_state` yields on the EEPROM that a `save_state` has written. -/
theorem restore_after_save_state (v : Variant) (s t : State) (h : LiveAbove s)
    (hm : s.mode_idx ≠ 0xff) (hg : s.modegroup < v.NUM_MODEGROUPS)
    (he : t.eeprom = (save_state s).eeprom) :
    (restore_state v t).mode_idx = s.mode_idx ∧
    (restore_state v t).modegroup = s.modegroup ∧
    (restore_state v t).memory = s.memory ∧
    (restore_state v t).mode_override = s.mode_override ∧
    (restore_state v t).eepos = (save_state s).eepos ∧
    (restore_state v t).eeprom = t.eeprom := by
  obtain ⟨hc, hcell⟩ := save_state_cursor_cell s
  have hr := restore_state_of_liveAbove v t (save_state s) (save_state_liveAbove s h) hc
    (by rw [hcell]; exact hm) he
  have hgrp : ¬ t.eeprom OPT_modegroup ≥ v.NUM_MODEGROUPS := by
    rw [he]
    show ¬ s.modegroup ≥ v.NUM_MODEGROUPS
    omega
  rw [hr, if_neg hgrp]
  refine ⟨?_, ?_, ?_, ?_, rfl, rfl⟩
  · show t.eeprom _ = _
    rw [he, hcell]
  · show t.eeprom _ = _
    rw [he]; rfl
  · show t.eeprom _ = _
    rw [he]; rfl
  · show t.eeprom _ = _
    rw [he]; rfl

theorem var_write_liveAbove (var : ConfigVar) (x : Nat) (s : State) (h : LiveAbove s) :
    LiveAbove (var_write var x s) := by
  cases var with
  | mode_override => exact h
  | memory => exact h

theorem toggle_apply_st (var : ConfigVar) (num : Nat) (m : Main) :
    (toggle_apply var num m).st =
      save_state (var_write var (var_read var m.st ^^^ 1) m.st) := by
  show save_state (var_write var (var_read var (blink num m).st ^^^ 1) (blink num m).st) = _
  rw [blink_st]

theorem toggle_st (var : ConfigVar) (num : Nat) (m : Main) :
    (toggle var num m).st =
      save_state (var_write var (var_read var m.st)
        (save_state (var_write var (var_read var m.st ^^^ 1) m.st))) := by
  have h1 : (toggle var num m).st =
      save_state (var_write var (var_read var (toggle_apply var num m).st ^^^ 1)
        (toggle_apply var num m).st) := by
    show save_state (var_write var
      (var_read var (blink 32 (toggle_apply var num m)).st ^^^ 1)
      (blink 32 (toggle_apply var num m)).st) = _
    rw [blink_st]
  rw [h1, toggle_apply_st,
    (save_state_var var (var_read var m.st ^^^ 1) m.st).1, xor_one_twice]

theorem blink_locals : ∀ (n : Nat) (m : Main), (blink n m).output = m.output ∧
    (blink n m).actual_level = m.actual_level ∧ (blink n m).lowbatt_cnt = m.lowbatt_cnt ∧
    (blink n m).i = m.i ∧ (blink n m).asleep = m.asleep := by
  intro n
  induction n with
  | zero => intro m; exact ⟨rfl, rfl, rfl, rfl, rfl⟩
  | succ n ih =>
    intro m
    have h := ih (set_level 0 (set_level BLINK_BRIGHTNESS m))
    have l1 := set_level_locals 0 (set_level BLINK_BRIGHTNESS m)
    have l2 := set_level_locals BLINK_BRIGHTNESS m
    have a1 := set_level_asleep 0 (set_level BLINK_BRIGHTNESS m)
    have a2 := set_level_asleep BLINK_BRIGHTNESS m
    show (blink n (set_level 0 (set_level BLINK_BRIGHTNESS m))).output = _ ∧ _
    exact ⟨h.1.trans (l1.1.trans l2.1), h.2.1.trans (l1.2.1.trans l2.2.1),
      h.2.2.1.trans (l1.2.2.1.trans l2.2.2.1), h.2.2.2.1.trans (l1.2.2.2.trans l2.2.2.2),
      h.2.2.2.2.trans (a1.trans a2)⟩

/-- What a completed `toggle` leaves in the globals: the result of a `save_state` on a state
that agrees with the one before the call in every variable. -/
theorem toggle_props (var : ConfigVar) (num : Nat) (m : Main) :
    ∃ s, (toggle var num m).st = save_state s ∧ (LiveAbove m.st → LiveAbove s) ∧
      s.mode_idx = m.st.mode_idx ∧ s.modegroup = m.st.modegroup ∧
      s.memory = m.st.memory ∧ s.mode_override = m.st.mode_override ∧
      s.modes = m.st.modes ∧ s.fast_presses = m.st.fast_presses := by
  refine ⟨_, toggle_st var num m, fun h => ?_, ?_⟩
  · apply var_write_liveAbove
    apply save_state_liveAbove
    apply var_write_liveAbove
    exact h
  · cases var with
    | mode_override => exact ⟨rfl, rfl, rfl, rfl, rfl, rfl⟩
    | memory => exact ⟨rfl, rfl, rfl, rfl, rfl, rfl⟩

/-! ## Facts about the state in which the main loop is entered -/

theorem liveAbove_of_blank {s : State} (h : RingBlank s) : LiveAbove s :=
  fun i hi hl => absurd (h i hi) hl

theorem loaded_liveAbove (s : State) (k : Nat) (hfirst : ∀ j, j < k → s.eeprom j = 0xff) :
    LiveAbove (loaded s k) := by
  intro i _ hl
  show k ≤ i
  by_contra hlt
  exact hl (hfirst i (by omega))

/-- The three ways in which `restore_state` ends: first boot, load, or load followed by the
reset for an invalid mode group. -/
theorem restore_state_cases (v : Variant) (s : State) :
    (RingBlank s ∧ restore_state v s = reset_state { s with eepos := WEAR_LVL_LEN }) ∨
    (∃ k, k < WEAR_LVL_LEN ∧ s.eeprom k ≠ 0xff ∧ (∀ j, j < k → s.eeprom j = 0xff) ∧
      s.eeprom OPT_modegroup < v.NUM_MODEGROUPS ∧ restore_state v s = loaded s k) ∨
    (∃ k, k < WEAR_LVL_LEN ∧ s.eeprom k ≠ 0xff ∧ (∀ j, j < k → s.eeprom j = 0xff) ∧
      s.eeprom OPT_modegroup ≥ v.NUM_MODEGROUPS ∧
      restore_state v s = reset_state (loaded s k)) := by
  by_cases hb : RingBlank s
  · exact Or.inl ⟨hb, restore_state_blank v s hb⟩
  · have hex : ∃ i, i < WEAR_LVL_LEN ∧ s.eeprom i ≠ 0xff := by
      unfold RingBlank at hb
      push_neg at hb
      exact hb
    obtain ⟨k, hk, hlive, hfirst⟩ := exists_first_live s.eeprom WEAR_LVL_LEN hex
    have hr := restore_state_found v s k hk hfirst hlive
    by_cases hg : s.eeprom OPT_modegroup ≥ v.NUM_MODEGROUPS
    · rw [if_pos hg] at hr
      exact Or.inr (Or.inr ⟨k, hk, hlive, hfirst, hg, hr⟩)
    · rw [if_neg hg] at hr
      exact Or.inr (Or.inl ⟨k, hk, hlive, hfirst, by omega, hr⟩)

theorem restore_state_modegroup_lt (v : Variant) (s : State) (h0 : 0 < v.NUM_MODEGROUPS) :
    (restore_state v s).modegroup < v.NUM_MODEGROUPS := by
  rcases restore_state_cases v s with ⟨_, hr⟩ | ⟨k, _, _, _, hg, hr⟩ | ⟨k, _, _, _, _, hr⟩
  · rw [hr]; exact h0
  · rw [hr]; exact hg
  · rw [hr]; exact h0

theorem restore_state_liveAbove (v : Variant) (s : State) :
    LiveAbove (restore_state v s) := by
  rcases restore_state_cases v s with ⟨hb, hr⟩ | ⟨k, _, _, hf, _, hr⟩ | ⟨k, _, _, hf, _, hr⟩
  · rw [hr]
    exact save_state_liveAbove _ (liveAbove_of_blank hb)
  · rw [hr]
    exact loaded_liveAbove s k hf
  · rw [hr]
    exact save_state_liveAbove _ (loaded_liveAbove s k hf)

theorem restore_state_mode_idx_ne (v : Variant) (s : State) :
    (restore_state v s).mode_idx ≠ 0xff := by
  rcases restore_state_cases v s with ⟨_, hr⟩ | ⟨k, _, hl, _, _, hr⟩ | ⟨k, _, _, _, _, hr⟩
  · rw [hr]
    show (0 : Nat) ≠ 0xff
    decide
  · rw [hr]
    exact hl
  · rw [hr]
    show (0 : Nat) ≠ 0xff
    decide

theorem restore_state_ram (v : Variant) (s : State) :
    (restore_state v s).modes = s.modes ∧
    (restore_state v s).fast_presses = s.fast_presses ∧
    (restore_state v s).long_press = s.long_press := by
  rcases restore_state_cases v s with ⟨_, hr⟩ | ⟨k, _, _, _, _, hr⟩ | ⟨k, _, _, _, _, hr⟩
  · rw [hr]; exact ⟨rfl, rfl, rfl⟩
  · rw [hr]; exact ⟨rfl, rfl, rfl⟩
  · rw [hr]; exact ⟨rfl, rfl, rfl⟩

theorem next_mode_frame (s : State) :
    (next_mode s).eeprom = s.eeprom ∧ (next_mode s).eepos = s.eepos ∧
    (next_mode s).modegroup = s.modegroup ∧ (next_mode s).memory = s.memory ∧
    (next_mode s).mode_override = s.mode_override ∧ (next_mode s).modes = s.modes := by
  unfold next_mode
  dsimp only
  split <;> exact ⟨rfl, rfl, rfl, rfl, rfl, rfl⟩

theorem boot_gesture_frame (s : State) :
    (boot_gesture s).eeprom = s.eeprom ∧ (boot_gesture s).eepos = s.eepos ∧
    (boot_gesture s).modegroup = s.modegroup ∧ (boot_gesture s).memory = s.memory ∧
    (boot_gesture s).mode_override = s.mode_override ∧
    (boot_gesture s).modes = s.modes := by
  by_cases ho : s.mode_override = 0
  · by_cases hl : s.long_press = 0
    · have hg : boot_gesture s =
          { next_mode { s with fast_presses := (s.fast_presses + 1) &&& 0x1f } with
            long_press := 0 } := by
        simp only [boot_gesture, ho, hl, if_true]
      rw [hg]
      exact next_mode_frame _
    · by_cases hm : s.memory = 0
      · have hg : boot_gesture s = { s with fast_presses := 0, mode_idx := 0, long_press := 0 } := by
          simp only [boot_gesture, ho, hl, hm, if_true, if_false]
        rw [hg]
        exact ⟨rfl, rfl, rfl, rfl, rfl, rfl⟩
      · have hg : boot_gesture s = { s with fast_presses := 0, long_press := 0 } := by
          simp only [boot_gesture, ho, hl, hm, if_true, if_false]
        rw [hg]
        exact ⟨rfl, rfl, rfl, rfl, rfl, rfl⟩
  · have hg : boot_gesture s = { s with long_press := 0 } := by
      simp only [boot_gesture, ho, if_false]
    rw [hg]
    exact ⟨rfl, rfl, rfl, rfl, rfl, rfl⟩

theorem boot_gesture_override (s : State) (ho : s.mode_override ≠ 0) :
    boot_gesture s = { s with long_press := 0 } := by
  simp only [boot_gesture, ho, if_false]

/-- The mode index that the gesture handling leaves is not the sentinel, provided the
restored one is not and `solid_modes` is a byte. -/
theorem boot_gesture_mode_idx_ne (s : State) (hm : s.mode_idx ≠ 0xff)
    (hs : s.solid_modes ≤ 255) : (boot_gesture s).mode_idx ≠ 0xff := by
  by_cases ho : s.mode_override = 0
  · by_cases hl : s.long_press = 0
    · have hg : (boot_gesture s).mode_idx =
          (next_mode { s with fast_presses := (s.fast_presses + 1) &&& 0x1f }).mode_idx := by
        simp only [boot_gesture, ho, hl, if_true]
      rw [hg, next_mode_mode_idx]
      show (if (s.mode_idx + 1) % 256 ≥ s.solid_modes then 0 else (s.mode_idx + 1) % 256)
        ≠ 0xff
      split <;> omega
    · by_cases hmem : s.memory = 0
      · have hg : (boot_gesture s).mode_idx = 0 := by
          simp only [boot_gesture, ho, hl, hmem, if_true, if_false]
        rw [hg]
        decide
      · have hg : (boot_gesture s).mode_idx = s.mode_idx := by
          simp only [boot_gesture, ho, hl, hmem, if_true, if_false]
        rw [hg]
        exact hm
  · rw [boot_gesture_override s ho]
    exact hm

theorem main_boot_liveAbove (v : Variant) (s : State) : LiveAbove (main_boot v s) := by
  rw [main_boot_eq]
  apply save_mode_liveAbove
  intro i hi hl
  have hf := boot_gesture_frame (count_modes v (restore_state v s))
  rw [hf.1] at hl
  rw [hf.2.1]
  exact restore_state_liveAbove v s i hi hl

theorem main_boot_modegroup (v : Variant) (s : State) :
    (main_boot v s).modegroup = (restore_state v s).modegroup ∧
    (main_boot v s).mode_override = (restore_state v s).mode_override ∧
    (main_boot v s).memory = (restore_state v s).memory := by
  rw [main_boot_eq]
  have hf := boot_gesture_frame (count_modes v (restore_state v s))
  exact ⟨hf.2.2.1, hf.2.2.2.2.1, hf.2.2.2.1⟩

theorem main_init_st (junk : Nat) (s : State) :
    (main_init junk s).st.eeprom = s.eeprom ∧ (main_init junk s).st.eepos = s.eepos ∧
    (main_init junk s).st.modegroup = s.modegroup ∧
    (main_init junk s).st.mode_idx = s.mode_idx ∧
    (main_init junk s).st.memory = s.memory ∧
    (main_init junk s).st.mode_override = s.mode_override ∧
    (main_init junk s).asleep = false := by
  unfold main_init
  dsimp only
  split <;> exact ⟨rfl, rfl, rfl, rfl, rfl, rfl, rfl⟩

/-- The invariants with which the main loop is entered after any boot. -/
theorem loop_entry_invariant (junk : Nat) (v : Variant) (s : State)
    (h0 : 0 < v.NUM_MODEGROUPS) :
    LiveAbove (main_init junk (main_boot v s)).st ∧
    (main_init junk (main_boot v s)).st.modegroup < v.NUM_MODEGROUPS := by
  have hi := main_init_st junk (main_boot v s)
  constructor
  · intro i hi1 hl
    rw [hi.1] at hl
    rw [hi.2.1]
    exact main_boot_liveAbove v s i hi1 hl
  · rw [hi.2.2.1, (main_boot_modegroup v s).1]
    exact restore_state_modegroup_lt v s h0

/-! ## The claims on the config sequence and on the group selection -/

/-- C21: config exit.  When the config sequence runs to completion, the dispatch step ends
with `mode_idx = 0`, `output = actual_level = modes[0]` and `fast_presses = 0`, and a
`restore_state` on the EEPROM it leaves yields `mode_idx = 0` with `modegroup`, `memory` and
`mode_override` equal to their values before the sequence.  The sequence is entered from a
state of the running program: the live ring cells lie at or above the cursor and `modegroup`
is below `NUM_MODEGROUPS`, as `restore_state` and every save leave them. -/
theorem config_exit (junk blinks : Nat) (v : Variant) (m : Main) (t : State)
    (hlive : LiveAbove m.st) (hg : m.st.modegroup < v.NUM_MODEGROUPS)
    (ht : t.eeprom = (main_dispatch junk v Branch.config blinks m).st.eeprom) :
    (main_dispatch junk v Branch.config blinks m).st.mode_idx = 0 ∧
    (main_dispatch junk v Branch.config blinks m).output = modes_read junk m.st 0 ∧
    (main_dispatch junk v Branch.config blinks m).actual_level = modes_read junk m.st 0 ∧
    (main_dispatch junk v Branch.config blinks m).st.fast_presses = 0 ∧
    (restore_state v t).mode_idx = 0 ∧
    (restore_state v t).modegroup = m.st.modegroup ∧
    (restore_state v t).memory = m.st.memory ∧
    (restore_state v t).mode_override = m.st.mode_override := by
  obtain ⟨m3, hm3⟩ : ∃ x, x = toggle .mode_override 1
      { m with st := { m.st with fast_presses := 0, mode_idx := GROUP_SELECT_MODE } } :=
    ⟨_, rfl⟩
  obtain ⟨s3, h3, l3, _, g3, y3, o3, d3, _⟩ := toggle_props .mode_override 1
    { m with st := { m.st with fast_presses := 0, mode_idx := GROUP_SELECT_MODE } }
  rw [← hm3] at h3
  obtain ⟨s5, h5, l5, i5, g5, y5, o5, d5, _⟩ := toggle_props .memory 2
    { m3 with st := { m3.st with mode_idx := 0 } }
  have hcfg : (config_mode junk m).st = save_state s5 := by
    rw [← h5, hm3]
    rfl
  have hlive3 : LiveAbove m3.st := by
    rw [h3]
    exact save_state_liveAbove s3 (l3 hlive)
  have hlive5 : LiveAbove s5 := l5 hlive3
  have e1 : s5.mode_idx = 0 := i5
  have e2 : s5.modegroup = m.st.modegroup := by
    have : s5.modegroup = m3.st.modegroup := g5
    rw [this, h3]
    exact g3
  have e3 : s5.memory = m.st.memory := by
    have : s5.memory = m3.st.memory := y5
    rw [this, h3]
    exact y3
  have e4 : s5.mode_override = m.st.mode_override := by
    have : s5.mode_override = m3.st.mode_override := o5
    rw [this, h3]
    exact o3
  have e5 : s5.modes = m.st.modes := by
    have : s5.modes = m3.st.modes := d5
    rw [this, h3]
    exact d3
  have hd : (main_dispatch junk v Branch.config blinks m).st =
      { (config_mode junk m).st with fast_presses := 0 } := rfl
  have hout : (main_dispatch junk v Branch.config blinks m).output =
      modes_read junk (config_mode junk m).st (config_mode junk m).st.mode_idx := rfl
  have hact : (main_dispatch junk v Branch.config blinks m).actual_level =
      modes_read junk (config_mode junk m).st (config_mode junk m).st.mode_idx := rfl
  have hread : modes_read junk (config_mode junk m).st (config_mode junk m).st.mode_idx =
      modes_read junk m.st 0 := by
    rw [hcfg]
    show s5.modes.getD s5.mode_idx junk = m.st.modes.getD 0 junk
    rw [e5, e1]
  have hr := restore_after_save_state v s5 t hlive5 (by rw [e1]; decide) (by rw [e2]; exact hg)
    (by rw [ht, hd, hcfg])
  refine ⟨?_, hout.trans hread, hact.trans hread, rfl, hr.1.trans e1, hr.2.1.trans e2,
    hr.2.2.1.trans e3, hr.2.2.2.1.trans e4⟩
  rw [hd, hcfg]
  exact e1
theorem config_exit_witness :
    (loop_entry 12 0).st.fast_presses > 9 ∧
    (restore_state biscotti (boot_state
      (main_dispatch 0 biscotti Branch.config 0 (loop_entry 12 0)).st.eeprom 0 0)).mode_idx
      = 0 ∧
    (restore_state biscotti (boot_state
      (main_dispatch 0 biscotti Branch.config 0 (loop_entry 12 0)).st.eeprom 0 0)).memory
      = (loop_entry 12 0).st.memory :=
  ⟨by decide,
    (config_exit 0 0 biscotti (loop_entry 12 0) _
      (loop_entry_invariant 0 biscotti _ (by decide)).1
      (loop_entry_invariant 0 biscotti _ (by decide)).2 rfl).2.2.2.2.1,
    (config_exit 0 0 biscotti (loop_entry 12 0) _
      (loop_entry_invariant 0 biscotti _ (by decide)).1
      (loop_entry_invariant 0 biscotti _ (by decide)).2 rfl).2.2.2.2.2.2.1⟩

theorem biscotti_branch_group_select_iff (m : Main) :
    biscotti_branch m = Branch.group_select ↔
      ¬ m.st.fast_presses > 9 ∧ m.output = GROUP_SELECT_MODE := by
  unfold biscotti_branch
  by_cases h : m.st.fast_presses > 9
  · simp only [h, if_true, not_true_eq_false, false_and, iff_false]
    exact Branch.noConfusion
  · rw [if_neg h]
    by_cases ho : m.output = GROUP_SELECT_MODE
    · have h1 : ¬ m.output = BIKING_STROBE := by rw [ho]; decide
      have h2 : ¬ m.output = SOS := by rw [ho]; decide
      have h3 : ¬ m.output = BATTCHECK := by rw [ho]; decide
      rw [if_neg h1, if_neg h2, if_neg h3, if_pos ho]
      exact ⟨fun _ => ⟨h, ho⟩, fun _ => rfl⟩
    · constructor
      · intro hb
        split_ifs at hb
      · intro hb
        exact absurd hb.2 ho

theorem simple_branch_group_select_iff (m : Main) :
    simple_branch m = Branch.group_select ↔
      ¬ m.st.fast_presses > 9 ∧ m.output = GROUP_SELECT_MODE := by
  unfold simple_branch
  by_cases h : m.st.fast_presses > 9
  · simp only [h, if_true, not_true_eq_false, false_and, iff_false]
    exact Branch.noConfusion
  · rw [if_neg h]
    by_cases ho : m.output = GROUP_SELECT_MODE
    · rw [if_pos ho]
      exact ⟨fun _ => ⟨h, ho⟩, fun _ => rfl⟩
    · constructor
      · intro hb
        split_ifs at hb
      · intro hb
        exact absurd hb.2 ho

theorem group_select_loop_step (n : Nat) (m : Main) :
    group_select_loop (n + 1) m =
      group_select_loop n
        { blink (m.i + 1) { m with st := save_state { m.st with modegroup := m.i } } with
          i := (blink (m.i + 1)
            { m with st := save_state { m.st with modegroup := m.i } }).i + 1 } := rfl

theorem group_select_loop_props : ∀ (n : Nat) (m : Main), LiveAbove m.st →
    (group_select_loop n m).i = m.i + n ∧ LiveAbove (group_select_loop n m).st ∧
    (group_select_loop n m).st.mode_idx = m.st.mode_idx ∧
    (group_select_loop n m).st.memory = m.st.memory ∧
    (group_select_loop n m).st.mode_override = m.st.mode_override := by
  intro n
  induction n with
  | zero => intro m h; exact ⟨rfl, h, rfl, rfl, rfl⟩
  | succ n ih =>
    intro m h
    rw [group_select_loop_step]
    have hb := blink_locals (m.i + 1) { m with st := save_state { m.st with modegroup := m.i } }
    have hs := blink_st (m.i + 1) { m with st := save_state { m.st with modegroup := m.i } }
    have hl : LiveAbove (save_state { m.st with modegroup := m.i }) :=
      save_state_liveAbove _ h
    obtain ⟨i1, i2, i3, i4, i5⟩ := ih
      { blink (m.i + 1) { m with st := save_state { m.st with modegroup := m.i } } with
        i := (blink (m.i + 1)
          { m with st := save_state { m.st with modegroup := m.i } }).i + 1 }
      (by show LiveAbove (blink (m.i + 1) _).st; rw [hs]; exact hl)
    refine ⟨?_, i2, ?_, ?_, ?_⟩
    · rw [i1]
      show (blink (m.i + 1) _).i + 1 + n = _
      rw [hb.2.2.2.1]
      show m.i + 1 + n = _
      omega
    · rw [i3]; show (blink (m.i + 1) _).st.mode_idx = _; rw [hs]; rfl
    · rw [i4]; show (blink (m.i + 1) _).st.memory = _; rw [hs]; rfl
    · rw [i5]; show (blink (m.i + 1) _).st.mode_override = _; rw [hs]; rfl

theorem group_select_loop_snoc : ∀ (n : Nat) (m : Main),
    group_select_loop (n + 1) m = group_select_loop 1 (group_select_loop n m) := by
  intro n
  induction n with
  | zero => intro m; rfl
  | succ n ih =>
    intro m
    rw [group_select_loop_step (n + 1) m, ih, group_select_loop_step n m]

theorem group_select_loop_last (n : Nat) (m : Main) :
    (group_select_loop (n + 1) m).st =
      save_state { (group_select_loop n m).st with modegroup := (group_select_loop n m).i } := by
  rw [group_select_loop_snoc, group_select_loop_step]
  show (blink _ _).st = _
  rw [blink_st]

/-- The globals between the save of group `k` and the next save are those of the loop after
`k + 1` iterations. -/
theorem group_select_at_st (k : Nat) (m : Main) :
    (group_select_at k m).st =
      (group_select_loop (k + 1)
        { m with st := { m.st with mode_idx := 0, mode_override := 0 }, i := 0 }).st := by
  rw [group_select_loop_last]
  rfl

theorem group_select_at_restore (v : Variant) (m : Main) (k : Nat) (t : State)
    (hlive : LiveAbove m.st) (hk : k < v.NUM_MODEGROUPS)
    (ht : t.eeprom = (group_select_at k m).st.eeprom) :
    (restore_state v t).modegroup = k ∧ (restore_state v t).mode_idx = 0 ∧
    (restore_state v t).mode_override = 0 ∧ (restore_state v t).memory = m.st.memory := by
  obtain ⟨p1, p2, p3, p4, p5⟩ := group_select_loop_props k
    { m with st := { m.st with mode_idx := 0, mode_override := 0 }, i := 0 } hlive
  have hi : (group_select_loop k
      { m with st := { m.st with mode_idx := 0, mode_override := 0 }, i := 0 }).i = k := by
    rw [p1]; show 0 + k = k; omega
  have hst : (group_select_at k m).st =
      save_state { (group_select_loop k
        { m with st := { m.st with mode_idx := 0, mode_override := 0 }, i := 0 }).st with
        modegroup := (group_select_loop k
          { m with st := { m.st with mode_idx := 0, mode_override := 0 }, i := 0 }).i } := rfl
  have hr := restore_after_save_state v
    { (group_select_loop k
        { m with st := { m.st with mode_idx := 0, mode_override := 0 }, i := 0 }).st with
      modegroup := (group_select_loop k
        { m with st := { m.st with mode_idx := 0, mode_override := 0 }, i := 0 }).i } t
    p2 (by show (group_select_loop k _).st.mode_idx ≠ 0xff; rw [p3]; show (0 : Nat) ≠ 0xff; decide)
    (by show (group_select_loop k _).i < _; rw [hi]; exact hk) (by rw [ht, hst])
  refine ⟨?_, ?_, ?_, ?_⟩
  · rw [hr.2.1]; exact hi
  · rw [hr.1]; exact p3
  · rw [hr.2.2.2.1]; exact p5
  · rw [hr.2.2.1]; exact p4

/-- C23: in the group selection of either variant, when power is lost after the save of
group `k < NUM_MODEGROUPS` and before the next save, a following `restore_state` yields
`modegroup = k`, `mode_idx = 0` and `mode_override = 0`; when the pass completes, the stored
and the restored mode group are `NUM_MODEGROUPS - 1`. -/
theorem group_select_durable (v : Variant) (m : Main) (hlive : LiveAbove m.st)
    (h0 : 0 < v.NUM_MODEGROUPS) :
    (∀ (k j : Nat) (t : State), k < v.NUM_MODEGROUPS →
      t.eeprom = (blink j (group_select_at k m)).st.eeprom →
      (restore_state v t).modegroup = k ∧ (restore_state v t).mode_idx = 0 ∧
      (restore_state v t).mode_override = 0) ∧
    (group_select v m).st.modegroup = v.NUM_MODEGROUPS - 1 ∧
    (group_select v m).st.eeprom OPT_modegroup = v.NUM_MODEGROUPS - 1 ∧
    (∀ t : State, t.eeprom = (group_select v m).st.eeprom →
      (restore_state v t).modegroup = v.NUM_MODEGROUPS - 1 ∧
      (restore_state v t).mode_idx = 0 ∧ (restore_state v t).mode_override = 0) := by
  have hfin : (group_select v m).st = (group_select_at (v.NUM_MODEGROUPS - 1) m).st := by
    rw [group_select_at_st]
    have : v.NUM_MODEGROUPS - 1 + 1 = v.NUM_MODEGROUPS := by omega
    rw [this]
    rfl
  have hi : (group_select_loop (v.NUM_MODEGROUPS - 1)
      { m with st := { m.st with mode_idx := 0, mode_override := 0 }, i := 0 }).i
      = v.NUM_MODEGROUPS - 1 :=
    (group_select_loop_props (v.NUM_MODEGROUPS - 1)
      { m with st := { m.st with mode_idx := 0, mode_override := 0 }, i := 0 } hlive).1.trans
      (by show 0 + (v.NUM_MODEGROUPS - 1) = _; omega)
  have hst : (group_select_at (v.NUM_MODEGROUPS - 1) m).st =
      save_state { (group_select_loop (v.NUM_MODEGROUPS - 1)
        { m with st := { m.st with mode_idx := 0, mode_override := 0 }, i := 0 }).st with
        modegroup := (group_select_loop (v.NUM_MODEGROUPS - 1)
          { m with st := { m.st with mode_idx := 0, mode_override := 0 }, i := 0 }).i } := rfl
  refine ⟨?_, ?_, ?_, ?_⟩
  · intro k j t hk ht
    rw [blink_st] at ht
    have h := group_select_at_restore v m k t hlive hk ht
    exact ⟨h.1, h.2.1, h.2.2.1⟩
  · rw [hfin]
    exact hi
  · rw [hfin, hst, save_state_eeprom, if_neg (by decide), if_neg (by decide), if_pos rfl]
    exact hi
  · intro t ht
    rw [hfin] at ht
    have h := group_select_at_restore v m (v.NUM_MODEGROUPS - 1) t hlive (by omega) ht
    exact ⟨h.1, h.2.1, h.2.2.1⟩

theorem group_select_durable_witness :
    (restore_state biscotti
      (boot_state (blink 6 (group_select_at 5 (loop_entry 3 0))).st.eeprom 0 0)).modegroup = 5 ∧
    (group_select biscotti (loop_entry 3 0)).st.modegroup = 11 :=
  ⟨((group_select_durable biscotti (loop_entry 3 0)
      (loop_entry_invariant 0 biscotti _ (by decide)).1 (by decide)).1 5 6 _ (by decide)
      rfl).1,
   (group_select_durable biscotti (loop_entry 3 0)
      (loop_entry_invariant 0 biscotti _ (by decide)).1 (by decide)).2.1⟩

/-! ## C24 and C25: the mode group table and the special codes -/

/-- C24, counterexample: the table of biscotti has 90 bytes, not `8 * NUM_MODEGROUPS = 96`;
its twelfth row consists of the two bytes `7, 0`. -/
theorem table_format_counterexample :
    biscotti.modegroups.length = 90 ∧ 8 * biscotti.NUM_MODEGROUPS = 96 ∧
    biscotti.modegroups.length ≠ 8 * biscotti.NUM_MODEGROUPS ∧
    biscotti.modegroups.drop (8 * (biscotti.NUM_MODEGROUPS - 1)) = [7, 0] := by
  decide

/-- C24 (amended): the table of simple consists of `NUM_MODEGROUPS` rows of 8 bytes; the table
of biscotti consists of `NUM_MODEGROUPS - 1` rows of 8 bytes followed by a final row of the 2
bytes `7, 0`.  In both tables every row starts with a non-zero entry and, inside the table,
every byte of a row that follows a zero byte of the same row is zero. -/
theorem table_format :
    simple.modegroups.length = 8 * simple.NUM_MODEGROUPS ∧
    biscotti.modegroups.length = 8 * (biscotti.NUM_MODEGROUPS - 1) + 2 ∧
    biscotti.modegroups.drop (8 * (biscotti.NUM_MODEGROUPS - 1)) = [7, 0] ∧
    (∀ g, g < simple.NUM_MODEGROUPS → pgm_read_byte simple.modegroups (8 * g) ≠ 0) ∧
    (∀ g, g < biscotti.NUM_MODEGROUPS → pgm_read_byte biscotti.modegroups (8 * g) ≠ 0) ∧
    (∀ g, g < simple.NUM_MODEGROUPS → ∀ k, k < 8 → ∀ l, l < 8 → k < l →
      pgm_read_byte simple.modegroups (8 * g + k) = 0 →
      pgm_read_byte simple.modegroups (8 * g + l) = 0) ∧
    (∀ g, g < biscotti.NUM_MODEGROUPS → ∀ k, k < 8 → ∀ l, l < 8 →
      k < l ∧ 8 * g + l < biscotti.modegroups.length →
      pgm_read_byte biscotti.modegroups (8 * g + k) = 0 →
      pgm_read_byte biscotti.modegroups (8 * g + l) = 0) := by
  refine ⟨by decide, by decide, by decide, by decide, by decide, by decide, ?_⟩
  decide

/-- C25, the divergence: in group 0 of biscotti the mode index 5 is below `solid_modes` and
selects the special code `POLICE_STROBE` (248); the dispatch as compiled has no branch for it,
so the pass takes the solid branch and calls `set_level(248)`, which is above `RAMP_SIZE` and
reads `ramp_FET[247]` behind the seven entries of the ramp.  The other special codes of the
table are the three that have a branch. -/
theorem special_code_dispatch :
    (loop_entry 3 0).st.modegroup = 0 ∧ (loop_entry 3 0).st.mode_idx = 5 ∧
    (loop_entry 3 0).st.mode_idx < (loop_entry 3 0).st.solid_modes ∧
    (loop_entry 3 0).output = POLICE_STROBE ∧ 240 ≤ POLICE_STROBE ∧
    biscotti_branch (loop_entry 3 0) = Branch.solid ∧
    (main_dispatch 0 biscotti (biscotti_branch (loop_entry 3 0)) 0 (loop_entry 3 0)).levels
      = [248] ∧
    RAMP_SIZE < 248 ∧ ramp_FET.length ≤ 248 - 1 ∧
    (∀ c, c ∈ biscotti.modegroups → 240 ≤ c → c ≠ POLICE_STROBE →
      c = BIKING_STROBE ∨ c = SOS ∨ c = BATTCHECK) := by
  decide

/-! ## C26 and C27: the writes of `save_mode` -/

theorem and_mask_eq_mod (x : Nat) : x &&& (WEAR_LVL_LEN - 1) = x % WEAR_LVL_LEN := by
  show x &&& (2 ^ 5 - 1) = x % 2 ^ 5
  exact Nat.and_pow_two_sub_one_eq_mod _ 5

/-- C26: for every cursor value `c` in `0..N`, `save_mode` makes exactly two byte writes, first
`mode_idx` to `(c+1) & (N-1)` and then `0xff` to `c`; the two addresses differ, after the
first write the new cell holds the index while the old cell still holds its value, the cursor
becomes `(c+1) & (N-1) = (c+1) mod N`, and no byte from `EEPSIZE-3` on is modified; the other
globals are unchanged. -/
theorem save_mode_effect (s : State) (hc : s.eepos ≤ WEAR_LVL_LEN) :
    save_mode_writes s =
      [((s.eepos + 1) &&& (WEAR_LVL_LEN - 1), s.mode_idx), (s.eepos, 0xff)] ∧
    (save_mode_writes s).length = 2 ∧
    (save_mode s).eeprom = apply_writes s.eeprom (save_mode_writes s) ∧
    (s.eepos + 1) &&& (WEAR_LVL_LEN - 1) ≠ s.eepos ∧
    apply_writes s.eeprom ((save_mode_writes s).take 1) ((s.eepos + 1) &&& (WEAR_LVL_LEN - 1))
      = s.mode_idx ∧
    apply_writes s.eeprom ((save_mode_writes s).take 1) s.eepos = s.eeprom s.eepos ∧
    (save_mode s).eepos = (s.eepos + 1) &&& (WEAR_LVL_LEN - 1) ∧
    (s.eepos + 1) &&& (WEAR_LVL_LEN - 1) = (s.eepos + 1) % WEAR_LVL_LEN ∧
    (∀ a, EEPSIZE - 3 ≤ a → (save_mode s).eeprom a = s.eeprom a) ∧
    (save_mode s).mode_idx = s.mode_idx ∧ (save_mode s).modegroup = s.modegroup ∧
    (save_mode s).memory = s.memory ∧ (save_mode s).mode_override = s.mode_override := by
  have hc2 : s.eepos ≤ 32 := hc
  have hm := and_mask_eq_mod (s.eepos + 1)
  have hN : WEAR_LVL_LEN = 32 := rfl
  have hne : (s.eepos + 1) &&& (WEAR_LVL_LEN - 1) ≠ s.eepos := by
    rw [hm, hN]; omega
  refine ⟨rfl, rfl, rfl, hne, ?_, ?_, rfl, hm, ?_, rfl, rfl, rfl, rfl⟩
  · show eeprom_write_byte s.eeprom _ _ _ = _
    rw [eeprom_write_byte_apply, if_pos rfl]
  · show eeprom_write_byte s.eeprom _ _ _ = _
    rw [eeprom_write_byte_apply, if_neg (fun h => hne h.symm)]
  · intro a ha
    have ha2 : 61 ≤ a := ha
    exact save_mode_eeprom_high s a hc2 (by omega)

theorem save_mode_effect_witness :
    blank_ring_state.eepos = WEAR_LVL_LEN ∧
    save_mode_writes { blank_ring_state with mode_idx := 4 } = [(1, 4), (32, 0xff)] ∧
    (save_mode { blank_ring_state with mode_idx := 4 }).eepos = 1 :=
  ⟨rfl, (save_mode_effect { blank_ring_state with mode_idx := 4 } (le_refl _)).1,
    (save_mode_effect { blank_ring_state with mode_idx := 4 } (le_refl _)).2.2.2.2.2.2.1⟩

theorem save_modes_writes_length : ∀ (ms : List Nat) (s : State),
    (save_modes_writes ms s).length = 2 * ms.length := by
  intro ms
  induction ms with
  | nil => intro s; rfl
  | cons x xs ih =>
    intro s
    show ((_ :: _ :: save_modes_writes xs _) : List (Nat × Nat)).length = _
    rw [List.length_cons, List.length_cons, ih, List.length_cons]
    omega

theorem save_modes_apply_writes : ∀ (ms : List Nat) (s : State),
    (save_modes ms s).eeprom = apply_writes s.eeprom (save_modes_writes ms s) := by
  intro ms
  induction ms with
  | nil => intro s; rfl
  | cons x xs ih =>
    intro s
    show (save_modes xs (save_mode { s with mode_idx := x })).eeprom = _
    rw [ih]
    rfl

theorem save_modes_eepos_lt : ∀ (ms : List Nat) (s : State), s.eepos < WEAR_LVL_LEN →
    (save_modes ms s).eepos < WEAR_LVL_LEN := by
  intro ms
  induction ms with
  | nil => intro s h; exact h
  | cons x xs ih =>
    intro s _
    show (save_modes xs (save_mode { s with mode_idx := x })).eepos < _
    apply ih
    rw [save_mode_eepos]
    show _ < 32
    omega

theorem save_modes_writes_cons (x : Nat) (xs : List Nat) (s : State) :
    save_modes_writes (x :: xs) s =
      ((s.eepos + 1) % 32, x) :: (s.eepos, 0xff) ::
        save_modes_writes xs (save_mode { s with mode_idx := x }) := by
  have h : save_modes_writes (x :: xs) s =
      ((s.eepos + 1) &&& (WEAR_LVL_LEN - 1), x) :: (s.eepos, 0xff) ::
        save_modes_writes xs (save_mode { s with mode_idx := x }) := rfl
  rw [h, and_mask_eq_mod]
  rfl

theorem index_phase (c j : Nat) (hc : c < 32) (hj : j < 32) :
    ((c + 1) % 32 = j ↔ (j + 63 - c) % 32 = 0) ∧
    ((j + 63 - c) % 32 = 0 → (j + 63 - (c + 1) % 32) % 32 = 31) ∧
    ((j + 63 - c) % 32 ≠ 0 → (j + 63 - (c + 1) % 32) % 32 + 1 = (j + 63 - c) % 32) ∧
    (j + 63 - c) % 32 < 32 := by
  omega

theorem erase_phase (c j : Nat) (hc : c < 32) (hj : j < 32) :
    (c = j ↔ (j + 32 - c) % 32 = 0) ∧
    ((j + 32 - c) % 32 = 0 → (j + 32 - (c + 1) % 32) % 32 = 31) ∧
    ((j + 32 - c) % 32 ≠ 0 → (j + 32 - (c + 1) % 32) % 32 + 1 = (j + 32 - c) % 32) ∧
    (j + 32 - c) % 32 < 32 := by
  omega

theorem count_step (n a b : Nat) (h0 : a = 0 → b = 31) (h1 : a ≠ 0 → b + 1 = a)
    (ha : a < 32) :
    (n + 31 - b) / 32 + (if a = 0 then 1 else 0) = (n + 1 + 31 - a) / 32 := by
  by_cases h : a = 0
  · rw [if_pos h]
    have := h0 h
    omega
  · rw [if_neg h]
    have := h1 h
    omega

theorem save_modes_writes_count_index (j : Nat) (hj : j < 32) :
    ∀ (ms : List Nat) (s : State), s.eepos < 32 → (∀ x ∈ ms, x ≠ 0xff) →
      (save_modes_writes ms s).countP (fun w => decide (w.1 = j ∧ w.2 ≠ 0xff)) =
        (ms.length + 31 - (j + 63 - s.eepos) % 32) / 32 := by
  intro ms
  induction ms with
  | nil =>
    intro s hc _
    show 0 = _
    simp only [List.length_nil]
    omega
  | cons x xs ih =>
    intro s hc hms
    have hc1 : (save_mode { s with mode_idx := x }).eepos = (s.eepos + 1) % 32 :=
      save_mode_eepos _
    have hx : x ≠ 0xff := hms x (List.mem_cons_self _ _)
    have hih := ih (save_mode { s with mode_idx := x }) (by rw [hc1]; omega)
      (fun y hy => hms y (List.mem_cons_of_mem _ hy))
    obtain ⟨p1, p2, p3, p4⟩ := index_phase s.eepos j hc hj
    rw [save_modes_writes_cons, List.countP_cons, List.countP_cons, hih, hc1,
      List.length_cons]
    simp only [decide_eq_true_eq, ne_eq, not_true_eq_false, and_false, if_false, hx,
      not_false_eq_true, and_true, p1, Nat.add_zero]
    exact count_step xs.length _ _ p2 p3 p4

theorem save_modes_writes_count_erase (j : Nat) (hj : j < 32) :
    ∀ (ms : List Nat) (s : State), s.eepos < 32 → (∀ x ∈ ms, x ≠ 0xff) →
      (save_modes_writes ms s).countP (fun w => decide (w.1 = j ∧ w.2 = 0xff)) =
        (ms.length + 31 - (j + 32 - s.eepos) % 32) / 32 := by
  intro ms
  induction ms with
  | nil =>
    intro s hc _
    show 0 = _
    simp only [List.length_nil]
    omega
  | cons x xs ih =>
    intro s hc hms
    have hc1 : (save_mode { s with mode_idx := x }).eepos = (s.eepos + 1) % 32 :=
      save_mode_eepos _
    have hx : x ≠ 0xff := hms x (List.mem_cons_self _ _)
    have hih := ih (save_mode { s with mode_idx := x }) (by rw [hc1]; omega)
      (fun y hy => hms y (List.mem_cons_of_mem _ hy))
    obtain ⟨p1, p2, p3, p4⟩ := erase_phase s.eepos j hc hj
    rw [save_modes_writes_cons, List.countP_cons, List.countP_cons, hih, hc1,
      List.length_cons]
    simp only [decide_eq_true_eq, hx, and_false, if_false, and_true, p1, Nat.add_zero]
    exact count_step xs.length _ _ p2 p3 p4

theorem save_modes_writes_count (j : Nat) (hj : j < 32) :
    ∀ (ms : List Nat) (s : State), s.eepos < 32 →
      (save_modes_writes ms s).countP (fun w => decide (w.1 = j)) =
        (ms.length + 31 - (j + 63 - s.eepos) % 32) / 32 +
        (ms.length + 31 - (j + 32 - s.eepos) % 32) / 32 := by
  intro ms
  induction ms with
  | nil =>
    intro s hc
    show 0 = _
    simp only [List.length_nil]
    omega
  | cons x xs ih =>
    intro s hc
    have hc1 : (save_mode { s with mode_idx := x }).eepos = (s.eepos + 1) % 32 :=
      save_mode_eepos _
    have hih := ih (save_mode { s with mode_idx := x }) (by rw [hc1]; omega)
    obtain ⟨p1, p2, p3, p4⟩ := index_phase s.eepos j hc hj
    obtain ⟨q1, q2, q3, q4⟩ := erase_phase s.eepos j hc hj
    have e1 := count_step xs.length _ _ p2 p3 p4
    have e2 := count_step xs.length _ _ q2 q3 q4
    rw [save_modes_writes_cons, List.countP_cons, List.countP_cons, hih, hc1,
      List.length_cons, ← e1, ← e2]
    simp only [decide_eq_true_eq, p1, q1]
    omega

theorem save_modes_writes_append : ∀ (pre ms : List Nat) (s : State),
    save_modes_writes (pre ++ ms) s =
      save_modes_writes pre s ++ save_modes_writes ms (save_modes pre s) := by
  intro pre
  induction pre with
  | nil => intro ms s; rfl
  | cons x xs ih =>
    intro ms s
    show save_mode_writes _ ++ save_modes_writes (xs ++ ms) _ = _
    rw [ih]
    show _ = (save_mode_writes _ ++ save_modes_writes xs _) ++ _
    rw [List.append_assoc]
    rfl

/-- C27: a run of `save_mode` calls with mode indices `ms`, started with the cursor inside the
ring, makes `2 * ms.length` byte writes.  When it has at least `N` calls, a ring cell `j`
receives at most the fraction `2/N` of them.  In every window of `N` consecutive calls (the
calls `ms` after any earlier calls `pre`) the cell `j` is written exactly twice, once with a
mode index and once with the sentinel, mode indices being different from `0xff`. -/
theorem wear_leveling (pre ms : List Nat) (s : State) (j : Nat)
    (hc : s.eepos < WEAR_LVL_LEN) (hj : j < WEAR_LVL_LEN) (hms : ∀ x ∈ ms, x ≠ 0xff) :
    (save_modes_writes ms s).length = 2 * ms.length ∧
    (save_modes ms s).eeprom = apply_writes s.eeprom (save_modes_writes ms s) ∧
    (WEAR_LVL_LEN ≤ ms.length →
      (save_modes_writes ms s).countP (fun w => decide (w.1 = j)) * WEAR_LVL_LEN
        ≤ 2 * (2 * ms.length)) ∧
    save_modes_writes (pre ++ ms) s =
      save_modes_writes pre s ++ save_modes_writes ms (save_modes pre s) ∧
    (ms.length = WEAR_LVL_LEN →
      (save_modes_writes ms (save_modes pre s)).countP (fun w => decide (w.1 = j)) = 2 ∧
      (save_modes_writes ms (save_modes pre s)).countP
        (fun w => decide (w.1 = j ∧ w.2 ≠ 0xff)) = 1 ∧
      (save_modes_writes ms (save_modes pre s)).countP
        (fun w => decide (w.1 = j ∧ w.2 = 0xff)) = 1) := by
  have hc2 : s.eepos < 32 := hc
  have hj2 : j < 32 := hj
  have hN : WEAR_LVL_LEN = 32 := rfl
  have hp : (save_modes pre s).eepos < 32 := save_modes_eepos_lt pre s hc
  refine ⟨save_modes_writes_length ms s, save_modes_apply_writes ms s, ?_,
    save_modes_writes_append pre ms s, ?_⟩
  · intro hlen
    rw [save_modes_writes_count j hj2 ms s hc2, hN]
    rw [hN] at hlen
    omega
  · intro hlen
    rw [save_modes_writes_count j hj2 ms _ hp,
      save_modes_writes_count_index j hj2 ms _ hp hms,
      save_modes_writes_count_erase j hj2 ms _ hp hms, hlen, hN]
    omega

theorem wear_leveling_witness :
    (save_modes_writes (List.replicate 32 3) (save_modes [1, 2] (boot_state mode4_store 0 0))).countP
      (fun w => decide (w.1 = 0)) = 2 :=
  ((wear_leveling [1, 2] (List.replicate 32 3) (boot_state mode4_store 0 0) 0
    (by decide) (by decide) (by decide)).2.2.2.2 rfl).1

/-! ## C28: `fast_presses` is cleared by every pass -/

theorem main_dispatch_fast_presses (junk : Nat) (v : Variant) (br : Branch) (blinks : Nat)
    (m : Main) : (main_dispatch junk v br blinks m).st.fast_presses = 0 := rfl

theorem biscotti_pass_fast_presses (junk ADC_LOW : Nat) (sample : Option Nat) (blinks : Nat)
    (m : Main) (h : m.asleep = false ∨ m.st.fast_presses = 0) :
    (biscotti_pass junk ADC_LOW sample blinks m).st.fast_presses = 0 := by
  unfold biscotti_pass
  by_cases ha : m.asleep = true
  · rw [if_pos ha]
    rcases h with h | h
    · rw [ha] at h; exact absurd h (by decide)
    · exact h
  · rw [if_neg ha, (battery_monitor_st _ _ _).1]
    rfl

theorem simple_pass_fast_presses (junk ADC_LOW : Nat) (sample : Option Nat)
    (m : Main) (h : m.asleep = false ∨ m.st.fast_presses = 0) :
    (simple_pass junk ADC_LOW sample m).st.fast_presses = 0 := by
  unfold simple_pass
  by_cases ha : m.asleep = true
  · rw [if_pos ha]
    rcases h with h | h
    · rw [ha] at h; exact absurd h (by decide)
    · exact h
  · rw [if_neg ha, (battery_monitor_st _ _ _).1]
    rfl

theorem biscotti_run_fast_presses (junk ADC_LOW : Nat) :
    ∀ (inps : List (Option Nat × Nat)) (m : Main), m.st.fast_presses = 0 →
      (biscotti_run junk ADC_LOW inps m).st.fast_presses = 0 := by
  intro inps
  induction inps with
  | nil => intro m h; exact h
  | cons inp inps ih =>
    intro m h
    exact ih _ (biscotti_pass_fast_presses junk ADC_LOW inp.1 inp.2 m (Or.inr h))

theorem simple_run_fast_presses (junk ADC_LOW : Nat) :
    ∀ (inps : List (Option Nat)) (m : Main), m.st.fast_presses = 0 →
      (simple_run junk ADC_LOW inps m).st.fast_presses = 0 := by
  intro inps
  induction inps with
  | nil => intro m h; exact h
  | cons inp inps ih =>
    intro m h
    exact ih _ (simple_pass_fast_presses junk ADC_LOW inp m (Or.inr h))

/-- C28: the dispatch step of a pass ends with `fast_presses = 0` whichever branch `br` is
taken, in biscotti and in simple, and so does the whole pass.  Consequently, after one or more
passes from a running state the dispatch never selects the config branch again: the config
sequence can only be entered in the first pass after a boot. -/
theorem fast_presses_cleared (junk ADC_LOW blinks : Nat) (v : Variant) (br : Branch)
    (m : Main) (hrun : m.asleep = false) :
    (main_dispatch junk v br blinks m).st.fast_presses = 0 ∧
    (∀ sample, (biscotti_pass junk ADC_LOW sample blinks m).st.fast_presses = 0) ∧
    (∀ sample, (simple_pass junk ADC_LOW sample m).st.fast_presses = 0) ∧
    (∀ inp inps, (biscotti_run junk ADC_LOW (inp :: inps) m).st.fast_presses = 0 ∧
      biscotti_branch (biscotti_run junk ADC_LOW (inp :: inps) m) ≠ Branch.config) ∧
    (∀ inp inps, (simple_run junk ADC_LOW (inp :: inps) m).st.fast_presses = 0 ∧
      simple_branch (simple_run junk ADC_LOW (inp :: inps) m) ≠ Branch.config) := by
  refine ⟨rfl, fun sample => biscotti_pass_fast_presses _ _ _ _ m (Or.inl hrun),
    fun sample => simple_pass_fast_presses _ _ _ m (Or.inl hrun), fun inp inps => ?_,
    fun inp inps => ?_⟩
  · have h : (biscotti_run junk ADC_LOW (inp :: inps) m).st.fast_presses = 0 :=
      biscotti_run_fast_presses junk ADC_LOW inps _
        (biscotti_pass_fast_presses _ _ _ _ m (Or.inl hrun))
    refine ⟨h, fun hb => ?_⟩
    have := (biscotti_branch_config_iff _).1 hb
    rw [h] at this
    exact absurd this (by decide)
  · have h : (simple_run junk ADC_LOW (inp :: inps) m).st.fast_presses = 0 :=
      simple_run_fast_presses junk ADC_LOW inps _
        (simple_pass_fast_presses _ _ _ m (Or.inl hrun))
    refine ⟨h, fun hb => ?_⟩
    have := (simple_branch_config_iff _).1 hb
    rw [h] at this
    exact absurd this (by decide)

theorem fast_presses_cleared_witness :
    biscotti_branch (loop_entry 12 0) = Branch.config ∧
    (main_dispatch 0 biscotti Branch.config 0 (loop_entry 12 0)).st.fast_presses = 0 ∧
    biscotti_branch (biscotti_run 0 100 [(none, 0), (some 90, 0)] (loop_entry 12 0))
      ≠ Branch.config :=
  ⟨by decide, (fast_presses_cleared 0 100 0 biscotti Branch.config (loop_entry 12 0) rfl).1,
    ((fast_presses_cleared 0 100 0 biscotti Branch.config (loop_entry 12 0) rfl).2.2.2.1
      (none, 0) [(some 90, 0)]).2⟩

/-! ## C29: the restored group index -/

theorem count_modes_loop_count (tbl : List Nat) :
    ∀ (n src count : Nat) (modes modes2 : List Nat),
      (count_modes_loop tbl n src count modes).2 = (count_modes_loop tbl n src count modes2).2 := by
  intro n
  induction n with
  | zero => intro src count modes modes2; rfl
  | succ n ih =>
    intro src count modes modes2
    by_cases h : pgm_read_byte tbl src ≠ 0
    · simp only [count_modes_loop, h, ne_eq, not_false_eq_true, if_true]
      exact ih _ _ _ _
    · simp only [count_modes_loop, h, if_false]

theorem count_modes_solid_range (v : Variant) (s : State)
    (h1 : pgm_read_byte v.modegroups (s.modegroup <<< 3) ≠ 0) :
    1 ≤ (count_modes v s).solid_modes ∧ (count_modes v s).solid_modes ≤ 8 := by
  have he : (count_modes v s).solid_modes =
      (count_modes_loop v.modegroups 8 (s.modegroup <<< 3) 0 (List.replicate 8 0)).2 :=
    count_modes_loop_count _ _ _ _ _ _
  obtain ⟨c, c1, c2, _, c4, _⟩ :=
    count_modes_loop_spec v.modegroups 8 (s.modegroup <<< 3) 0 (List.replicate 8 0)
      (by decide)
  rw [he, c1]
  refine ⟨?_, by omega⟩
  rcases c4 with c4 | c4
  · omega
  · by_cases h0 : c = 0
    · rw [h0] at c4
      exact absurd c4 h1
    · omega

/-- C29: for every state, hence every EEPROM content, `restore_state` leaves
`modegroup < NUM_MODEGROUPS`; for every such group the offsets that `count_modes` reads lie
inside the table `modegroups` (90 bytes in biscotti, with the short final row), and
`count_modes` yields `1 <= solid_modes <= 8`; in biscotti and in simple. -/
theorem group_index_valid (s : State) :
    (restore_state biscotti s).modegroup < biscotti.NUM_MODEGROUPS ∧
    (restore_state simple s).modegroup < simple.NUM_MODEGROUPS ∧
    (∀ g, g < biscotti.NUM_MODEGROUPS →
      ∀ o ∈ count_modes_reads biscotti.modegroups 8 (g <<< 3),
        o < biscotti.modegroups.length) ∧
    (∀ g, g < simple.NUM_MODEGROUPS →
      ∀ o ∈ count_modes_reads simple.modegroups 8 (g <<< 3), o < simple.modegroups.length) ∧
    (1 ≤ (count_modes biscotti (restore_state biscotti s)).solid_modes ∧
      (count_modes biscotti (restore_state biscotti s)).solid_modes ≤ 8) ∧
    (1 ≤ (count_modes simple (restore_state simple s)).solid_modes ∧
      (count_modes simple (restore_state simple s)).solid_modes ≤ 8) := by
  have hb := restore_state_modegroup_lt biscotti s (by decide)
  have hs := restore_state_modegroup_lt simple s (by decide)
  have tb : ∀ g, g < biscotti.NUM_MODEGROUPS →
      pgm_read_byte biscotti.modegroups (g <<< 3) ≠ 0 := by decide
  have ts : ∀ g, g < simple.NUM_MODEGROUPS →
      pgm_read_byte simple.modegroups (g <<< 3) ≠ 0 := by decide
  exact ⟨hb, hs, by decide, by decide,
    count_modes_solid_range biscotti _ (tb _ hb), count_modes_solid_range simple _ (ts _ hs)⟩

/-! ## C30: recovery from a torn `save_mode` -/

theorem torn_store_apply (s : State) (a : Nat) :
    torn_store s a = if a = (s.eepos + 1) % 32 then s.mode_idx else s.eeprom a := by
  show eeprom_write_byte s.eeprom ((s.eepos + 1) &&& (WEAR_LVL_LEN - 1)) s.mode_idx a = _
  rw [eeprom_write_byte_apply, and_mask_eq_mod]
  rfl

/-- A `save_mode` on a ring whose only cells that may be live are the cursor cell and the one
after it leaves exactly one live cell. -/
theorem save_mode_torn_ringLive (s : State) (hc : s.eepos + 1 < 32) (hm : s.mode_idx ≠ 0xff)
    (hb : ∀ i, i < 32 → i ≠ s.eepos → i ≠ s.eepos + 1 → s.eeprom i = 0xff) :
    RingLive (save_mode s) s.mode_idx := by
  have hmod : (s.eepos + 1) % 32 = s.eepos + 1 := by omega
  have hne : s.eepos + 1 ≠ s.eepos := by omega
  refine ⟨?_, ?_, ?_⟩
  · rw [save_mode_eepos, WEAR_LVL_LEN_eq]; omega
  · rw [save_mode_eeprom, save_mode_eepos, hmod, if_neg hne, if_pos rfl]
  · intro i hi
    have hi2 : i < 32 := hi
    rw [save_mode_eeprom, save_mode_eepos, hmod]
    by_cases h1 : i = s.eepos
    · rw [if_pos h1]
      constructor
      · intro h; exact absurd rfl h
      · intro h; omega
    · rw [if_neg h1]
      by_cases h2 : i = s.eepos + 1
      · rw [if_pos h2]
        exact ⟨fun _ => h2, fun _ => hm⟩
      · rw [if_neg h2]
        constructor
        · intro h; exact absurd (hb i hi2 h1 h2) h
        · intro h; exact absurd h h2

/-- C30 (amended): let power be lost inside `save_mode`, called with the cursor at
`c < N - 1` on a ring whose only live cell is `c` (holding `old`), after the new index was
written to cell `c + 1`.  When the stored mode group byte is valid, `restore_state` returns
`old` with the cursor at `c`; when it is not, `restore_state` resets and returns index 0 with
the cursor at `c + 1`.  In both cases the `save_mode` of that boot leaves exactly one live
ring cell. -/
theorem torn_write_recovery (v : Variant) (s0 : State) (old fp lp : Nat)
    (hlive : RingLive s0 old) (hc : s0.eepos + 1 < WEAR_LVL_LEN) :
    torn_store s0 s0.eepos = old ∧ torn_store s0 (s0.eepos + 1) = s0.mode_idx ∧
    (torn_store s0 OPT_modegroup < v.NUM_MODEGROUPS →
      (restore_state v (boot_state (torn_store s0) fp lp)).mode_idx = old ∧
      (restore_state v (boot_state (torn_store s0) fp lp)).eepos = s0.eepos) ∧
    (v.NUM_MODEGROUPS ≤ torn_store s0 OPT_modegroup →
      (restore_state v (boot_state (torn_store s0) fp lp)).mode_idx = 0 ∧
      (restore_state v (boot_state (torn_store s0) fp lp)).eepos = s0.eepos + 1) ∧
    RingLive (main_boot v (boot_state (torn_store s0) fp lp))
      (main_boot v (boot_state (torn_store s0) fp lp)).mode_idx := by
  obtain ⟨l1, l2, l3⟩ := hlive
  have hc2 : s0.eepos + 1 < 32 := hc
  have hmod : (s0.eepos + 1) % 32 = s0.eepos + 1 := by omega
  have hold : old ≠ 0xff := by
    rw [← l2]; exact (l3 _ l1).2 rfl
  have hec : torn_store s0 s0.eepos = old := by
    rw [torn_store_apply, hmod, if_neg (by omega)]; exact l2
  have hec1 : torn_store s0 (s0.eepos + 1) = s0.mode_idx := by
    rw [torn_store_apply, hmod, if_pos rfl]
  have hblank : ∀ i, i < 32 → i ≠ s0.eepos → i ≠ s0.eepos + 1 →
      torn_store s0 i = 0xff := by
    intro i hi h1 h2
    rw [torn_store_apply, hmod, if_neg h2]
    by_contra hne
    exact h1 ((l3 i hi).1 hne)
  have hLA : LiveAbove { boot_state (torn_store s0) fp lp with eepos := s0.eepos } := by
    intro i hi hl
    show s0.eepos ≤ i
    by_contra hlt
    exact hl (hblank i hi (by omega) (by omega))
  have hr := restore_state_of_liveAbove v (boot_state (torn_store s0) fp lp)
    { boot_state (torn_store s0) fp lp with eepos := s0.eepos } hLA (by show s0.eepos < 32; omega)
    (by show torn_store s0 s0.eepos ≠ 0xff; rw [hec]; exact hold) rfl
  have hr1 : torn_store s0 OPT_modegroup < v.NUM_MODEGROUPS →
      restore_state v (boot_state (torn_store s0) fp lp) =
        loaded (boot_state (torn_store s0) fp lp) s0.eepos := by
    intro hg
    rw [hr]
    exact if_neg (by show ¬ torn_store s0 OPT_modegroup ≥ v.NUM_MODEGROUPS; omega)
  have hr2 : v.NUM_MODEGROUPS ≤ torn_store s0 OPT_modegroup →
      restore_state v (boot_state (torn_store s0) fp lp) =
        reset_state (loaded (boot_state (torn_store s0) fp lp) s0.eepos) := by
    intro hg
    rw [hr]
    exact if_pos hg
  refine ⟨hec, hec1, ?_, ?_, ?_⟩
  · intro hg
    rw [hr1 hg]
    exact ⟨hec, rfl⟩
  · intro hg
    rw [hr2 hg]
    refine ⟨rfl, ?_⟩
    show (save_mode _).eepos = _
    rw [save_mode_eepos]
    exact hmod
  · rw [main_boot_eq]
    by_cases hg : torn_store s0 OPT_modegroup < v.NUM_MODEGROUPS
    · rw [hr1 hg]
      have hf := boot_gesture_frame
        (count_modes v (loaded (boot_state (torn_store s0) fp lp) s0.eepos))
      have hm := boot_gesture_mode_idx_ne
        (count_modes v (loaded (boot_state (torn_store s0) fp lp) s0.eepos))
        (by show torn_store s0 s0.eepos ≠ 0xff; rw [hec]; exact hold)
        (by have := count_modes_solid_le v
              (loaded (boot_state (torn_store s0) fp lp) s0.eepos) rfl
            omega)
      have hpos : (boot_gesture
          (count_modes v (loaded (boot_state (torn_store s0) fp lp) s0.eepos))).eepos
          = s0.eepos := hf.2.1
      have hee : (boot_gesture
          (count_modes v (loaded (boot_state (torn_store s0) fp lp) s0.eepos))).eeprom
          = torn_store s0 := hf.1
      exact save_mode_torn_ringLive _ (by rw [hpos]; exact hc2) hm
        (by intro i hi h1 h2
            rw [hpos] at h1 h2
            rw [hee]
            exact hblank i hi h1 h2)
    · rw [hr2 (by omega)]
      have h1 : RingLive (save_mode
          { loaded (boot_state (torn_store s0) fp lp) s0.eepos with
            mode_idx := 0, modegroup := 0, mode_override := 0 }) 0 :=
        save_mode_torn_ringLive
          { loaded (boot_state (torn_store s0) fp lp) s0.eepos with
            mode_idx := 0, modegroup := 0, mode_override := 0 }
          hc2 (by show (0 : Nat) ≠ 0xff; decide) hblank
      have h2 : RingLive (reset_state (loaded (boot_state (torn_store s0) fp lp) s0.eepos)) 0 :=
        ringLive_congr h1 (fun i hi => save_state_eeprom_ring _ i hi) rfl
      have hf := boot_gesture_frame
        (count_modes v (reset_state (loaded (boot_state (torn_store s0) fp lp) s0.eepos)))
      have hm := boot_gesture_mode_idx_ne
        (count_modes v (reset_state (loaded (boot_state (torn_store s0) fp lp) s0.eepos)))
        (by show (0 : Nat) ≠ 0xff; decide)
        (by have := count_modes_solid_le v
              (reset_state (loaded (boot_state (torn_store s0) fp lp) s0.eepos)) rfl
            omega)
      have h3 : RingLive (boot_gesture (count_modes v
          (reset_state (loaded (boot_state (torn_store s0) fp lp) s0.eepos)))) 0 :=
        ringLive_congr h2 (fun i _ => by rw [hf.1]; rfl) hf.2.1
      exact save_mode_ringLive _ (ringInv_of_live h3) hm

theorem second_boot_torn_state_live : RingLive second_boot_torn_state 0 :=
  ⟨by decide, by decide, by decide⟩

/-- C30, counterexample: the second boot on `first_boot_torn_store` loses power inside the
`save_mode` of `reset_state`, with the cursor at cell 1, the ring otherwise blank and the new
index written to cell 2.  The mode group byte is still erased, so the next `restore_state`
resets the state and returns with the cursor at cell 2, not at cell 1. -/
theorem torn_write_recovery_counterexample :
    second_boot_torn_state.eepos = 1 ∧ second_boot_torn_state.eepos < WEAR_LVL_LEN - 1 ∧
    second_boot_torn_state.eeprom 1 = 0 ∧
    (∀ i, i < WEAR_LVL_LEN → i ≠ 1 → second_boot_torn_state.eeprom i = 0xff) ∧
    torn_store second_boot_torn_state 1 = 0 ∧ torn_store second_boot_torn_state 2 = 0 ∧
    (∀ i, i < WEAR_LVL_LEN → i ≠ 1 → i ≠ 2 → torn_store second_boot_torn_state i = 0xff) ∧
    (restore_state biscotti
      (boot_state (torn_store second_boot_torn_state) 0 0)).eepos = 2 ∧
    (restore_state biscotti (boot_state (torn_store second_boot_torn_state) 0 0)).eepos
      ≠ second_boot_torn_state.eepos := by
  decide

theorem torn_write_recovery_witness :
    RingLive second_boot_torn_state 0 ∧
    (restore_state biscotti
      (boot_state (torn_store second_boot_torn_state) 0 0)).eepos = 1 + 1 ∧
    RingLive (main_boot biscotti (boot_state (torn_store second_boot_torn_state) 0 0))
      (main_boot biscotti (boot_state (torn_store second_boot_torn_state) 0 0)).mode_idx :=
  ⟨second_boot_torn_state_live,
    ((torn_write_recovery biscotti second_boot_torn_state 0 0 0 second_boot_torn_state_live
      (by decide)).2.2.2.1 (by decide)).2,
    (torn_write_recovery biscotti second_boot_torn_state 0 0 0 second_boot_torn_state_live
      (by decide)).2.2.2.2⟩

/-! ## C31: the ramp -/

theorem set_level_PWM (level : Nat) (m : Main) :
    (set_level level m).PWM_LVL =
      if level = 0 then 0 else pgm_read_byte ramp_FET (level - 1) := by
  unfold set_level
  dsimp only
  split
  · rfl
  · split <;> rfl

theorem biscuit_set_level_PWM (level : Nat) (b : Biscuit) :
    (biscuit_set_level level b).PWM_LVL =
      if level = 0 then 0 else pgm_read_byte pwm_values level := by
  unfold biscuit_set_level
  dsimp only
  split
  · rfl
  · split <;> rfl

theorem ramp_FET_increasing : ∀ l, l < RAMP_SIZE →
    (if l = 0 then 0 else pgm_read_byte ramp_FET (l - 1)) <
      (if l + 1 = 0 then 0 else pgm_read_byte ramp_FET (l + 1 - 1)) := by
  decide

theorem pwm_values_increasing : ∀ l, l < RAMP_SIZE →
    (if l = 0 then 0 else pgm_read_byte pwm_values l) <
      (if l + 1 = 0 then 0 else pgm_read_byte pwm_values (l + 1)) := by
  decide

theorem step_down_high_PWM (m : Main) (h : m.actual_level > RAMP_SIZE) :
    (step_down m).PWM_LVL = 32 := by
  unfold step_down
  rw [if_pos h]
  rfl

/-- C31, counterexample: in the SOS mode of biscotti (`actual_level = 246`) the dispatch
step of a pass ends with `set_level(0)`, so `PWM_LVL = 0`; when the eighth low sample arrives,
the step-down sets `actual_level = RAMP_SIZE / 2 = 3` and programs the PWM value 32, which is
higher, not lower. -/
theorem ramp_monotone_counterexample :
    biscotti_branch sos_entry = Branch.sos ∧
    sos_eighth_dispatch.actual_level = SOS ∧
    sos_eighth_dispatch.lowbatt_cnt = 7 ∧
    sos_eighth_dispatch.levels.head? = some 0 ∧
    sos_eighth_dispatch.PWM_LVL = 0 ∧
    (battery_monitor 100 (some 50) sos_eighth_dispatch).actual_level = 3 ∧
    (battery_monitor 100 (some 50) sos_eighth_dispatch).levels.head? = some 3 ∧
    (battery_monitor 100 (some 50) sos_eighth_dispatch).PWM_LVL = 32 ∧
    ¬ (battery_monitor 100 (some 50) sos_eighth_dispatch).PWM_LVL
      < sos_eighth_dispatch.PWM_LVL := by
  decide

/-- C31 (amended): the PWM value programmed by `set_level` is strictly increasing in the
level over `0..RAMP_SIZE`, in biscotti and simple (0, then `ramp_FET` = 1, 7, 32, 63, 107, 127,
255) and in biscuit (`pwm_values` = 0, 1, 7, 15, 32, 63, 127, 255).  So a battery step-down
from a rendered solid level (`actual_level` in `1..RAMP_SIZE` with its PWM value programmed)
strictly lowers the programmed PWM value, and so does every step-down of biscuit from a
rendered level in `1..RAMP_SIZE`.  A step-down of biscotti or simple from a special mode
(`actual_level > RAMP_SIZE`) sets `actual_level = RAMP_SIZE / 2 = 3`, calls `set_level(3)` and
programs the PWM value 32, whatever was programmed before. -/
theorem ramp_monotone (ADC_LOW voltage : Nat) (m : Main) (b : Biscuit) :
    (∀ l, l < RAMP_SIZE → (set_level l m).PWM_LVL < (set_level (l + 1) m).PWM_LVL) ∧
    (∀ l, l < RAMP_SIZE →
      (biscuit_set_level l b).PWM_LVL < (biscuit_set_level (l + 1) b).PWM_LVL) ∧
    (List.range (RAMP_SIZE + 1)).map (fun l => (set_level l m).PWM_LVL)
      = [0, 1, 7, 32, 63, 107, 127, 255] ∧
    (List.range (RAMP_SIZE + 1)).map (fun l => (biscuit_set_level l b).PWM_LVL)
      = [0, 1, 7, 15, 32, 63, 127, 255] ∧
    (voltage < ADC_LOW ∧ (m.lowbatt_cnt + 1) % 256 ≥ 8 ∧
      1 ≤ m.actual_level ∧ m.actual_level ≤ RAMP_SIZE ∧
      m.PWM_LVL = (set_level m.actual_level m).PWM_LVL →
      (battery_monitor ADC_LOW (some voltage) m).PWM_LVL < m.PWM_LVL) ∧
    (voltage < ADC_LOW ∧ (b.lowbatt_cnt + 1) % 256 ≥ 8 ∧
      1 ≤ b.level_idx ∧ b.level_idx ≤ RAMP_SIZE ∧
      b.PWM_LVL = (biscuit_set_level b.level_idx b).PWM_LVL →
      (biscuit_monitor ADC_LOW (some voltage) b).PWM_LVL < b.PWM_LVL) ∧
    (voltage < ADC_LOW ∧ (m.lowbatt_cnt + 1) % 256 ≥ 8 ∧ m.actual_level > RAMP_SIZE →
      (battery_monitor ADC_LOW (some voltage) m).actual_level = RAMP_SIZE / 2 ∧
      (battery_monitor ADC_LOW (some voltage) m).actual_level = 3 ∧
      (battery_monitor ADC_LOW (some voltage) m).output = 3 ∧
      (battery_monitor ADC_LOW (some voltage) m).levels = 3 :: m.levels ∧
      (battery_monitor ADC_LOW (some voltage) m).PWM_LVL = 32 ∧
      (battery_monitor ADC_LOW (some voltage) m).asleep = m.asleep) := by
  have hR : RAMP_SIZE = 7 := rfl
  refine ⟨?_, ?_, ?_, ?_, ?_, ?_, ?_⟩
  rotate_left 6
  · rintro ⟨hv, hc, hh⟩
    rw [battery_monitor_fire ADC_LOW voltage m hv hc]
    obtain ⟨s1, s2, s3, _, s5, _, _⟩ :=
      step_down_high { m with lowbatt_cnt := (m.lowbatt_cnt + 1) % 256 } hh
    exact ⟨s1, s1, s2, s3,
      step_down_high_PWM { m with lowbatt_cnt := (m.lowbatt_cnt + 1) % 256 } hh, s5⟩
  · intro l hl
    rw [set_level_PWM, set_level_PWM]
    exact ramp_FET_increasing l hl
  · intro l hl
    rw [biscuit_set_level_PWM, biscuit_set_level_PWM]
    exact pwm_values_increasing l hl
  · simp only [set_level_PWM]
    decide
  · simp only [biscuit_set_level_PWM]
    decide
  · rintro ⟨hv, hc, h1, h7, hp⟩
    rw [battery_monitor_fire ADC_LOW voltage m hv hc]
    by_cases h2 : m.actual_level > 1
    · have hs : (step_down { m with lowbatt_cnt := (m.lowbatt_cnt + 1) % 256 }).PWM_LVL =
          (set_level (m.actual_level - 1)
            { m with lowbatt_cnt := (m.lowbatt_cnt + 1) % 256,
                     actual_level := m.actual_level - 1 }).PWM_LVL := by
        unfold step_down
        rw [if_neg (by show ¬ m.actual_level > RAMP_SIZE; omega), if_pos (by exact h2)]
        rfl
      rw [hs, hp, set_level_PWM, set_level_PWM]
      have := ramp_FET_increasing (m.actual_level - 1) (by omega)
      rw [show m.actual_level - 1 + 1 = m.actual_level by omega] at this
      exact this
    · have h0 := (step_down_off { m with lowbatt_cnt := (m.lowbatt_cnt + 1) % 256 }
        (by show m.actual_level ≤ 1; omega)).2.2.2.2.2.2.2
      rw [h0, hp, set_level_PWM]
      have : m.actual_level = 1 := by omega
      rw [this]
      decide
  · rintro ⟨hv, hc, h1, h7, hp⟩
    rw [hp, biscuit_set_level_PWM]
    by_cases h2 : b.level_idx > 1
    · have hs : (biscuit_monitor ADC_LOW (some voltage) b).PWM_LVL =
          (biscuit_set_level (b.level_idx - 1)
            { b with lowbatt_cnt := (b.lowbatt_cnt + 1) % 256,
                     level_idx := b.level_idx - 1 }).PWM_LVL := by
        simp only [biscuit_monitor, hv, hc, h2, if_true]
      rw [hs, biscuit_set_level_PWM]
      have := pwm_values_increasing (b.level_idx - 1) (by omega)
      rw [show b.level_idx - 1 + 1 = b.level_idx by omega] at this
      exact this
    · have hs : (biscuit_monitor ADC_LOW (some voltage) b).PWM_LVL = 0 := by
        simp only [biscuit_monitor, hv, hc, h2, if_true, if_false]
        rfl
      rw [hs]
      have : b.level_idx = 1 := by omega
      rw [this]
      decide

/-! ## C32: the voltage monitors of biscuit and biscotti -/

theorem biscuit_set_level_frame (level : Nat) (b : Biscuit) :
    (biscuit_set_level level b).lowbatt_cnt = b.lowbatt_cnt ∧
    (biscuit_set_level level b).asleep = b.asleep ∧
    (biscuit_set_level level b).levels = level :: b.levels := by
  unfold biscuit_set_level
  dsimp only
  split
  · exact ⟨rfl, rfl, rfl⟩
  · split <;> exact ⟨rfl, rfl, rfl⟩

/-- C32: one step of the voltage monitor of biscuit on `level_idx` and one step of the
monitor of biscotti on `actual_level`, started with the same counter (any value), the same
level in `0..RAMP_SIZE` and the same ADC sample, end with the same counter and the same
shutdown decision, make the same `set_level` calls and, when they do not shut down, end with
the same level. -/
theorem monitor_equivalence (ADC_LOW : Nat) (sample : Option Nat) (m : Main) (b : Biscuit)
    (hc : b.lowbatt_cnt = m.lowbatt_cnt) (hl : b.level_idx = m.actual_level)
    (h7 : m.actual_level ≤ RAMP_SIZE) (ha : b.asleep = m.asleep) :
    (biscuit_monitor ADC_LOW sample b).lowbatt_cnt
      = (battery_monitor ADC_LOW sample m).lowbatt_cnt ∧
    (biscuit_monitor ADC_LOW sample b).asleep = (battery_monitor ADC_LOW sample m).asleep ∧
    (∃ calls, (biscuit_monitor ADC_LOW sample b).levels = calls ++ b.levels ∧
      (battery_monitor ADC_LOW sample m).levels = calls ++ m.levels) ∧
    ((battery_monitor ADC_LOW sample m).asleep = false →
      (biscuit_monitor ADC_LOW sample b).level_idx
        = (battery_monitor ADC_LOW sample m).actual_level) := by
  have hR : RAMP_SIZE = 7 := rfl
  cases sample with
  | none => exact ⟨hc, ha, ⟨[], rfl, rfl⟩, fun _ => hl⟩
  | some voltage =>
    by_cases hv : voltage < ADC_LOW
    · by_cases h8 : (m.lowbatt_cnt + 1) % 256 ≥ 8
      · have h8b : (b.lowbatt_cnt + 1) % 256 ≥ 8 := by rw [hc]; exact h8
        rw [battery_monitor_fire ADC_LOW voltage m hv h8]
        by_cases h2 : m.actual_level > 1
        · have h2b : b.level_idx > 1 := by rw [hl]; exact h2
          have hb : biscuit_monitor ADC_LOW (some voltage) b =
              { biscuit_set_level (b.level_idx - 1)
                  { b with lowbatt_cnt := (b.lowbatt_cnt + 1) % 256,
                           level_idx := b.level_idx - 1 } with lowbatt_cnt := 0 } := by
            simp only [biscuit_monitor, hv, h8b, h2b, if_true]
          have hf := biscuit_set_level_frame (b.level_idx - 1)
            { b with lowbatt_cnt := (b.lowbatt_cnt + 1) % 256, level_idx := b.level_idx - 1 }
          have hi := biscuit_set_level_level_idx (b.level_idx - 1)
            { b with lowbatt_cnt := (b.lowbatt_cnt + 1) % 256, level_idx := b.level_idx - 1 }
          obtain ⟨s1, s2, s3, s4, s5, _, _⟩ :=
            step_down_solid { m with lowbatt_cnt := (m.lowbatt_cnt + 1) % 256 }
              (by show ¬ m.actual_level > RAMP_SIZE; omega) h2
          rw [hb]
          refine ⟨s4.symm, ?_, ⟨[m.actual_level - 1], ?_, s3⟩, fun _ => ?_⟩
          · rw [s5]
            exact hf.2.1.trans ha
          · show (biscuit_set_level _ _).levels = _
            rw [hf.2.2, hl]
            rfl
          · show (biscuit_set_level _ _).level_idx = _
            rw [hi, s1, hl]
        · have h2b : ¬ b.level_idx > 1 := by rw [hl]; exact h2
          have hb : biscuit_monitor ADC_LOW (some voltage) b =
              { biscuit_set_level 0
                  { b with lowbatt_cnt := (b.lowbatt_cnt + 1) % 256, level_idx := 0 } with
                asleep := true } := by
            simp only [biscuit_monitor, hv, h8b, h2b, if_true, if_false]
          have hf := biscuit_set_level_frame 0
            { b with lowbatt_cnt := (b.lowbatt_cnt + 1) % 256, level_idx := 0 }
          obtain ⟨_, _, s3, s4, s5, _, _, _⟩ :=
            step_down_off { m with lowbatt_cnt := (m.lowbatt_cnt + 1) % 256 }
              (by show m.actual_level ≤ 1; omega)
          rw [hb]
          refine ⟨?_, s5.symm, ⟨[0], ?_, s3⟩, fun h => ?_⟩
          · show (biscuit_set_level _ _).lowbatt_cnt = _
            rw [hf.1, s4, hc]
          · show (biscuit_set_level _ _).levels = _
            rw [hf.2.2]
            rfl
          · rw [s5] at h
            exact absurd h (by decide)
      · have h8b : ¬ (b.lowbatt_cnt + 1) % 256 ≥ 8 := by rw [hc]; exact h8
        have hb : biscuit_monitor ADC_LOW (some voltage) b =
            { b with lowbatt_cnt := (b.lowbatt_cnt + 1) % 256 } := by
          simp only [biscuit_monitor, hv, h8b, if_true, if_false]
        have hm : battery_monitor ADC_LOW (some voltage) m =
            { m with lowbatt_cnt := (m.lowbatt_cnt + 1) % 256 } := by
          simp only [battery_monitor, hv, h8, if_true, if_false]
        rw [hb, hm]
        exact ⟨by show (b.lowbatt_cnt + 1) % 256 = _; rw [hc], ha, ⟨[], rfl, rfl⟩,
          fun _ => hl⟩
    · have hb : biscuit_monitor ADC_LOW (some voltage) b = { b with lowbatt_cnt := 0 } := by
        simp only [biscuit_monitor, hv, if_false]
        rfl
      rw [hb, battery_monitor_high ADC_LOW voltage m hv]
      exact ⟨rfl, ha, ⟨[], rfl, rfl⟩, fun _ => hl⟩

theorem monitor_equivalence_witness :
    (biscuit_monitor 100 (some 50) { biscuit_boot 0 4 with lowbatt_cnt := 7 }).lowbatt_cnt
      = (battery_monitor 100 (some 50)
          { loop_entry 3 0 with actual_level := 5, lowbatt_cnt := 7 }).lowbatt_cnt ∧
    (biscuit_monitor 100 (some 50) { biscuit_boot 0 4 with lowbatt_cnt := 7 }).asleep
      = (battery_monitor 100 (some 50)
          { loop_entry 3 0 with actual_level := 5, lowbatt_cnt := 7 }).asleep :=
  ⟨(monitor_equivalence 100 (some 50)
      { loop_entry 3 0 with actual_level := 5, lowbatt_cnt := 7 }
      { biscuit_boot 0 4 with lowbatt_cnt := 7 } rfl (by decide) (by decide) rfl).1,
   (monitor_equivalence 100 (some 50)
      { loop_entry 3 0 with actual_level := 5, lowbatt_cnt := 7 }
      { biscuit_boot 0 4 with lowbatt_cnt := 7 } rfl (by decide) (by decide) rfl).2.1⟩

/-! ## C33: the mode indices that are saved -/

theorem var_write_mode_idx (var : ConfigVar) (x : Nat) (s : State) :
    (var_write var x s).mode_idx = s.mode_idx := by
  cases var <;> rfl

theorem toggle_saves_eq (var : ConfigVar) (num : Nat) (m : Main) :
    toggle_saves var num m = [m.st.mode_idx, m.st.mode_idx] := by
  have h1 : (var_write var (var_read var (blink num m).st ^^^ 1) (blink num m).st).mode_idx
      = m.st.mode_idx := by
    rw [var_write_mode_idx, blink_st]
  have h2 : (var_write var (var_read var (blink 32 (toggle_apply var num m)).st ^^^ 1)
      (blink 32 (toggle_apply var num m)).st).mode_idx = m.st.mode_idx := by
    rw [var_write_mode_idx, blink_st, toggle_apply_st]
    show (var_write var _ m.st).mode_idx = _
    rw [var_write_mode_idx]
  show [_, _] = _
  rw [h1, h2]

theorem config_mode_saves_eq (m : Main) :
    config_mode_saves m = [GROUP_SELECT_MODE, GROUP_SELECT_MODE, 0, 0] := by
  unfold config_mode_saves
  dsimp only
  rw [toggle_saves_eq, toggle_saves_eq]
  rfl

theorem group_select_loop_saves_mem : ∀ (n : Nat) (m : Main) (x : Nat),
    x ∈ group_select_loop_saves n m → x = m.st.mode_idx := by
  intro n
  induction n with
  | zero => intro m x hx; exact absurd hx (List.not_mem_nil x)
  | succ n ih =>
    intro m x hx
    have hstep : group_select_loop_saves (n + 1) m =
        m.st.mode_idx :: group_select_loop_saves n
          { blink (m.i + 1) { m with st := save_state { m.st with modegroup := m.i } } with
            i := (blink (m.i + 1)
              { m with st := save_state { m.st with modegroup := m.i } }).i + 1 } := rfl
    rw [hstep] at hx
    rcases List.mem_cons.1 hx with h | h
    · exact h
    · rw [ih _ x h]
      show (blink (m.i + 1) _).st.mode_idx = _
      rw [blink_st]
      rfl

theorem restore_state_saves_mem (v : Variant) (s : State) (x : Nat)
    (hx : x ∈ restore_state_saves v s) : x = 0 := by
  unfold restore_state_saves at hx
  dsimp only at hx
  split at hx
  · exact List.mem_singleton.1 hx
  · split at hx
    · exact List.mem_singleton.1 hx
    · exact absurd hx (List.not_mem_nil x)

theorem main_boot_saves_ne (v : Variant) (e : Nat → Nat) (fp lp x : Nat)
    (hx : x ∈ main_boot_saves v (boot_state e fp lp)) : x ≠ 0xff := by
  rcases List.mem_append.1 hx with h | h
  · rw [restore_state_saves_mem v _ x h]
    decide
  · rw [List.mem_singleton.1 h]
    apply boot_gesture_mode_idx_ne
    · exact restore_state_mode_idx_ne v (boot_state e fp lp)
    · have := count_modes_solid_le v (restore_state v (boot_state e fp lp))
        (by rw [(restore_state_ram v _).1]; rfl)
      omega

theorem main_dispatch_saves_ne (v : Variant) (br : Branch) (m : Main) (x : Nat)
    (hx : x ∈ main_dispatch_saves v br m) : x ≠ 0xff := by
  cases br with
  | config =>
    have h : x ∈ config_mode_saves m := hx
    rw [config_mode_saves_eq] at h
    revert h
    simp only [List.mem_cons, List.mem_singleton, List.not_mem_nil, or_false]
    rintro (h | h | h | h) <;> rw [h] <;> decide
  | group_select =>
    have h : x ∈ group_select_loop_saves v.NUM_MODEGROUPS
        { m with st := { m.st with mode_idx := 0, mode_override := 0 }, i := 0 } := hx
    rw [group_select_loop_saves_mem _ _ x h]
    show (0 : Nat) ≠ 0xff
    decide
  | biking_strobe => exact absurd hx (List.not_mem_nil x)
  | sos => exact absurd hx (List.not_mem_nil x)
  | battcheck => exact absurd hx (List.not_mem_nil x)
  | solid => exact absurd hx (List.not_mem_nil x)

theorem biscotti_run_saves_ne (junk ADC_LOW : Nat) :
    ∀ (inps : List (Option Nat × Nat)) (m : Main) (x : Nat),
      x ∈ biscotti_run_saves junk ADC_LOW inps m → x ≠ 0xff := by
  intro inps
  induction inps with
  | nil => intro m x hx; exact absurd hx (List.not_mem_nil x)
  | cons inp inps ih =>
    intro m x hx
    rcases List.mem_append.1 hx with h | h
    · by_cases ha : m.asleep = true
      · rw [if_pos ha] at h
        exact absurd h (List.not_mem_nil x)
      · rw [if_neg ha] at h
        exact main_dispatch_saves_ne _ _ _ x h
    · exact ih _ x h

theorem simple_run_saves_ne (junk ADC_LOW : Nat) :
    ∀ (inps : List (Option Nat)) (m : Main) (x : Nat),
      x ∈ simple_run_saves junk ADC_LOW inps m → x ≠ 0xff := by
  intro inps
  induction inps with
  | nil => intro m x hx; exact absurd hx (List.not_mem_nil x)
  | cons inp inps ih =>
    intro m x hx
    rcases List.mem_append.1 hx with h | h
    · by_cases ha : m.asleep = true
      · rw [if_pos ha] at h
        exact absurd h (List.not_mem_nil x)
      · rw [if_neg ha] at h
        exact main_dispatch_saves_ne _ _ _ x h
    · exact ih _ x h

/-- C33: in every execution of biscotti and of simple, that is for every EEPROM content `e`,
all boot flags `fp`, `lp`, and every stream of inputs of the passes, the value of `mode_idx`
at every `save_mode` call, during the boot and during the passes, is different from `0xff`.
A `save_mode` with such an index leaves a live cell under the cursor, so the ring is not
blank after it. -/
theorem saved_index_not_sentinel (junk ADC_LOW : Nat) (e : Nat → Nat) (fp lp : Nat) :
    (∀ inps x, x ∈ main_boot_saves biscotti (boot_state e fp lp) ++
        biscotti_run_saves junk ADC_LOW inps
          (main_init junk (main_boot biscotti (boot_state e fp lp))) → x ≠ 0xff) ∧
    (∀ inps x, x ∈ main_boot_saves simple (boot_state e fp lp) ++
        simple_run_saves junk ADC_LOW inps
          (main_init junk (main_boot simple (boot_state e fp lp))) → x ≠ 0xff) ∧
    (∀ s : State, s.mode_idx ≠ 0xff → ¬ RingBlank (save_mode s)) := by
  refine ⟨fun inps x hx => ?_, fun inps x hx => ?_, fun s hs hb => ?_⟩
  · rcases List.mem_append.1 hx with h | h
    · exact main_boot_saves_ne biscotti e fp lp x h
    · exact biscotti_run_saves_ne junk ADC_LOW inps _ x h
  · rcases List.mem_append.1 hx with h | h
    · exact main_boot_saves_ne simple e fp lp x h
    · exact simple_run_saves_ne junk ADC_LOW inps _ x h
  · obtain ⟨h1, h2⟩ := save_mode_cursor_cell s
    exact hs (h2.symm.trans (hb _ h1))

/-! ## C34 and C35: the range of `mode_idx` after `next_mode` and at the lookup -/

/-- C34: for every `uint8_t` value of `mode_idx` and every `solid_modes` in `1..255`, the
`mode_idx` after `next_mode` is below `solid_modes`: it is `mode_idx + 1` when that is below
`solid_modes` and 0 otherwise (for 255 the `uint8_t` sum wraps to 0).  The function is the
same in biscotti.c and simple_NOTES.c. -/
theorem next_mode_range (s : State) (hm : s.mode_idx ≤ 255) (h1 : 1 ≤ s.solid_modes)
    (h2 : s.solid_modes ≤ 255) :
    (next_mode s).mode_idx < s.solid_modes ∧
    (next_mode s).mode_idx =
      (if s.mode_idx + 1 < s.solid_modes then s.mode_idx + 1 else 0) ∧
    (next_mode s).solid_modes = s.solid_modes := by
  rw [next_mode_mode_idx, next_mode_solid_modes]
  by_cases h : s.mode_idx + 1 < s.solid_modes
  · have h256 : (s.mode_idx + 1) % 256 = s.mode_idx + 1 := Nat.mod_eq_of_lt (by omega)
    rw [h256, if_neg (by omega), if_pos h]
    exact ⟨h, rfl, rfl⟩
  · rw [if_neg h]
    by_cases h255 : s.mode_idx = 255
    · have h0 : (s.mode_idx + 1) % 256 = 0 := by rw [h255]
      rw [h0, if_neg (by omega)]
      exact ⟨by omega, rfl, rfl⟩
    · have h256 : (s.mode_idx + 1) % 256 = s.mode_idx + 1 := Nat.mod_eq_of_lt (by omega)
      rw [h256, if_pos (by omega)]
      exact ⟨by omega, rfl, rfl⟩

theorem next_mode_range_witness :
    (next_mode { boot_state blank_eeprom 0 0 with mode_idx := 255, solid_modes := 5 }).mode_idx
      = 0 ∧
    (next_mode { boot_state blank_eeprom 0 0 with mode_idx := 253, solid_modes := 5 }).mode_idx
      < 5 ∧
    (next_mode { boot_state blank_eeprom 0 0 with mode_idx := 3, solid_modes := 5 }).mode_idx
      = 4 :=
  ⟨(next_mode_range { boot_state blank_eeprom 0 0 with mode_idx := 255, solid_modes := 5 }
      (by decide) (by decide) (by decide)).2.1,
   (next_mode_range { boot_state blank_eeprom 0 0 with mode_idx := 253, solid_modes := 5 }
      (by decide) (by decide) (by decide)).1,
   (next_mode_range { boot_state blank_eeprom 0 0 with mode_idx := 3, solid_modes := 5 }
      (by decide) (by decide) (by decide)).2.1⟩

theorem boot_gesture_short (s : State) (ho : s.mode_override = 0) (hl : s.long_press = 0)
    (h1 : 1 ≤ s.solid_modes) :
    (boot_gesture s).mode_idx < (boot_gesture s).solid_modes ∧
    (boot_gesture s).solid_modes = s.solid_modes := by
  have hg : boot_gesture s =
      { next_mode { s with fast_presses := (s.fast_presses + 1) &&& 0x1f } with
        long_press := 0 } := by
    simp only [boot_gesture, ho, hl, if_true]
  have hi : (boot_gesture s).mode_idx =
      (next_mode { s with fast_presses := (s.fast_presses + 1) &&& 0x1f }).mode_idx := by
    rw [hg]
  have hs : (boot_gesture s).solid_modes = s.solid_modes := by
    rw [hg]
    exact next_mode_solid_modes _
  rw [hs, hi, next_mode_mode_idx]
  refine ⟨?_, rfl⟩
  show (if (s.mode_idx + 1) % 256 ≥ s.solid_modes then 0 else (s.mode_idx + 1) % 256)
    < s.solid_modes
  split <;> omega

theorem boot_gesture_long_reset (s : State) (ho : s.mode_override = 0)
    (hl : s.long_press ≠ 0) (hmem : s.memory = 0) (h1 : 1 ≤ s.solid_modes) :
    (boot_gesture s).mode_idx < (boot_gesture s).solid_modes ∧
    (boot_gesture s).solid_modes = s.solid_modes := by
  have hg : boot_gesture s = { s with fast_presses := 0, mode_idx := 0, long_press := 0 } := by
    simp only [boot_gesture, ho, hl, hmem, if_true, if_false]
  rw [hg]
  exact ⟨h1, rfl⟩

/-- After a boot with the override clear and either a short press or memory off, the lookup
`modes[mode_idx]` is made below `solid_modes`. -/
theorem boot_lookup_in_bounds (v : Variant) (s : State)
    (htbl : ∀ g, g < v.NUM_MODEGROUPS → pgm_read_byte v.modegroups (g <<< 3) ≠ 0)
    (h0 : 0 < v.NUM_MODEGROUPS)
    (ho : (restore_state v s).mode_override = 0)
    (hp : s.long_press = 0 ∨ (restore_state v s).memory = 0) :
    (main_boot v s).mode_idx < (main_boot v s).solid_modes ∧
    (main_boot v s).solid_modes ≤ 8 := by
  have hr := count_modes_solid_range v (restore_state v s)
    (htbl _ (restore_state_modegroup_lt v s h0))
  have hlp : (count_modes v (restore_state v s)).long_press = s.long_press :=
    (restore_state_ram v s).2.2
  have key : (boot_gesture (count_modes v (restore_state v s))).mode_idx <
      (boot_gesture (count_modes v (restore_state v s))).solid_modes ∧
      (boot_gesture (count_modes v (restore_state v s))).solid_modes =
        (count_modes v (restore_state v s)).solid_modes := by
    by_cases hl : s.long_press = 0
    · exact boot_gesture_short _ ho (hlp.trans hl) hr.1
    · rcases hp with hp | hp
      · exact absurd hp hl
      · exact boot_gesture_long_reset _ ho (by rw [hlp]; exact hl) hp hr.1
  rw [main_boot_eq]
  show (boot_gesture _).mode_idx < (boot_gesture _).solid_modes ∧
    (boot_gesture _).solid_modes ≤ 8
  exact ⟨key.1, by rw [key.2]; exact hr.2⟩

/-- C35, the divergence: a boot of biscotti from `override_store` (the store of a committed
first toggle, the way into the group selection) keeps `mode_idx = GROUP_SELECT_MODE = 253`
with `solid_modes = 5`, and `main` reads `modes[253]` behind its eight-entry buffer before it
looks at `mode_override`; `actual_level` keeps the byte read there.  The same happens with
the override clear after a long press with memory on (`leftover_memory_store`).  With the
override clear and a short press, or memory off, the lookup is below `solid_modes`, in
biscotti and in simple. -/
theorem mode_lookup_bounds (e : Nat → Nat) (fp lp : Nat) :
    (restore_state biscotti (boot_state override_store 0 0)).mode_override = 1 ∧
    (main_boot biscotti (boot_state override_store 0 0)).mode_idx = GROUP_SELECT_MODE ∧
    (main_boot biscotti (boot_state override_store 0 0)).solid_modes = 5 ∧
    (main_boot biscotti (boot_state override_store 0 0)).modes.length = 8 ∧
    ¬ (main_boot biscotti (boot_state override_store 0 0)).mode_idx < 8 ∧
    (override_entry 99).actual_level = 99 ∧ (override_entry 7).actual_level = 7 ∧
    (override_entry 99).output = GROUP_SELECT_MODE ∧
    (restore_state biscotti (boot_state leftover_memory_store 0 1)).mode_override = 0 ∧
    (main_boot biscotti (boot_state leftover_memory_store 0 1)).mode_idx
      = GROUP_SELECT_MODE ∧
    ((restore_state biscotti (boot_state e fp lp)).mode_override = 0 ∧
      (lp = 0 ∨ (restore_state biscotti (boot_state e fp lp)).memory = 0) →
      (main_boot biscotti (boot_state e fp lp)).mode_idx
        < (main_boot biscotti (boot_state e fp lp)).solid_modes ∧
      (main_boot biscotti (boot_state e fp lp)).solid_modes ≤ 8) ∧
    ((restore_state simple (boot_state e fp lp)).mode_override = 0 ∧
      (lp = 0 ∨ (restore_state simple (boot_state e fp lp)).memory = 0) →
      (main_boot simple (boot_state e fp lp)).mode_idx
        < (main_boot simple (boot_state e fp lp)).solid_modes ∧
      (main_boot simple (boot_state e fp lp)).solid_modes ≤ 8) := by
  refine ⟨by decide, by decide, by decide, by decide, by decide, by decide, by decide,
    by decide, by decide, by decide, ?_, ?_⟩
  · rintro ⟨ho, hp⟩
    exact boot_lookup_in_bounds biscotti _ (by decide) (by decide) ho hp
  · rintro ⟨ho, hp⟩
    exact boot_lookup_in_bounds simple _ (by decide) (by decide) ho hp

/-! ## C36: the pass after a group selection -/

theorem group_select_loop_frame : ∀ (n : Nat) (m : Main),
    (group_select_loop n m).i = m.i + n ∧
    (group_select_loop n m).output = m.output ∧
    (group_select_loop n m).actual_level = m.actual_level ∧
    (group_select_loop n m).lowbatt_cnt = m.lowbatt_cnt ∧
    (group_select_loop n m).asleep = m.asleep ∧
    (group_select_loop n m).st.modes = m.st.modes ∧
    (group_select_loop n m).st.solid_modes = m.st.solid_modes := by
  intro n
  induction n with
  | zero => intro m; exact ⟨rfl, rfl, rfl, rfl, rfl, rfl, rfl⟩
  | succ n ih =>
    intro m
    rw [group_select_loop_step]
    have hb := blink_locals (m.i + 1) { m with st := save_state { m.st with modegroup := m.i } }
    have hs := blink_st (m.i + 1) { m with st := save_state { m.st with modegroup := m.i } }
    obtain ⟨i1, i2, i3, i4, i5, i6, i7⟩ := ih
      { blink (m.i + 1) { m with st := save_state { m.st with modegroup := m.i } } with
        i := (blink (m.i + 1)
          { m with st := save_state { m.st with modegroup := m.i } }).i + 1 }
    refine ⟨?_, i2.trans hb.1, i3.trans hb.2.1, i4.trans hb.2.2.1, i5.trans hb.2.2.2.2, ?_, ?_⟩
    · rw [i1]
      show (blink (m.i + 1) _).i + 1 + n = _
      rw [hb.2.2.2.1]
      show m.i + 1 + n = _
      omega
    · rw [i6]; show (blink (m.i + 1) _).st.modes = _; rw [hs]; rfl
    · rw [i7]; show (blink (m.i + 1) _).st.solid_modes = _; rw [hs]; rfl

theorem group_select_frame (v : Variant) (m : Main) (h0 : 0 < v.NUM_MODEGROUPS) :
    (group_select v m).output = m.output ∧
    (group_select v m).lowbatt_cnt = m.lowbatt_cnt ∧
    (group_select v m).st.modes = m.st.modes ∧
    (group_select v m).st.solid_modes = m.st.solid_modes ∧
    (group_select v m).st.modegroup = v.NUM_MODEGROUPS - 1 := by
  obtain ⟨_, f2, _, f4, _, f6, f7⟩ := group_select_loop_frame v.NUM_MODEGROUPS
    { m with st := { m.st with mode_idx := 0, mode_override := 0 }, i := 0 }
  refine ⟨f2, f4, f6, f7, ?_⟩
  have hfi := (group_select_loop_frame (v.NUM_MODEGROUPS - 1)
    { m with st := { m.st with mode_idx := 0, mode_override := 0 }, i := 0 }).1
  have hst : (group_select v m).st =
      (group_select_loop (v.NUM_MODEGROUPS - 1 + 1)
        { m with st := { m.st with mode_idx := 0, mode_override := 0 }, i := 0 }).st := by
    have : v.NUM_MODEGROUPS - 1 + 1 = v.NUM_MODEGROUPS := by omega
    rw [this]
    rfl
  rw [hst, group_select_loop_last]
  show (group_select_loop _ _).i = _
  rw [hfi]
  show 0 + (v.NUM_MODEGROUPS - 1) = _
  omega

theorem battery_monitor_quiet (ADC_LOW : Nat) (sample : Option Nat) (m : Main)
    (hno : ∀ voltage, sample = some voltage → voltage < ADC_LOW →
      (m.lowbatt_cnt + 1) % 256 < 8) :
    (battery_monitor ADC_LOW sample m).output = m.output ∧
    (battery_monitor ADC_LOW sample m).actual_level = m.actual_level ∧
    (battery_monitor ADC_LOW sample m).levels = m.levels := by
  cases sample with
  | none => exact ⟨rfl, rfl, rfl⟩
  | some voltage =>
    by_cases hv : voltage < ADC_LOW
    · have h8 : ¬ (m.lowbatt_cnt + 1) % 256 ≥ 8 := by
        have := hno voltage rfl hv
        omega
      have hm : battery_monitor ADC_LOW (some voltage) m =
          { m with lowbatt_cnt := (m.lowbatt_cnt + 1) % 256 } := by
        simp only [battery_monitor, hv, h8, if_true, if_false]
      rw [hm]
      exact ⟨rfl, rfl, rfl⟩
    · rw [battery_monitor_high ADC_LOW voltage m hv]
      exact ⟨rfl, rfl, rfl⟩

/-- The pass of either variant that dispatches the group selection, when the voltage monitor
does not step down in it. -/
theorem group_select_pass (junk ADC_LOW blinks : Nat) (v : Variant) (sample : Option Nat)
    (m : Main) (h0 : 0 < v.NUM_MODEGROUPS)
    (hno : ∀ voltage, sample = some voltage → voltage < ADC_LOW →
      (m.lowbatt_cnt + 1) % 256 < 8) :
    (battery_monitor ADC_LOW sample
      (main_dispatch junk v Branch.group_select blinks m)).output = m.output ∧
    (battery_monitor ADC_LOW sample
      (main_dispatch junk v Branch.group_select blinks m)).st.fast_presses = 0 ∧
    (battery_monitor ADC_LOW sample
      (main_dispatch junk v Branch.group_select blinks m)).st.modes = m.st.modes ∧
    (battery_monitor ADC_LOW sample
      (main_dispatch junk v Branch.group_select blinks m)).st.solid_modes
      = m.st.solid_modes ∧
    (battery_monitor ADC_LOW sample
      (main_dispatch junk v Branch.group_select blinks m)).st.modegroup
      = v.NUM_MODEGROUPS - 1 := by
  obtain ⟨g1, g2, g3, g4, g5⟩ := group_select_frame v m h0
  have hq := battery_monitor_quiet ADC_LOW sample
    (main_dispatch junk v Branch.group_select blinks m)
    (by intro voltage hs hv
        show ((group_select v m).lowbatt_cnt + 1) % 256 < 8
        rw [g2]
        exact hno voltage hs hv)
  have hst := (battery_monitor_st ADC_LOW sample
    (main_dispatch junk v Branch.group_select blinks m)).1
  rw [hq.1, hst]
  exact ⟨g1, rfl, g3, g4, g5⟩

/-- C36: a pass that dispatches the group selection and runs to completion, without a
step-down of the voltage monitor in it, ends with `output` still `GROUP_SELECT_MODE`, so the
next pass dispatches the group selection again, in biscotti and in simple.  The pass leaves
the last group in `modegroup`, while the buffer `modes` and `solid_modes` stay as `count_modes`
set them at boot. -/
theorem group_select_repeats (junk ADC_LOW blinks : Nat) (sample : Option Nat) (m : Main)
    (hrun : m.asleep = false) (hfp : ¬ m.st.fast_presses > 9)
    (hout : m.output = GROUP_SELECT_MODE)
    (hno : ∀ voltage, sample = some voltage → voltage < ADC_LOW →
      (m.lowbatt_cnt + 1) % 256 < 8) :
    biscotti_branch m = Branch.group_select ∧ simple_branch m = Branch.group_select ∧
    (biscotti_pass junk ADC_LOW sample blinks m).output = GROUP_SELECT_MODE ∧
    biscotti_branch (biscotti_pass junk ADC_LOW sample blinks m) = Branch.group_select ∧
    (biscotti_pass junk ADC_LOW sample blinks m).st.modes = m.st.modes ∧
    (biscotti_pass junk ADC_LOW sample blinks m).st.solid_modes = m.st.solid_modes ∧
    (biscotti_pass junk ADC_LOW sample blinks m).st.modegroup
      = biscotti.NUM_MODEGROUPS - 1 ∧
    (simple_pass junk ADC_LOW sample m).output = GROUP_SELECT_MODE ∧
    simple_branch (simple_pass junk ADC_LOW sample m) = Branch.group_select ∧
    (simple_pass junk ADC_LOW sample m).st.modes = m.st.modes ∧
    (simple_pass junk ADC_LOW sample m).st.solid_modes = m.st.solid_modes ∧
    (simple_pass junk ADC_LOW sample m).st.modegroup = simple.NUM_MODEGROUPS - 1 := by
  have hb : biscotti_branch m = Branch.group_select :=
    (biscotti_branch_group_select_iff m).2 ⟨hfp, hout⟩
  have hs : simple_branch m = Branch.group_select :=
    (simple_branch_group_select_iff m).2 ⟨hfp, hout⟩
  have ha : ¬ m.asleep = true := by rw [hrun]; decide
  have pb : biscotti_pass junk ADC_LOW sample blinks m =
      battery_monitor ADC_LOW sample
        (main_dispatch junk biscotti Branch.group_select blinks m) := by
    unfold biscotti_pass
    rw [if_neg ha, hb]
  have ps : simple_pass junk ADC_LOW sample m =
      battery_monitor ADC_LOW sample
        (main_dispatch junk simple Branch.group_select 0 m) := by
    unfold simple_pass
    rw [if_neg ha, hs]
  obtain ⟨b1, b2, b3, b4, b5⟩ :=
    group_select_pass junk ADC_LOW blinks biscotti sample m (by decide) hno
  obtain ⟨s1, s2, s3, s4, s5⟩ :=
    group_select_pass junk ADC_LOW 0 simple sample m (by decide) hno
  rw [pb, ps]
  refine ⟨hb, hs, b1.trans hout, ?_, b3, b4, b5, s1.trans hout, ?_, s3, s4, s5⟩
  · exact (biscotti_branch_group_select_iff _).2 ⟨by rw [b2]; decide, b1.trans hout⟩
  · exact (simple_branch_group_select_iff _).2 ⟨by rw [s2]; decide, s1.trans hout⟩

theorem group_select_repeats_witness :
    biscotti_branch (override_entry 0) = Branch.group_select ∧
    biscotti_branch (biscotti_pass 0 100 (some 50) 0 (override_entry 0))
      = Branch.group_select ∧
    (biscotti_pass 0 100 (some 50) 0 (override_entry 0)).st.modegroup = 11 ∧
    (biscotti_pass 0 100 (some 50) 0 (override_entry 0)).st.solid_modes
      = (override_entry 0).st.solid_modes :=
  ⟨(group_select_repeats 0 100 0 (some 50) (override_entry 0) rfl (by decide) (by decide)
      (fun _ _ _ => by decide)).1,
   (group_select_repeats 0 100 0 (some 50) (override_entry 0) rfl (by decide) (by decide)
      (fun _ _ _ => by decide)).2.2.2.1,
   (group_select_repeats 0 100 0 (some 50) (override_entry 0) rfl (by decide) (by decide)
      (fun _ _ _ => by decide)).2.2.2.2.2.2.1,
   (group_select_repeats 0 100 0 (some 50) (override_entry 0) rfl (by decide) (by decide)
      (fun _ _ _ => by decide)).2.2.2.2.2.1⟩

/-! ## C37: the boot of biscuit -/

/-- C37: for all values that the RAM cells of `long_press` and `level_idx` may hold at
power-on, the boot of biscuit leaves `level_idx` in `1..7`, below `NUM_LEVELS`, so the read of
`pwm_values` in the `set_level(level_idx)` that follows is inside the table; a short press
from a level in `1..6` gives the next level and from 7 wraps to 1. -/
theorem biscuit_boot_level (lp lv : Nat) :
    1 ≤ (biscuit_boot lp lv).level_idx ∧ (biscuit_boot lp lv).level_idx ≤ 7 ∧
    (biscuit_boot lp lv).level_idx < NUM_LEVELS ∧
    (biscuit_boot lp lv).level_idx < pwm_values.length ∧
    (biscuit_boot lp lv).levels = [(biscuit_boot lp lv).level_idx] ∧
    (biscuit_boot lp lv).PWM_LVL = pgm_read_byte pwm_values (biscuit_boot lp lv).level_idx ∧
    (biscuit_boot lp lv).long_press = 0 ∧
    (lp = 0 ∧ 1 ≤ lv ∧ lv ≤ 6 → (biscuit_boot lp lv).level_idx = lv + 1) ∧
    (lp = 0 ∧ lv = 7 → (biscuit_boot lp lv).level_idx = 1) := by
  have hn : num_levels = 8 := rfl
  have hN : NUM_LEVELS = 8 := rfl
  have hlen : pwm_values.length = 8 := rfl
  have hi := biscuit_boot_level_idx lp lv
  have hrange : 1 ≤ (biscuit_boot lp lv).level_idx ∧ (biscuit_boot lp lv).level_idx ≤ 7 := by
    rw [hi, hn]
    split
    · split <;> omega
    · omega
  obtain ⟨b2, hb2, hlv⟩ : ∃ b2 : Biscuit, biscuit_boot lp lv = biscuit_set_level b2.level_idx b2
      ∧ b2.levels = [] ∧ b2.long_press = 0 := ⟨_, rfl, by
        dsimp only
        split <;> first | rfl | (unfold biscuit_next_level; dsimp only; split <;> rfl), rfl⟩
  have hidx : (biscuit_boot lp lv).level_idx = b2.level_idx := by
    rw [hb2, biscuit_set_level_level_idx]
  have hf := biscuit_set_level_frame b2.level_idx b2
  have hp := biscuit_set_level_PWM b2.level_idx b2
  have hlong : (biscuit_set_level b2.level_idx b2).long_press = b2.long_press := by
    unfold biscuit_set_level
    dsimp only
    split
    · rfl
    · split <;> rfl
  refine ⟨hrange.1, hrange.2, by rw [hN]; omega, by rw [hlen]; omega, ?_, ?_, ?_, ?_, ?_⟩
  · rw [hidx, hb2, hf.2.2, hlv.1]
  · rw [hidx, hb2, hp, if_neg (by rw [← hidx]; omega)]
  · rw [hb2, hlong]; exact hlv.2
  · rintro ⟨h0, h1, h6⟩
    rw [hi, hn, if_pos ⟨h0, by omega⟩]
    have : (lv + 1) % 256 = lv + 1 := Nat.mod_eq_of_lt (by omega)
    rw [this, if_neg (by omega)]
  · rintro ⟨h0, h7⟩
    rw [hi, hn, if_pos ⟨h0, by omega⟩, h7]
    rfl

/-! ## C38: the battery check -/

theorem battcheck_loop_stop (tbl : List Nat) (voltage fuel i : Nat)
    (h : ¬ voltage > pgm_read_byte tbl i) :
    battcheck_loop tbl voltage (fuel + 1) i = some i ∧
    battcheck_reads tbl voltage (fuel + 1) i = [i] := by
  simp only [battcheck_loop, battcheck_reads, h, if_false, and_self]

theorem battcheck_loop_next (tbl : List Nat) (voltage fuel i : Nat)
    (h : voltage > pgm_read_byte tbl i) :
    battcheck_loop tbl voltage (fuel + 1) i = battcheck_loop tbl voltage fuel ((i + 1) % 256) ∧
    battcheck_reads tbl voltage (fuel + 1) i =
      i :: battcheck_reads tbl voltage fuel ((i + 1) % 256) := by
  simp only [battcheck_loop, battcheck_reads, h, if_true, and_self]

/-- The scan from index `i` of a table that holds 255 at index `n`, for a reading of at most
255: it stops at the first index from `i` on whose entry is not below the reading, which is at
most `n`, and reads no offset above `n`. -/
theorem battcheck_loop_spec (tbl : List Nat) (voltage n : Nat) (hv : voltage ≤ 255)
    (hn : pgm_read_byte tbl n = 255) (h255 : n < 256) :
    ∀ (d i fuel : Nat), i + d = n → d < fuel →
      ∃ k, i ≤ k ∧ k ≤ n ∧ battcheck_loop tbl voltage fuel i = some k ∧
        (∀ j, i ≤ j → j < k → pgm_read_byte tbl j < voltage) ∧
        ¬ pgm_read_byte tbl k < voltage ∧
        (∀ o ∈ battcheck_reads tbl voltage fuel i, o ≤ n) := by
  intro d
  induction d with
  | zero =>
    intro i fuel hi hf
    obtain ⟨f, rfl⟩ : ∃ f, fuel = f + 1 := ⟨fuel - 1, by omega⟩
    have hin : i = n := by omega
    have hstop : ¬ voltage > pgm_read_byte tbl i := by rw [hin, hn]; omega
    obtain ⟨s1, s2⟩ := battcheck_loop_stop tbl voltage f i hstop
    refine ⟨i, le_refl _, by omega, s1, fun j h1 h2 => by omega, by omega, ?_⟩
    intro o ho
    rw [s2] at ho
    rw [List.mem_singleton.1 ho]
    omega
  | succ d ih =>
    intro i fuel hi hf
    obtain ⟨f, rfl⟩ : ∃ f, fuel = f + 1 := ⟨fuel - 1, by omega⟩
    by_cases hgt : voltage > pgm_read_byte tbl i
    · obtain ⟨s1, s2⟩ := battcheck_loop_next tbl voltage f i hgt
      have hmod : (i + 1) % 256 = i + 1 := Nat.mod_eq_of_lt (by omega)
      obtain ⟨k, k1, k2, k3, k4, k5, k6⟩ := ih (i + 1) f (by omega) (by omega)
      refine ⟨k, by omega, k2, ?_, ?_, k5, ?_⟩
      · rw [s1, hmod]; exact k3
      · intro j h1 h2
        by_cases hj : j = i
        · rw [hj]; exact hgt
        · exact k4 j (by omega) h2
      · intro o ho
        rw [s2, hmod] at ho
        rcases List.mem_cons.1 ho with h | h
        · rw [h]; omega
        · exact k6 o h
    · obtain ⟨s1, s2⟩ := battcheck_loop_stop tbl voltage f i hgt
      refine ⟨i, le_refl _, by omega, s1, fun j h1 h2 => by omega, by omega, ?_⟩
      intro o ho
      rw [s2] at ho
      rw [List.mem_singleton.1 ho]
      omega

theorem takeWhile_length_eq (p : Nat → Bool) (l : List Nat) (k : Nat)
    (hk : k ≤ l.length) (h1 : ∀ j, j < k → p (l.getD j 0) = true)
    (h2 : k < l.length → p (l.getD k 0) = false) :
    (l.takeWhile p).length = k := by
  induction l generalizing k with
  | nil =>
    have : k = 0 := by simpa using hk
    rw [this]; rfl
  | cons x xs ih =>
    cases k with
    | zero =>
      have hx : p x = false := h2 (by simp)
      rw [List.takeWhile_cons, hx]
      rfl
    | succ k =>
      have hx : p x = true := h1 0 (by omega)
      rw [List.takeWhile_cons, hx]
      show (xs.takeWhile p).length + 1 = k + 1
      rw [ih k (by simpa using hk) (fun j hj => h1 (j + 1) (by omega))
        (fun hlt => h2 (by simpa using hlt))]

/-- C38: with the `BATTCHECK_4bars` table over any five thresholds and a reading `voltage`
in `0..255`, the scan loop of `battcheck` stops after at most six tests: it returns a count
of at most 5, the number of leading thresholds strictly below the reading, and reads only
offsets inside the six-entry table. -/
theorem battcheck_within_table (a b c d e voltage fuel : Nat) (hv : voltage ≤ 255)
    (hf : 6 ≤ fuel) :
    battcheck (voltage_blinks a b c d e) voltage fuel =
      some (([a, b, c, d, e].takeWhile (fun t => decide (t < voltage))).length) ∧
    ([a, b, c, d, e].takeWhile (fun t => decide (t < voltage))).length ≤ 5 ∧
    (∀ o ∈ battcheck_reads (voltage_blinks a b c d e) voltage fuel 0,
      o < (voltage_blinks a b c d e).length) := by
  obtain ⟨k, _, k2, k3, k4, k5, k6⟩ :=
    battcheck_loop_spec (voltage_blinks a b c d e) voltage 5 hv rfl (by decide) 5 0 fuel
      rfl (by omega)
  have hrd : ∀ j, j < 5 →
      pgm_read_byte (voltage_blinks a b c d e) j = [a, b, c, d, e].getD j 0 := by
    intro j hj
    have : j = 0 ∨ j = 1 ∨ j = 2 ∨ j = 3 ∨ j = 4 := by omega
    rcases this with h | h | h | h | h <;> rw [h] <;> rfl
  have hlen : ([a, b, c, d, e].takeWhile (fun t => decide (t < voltage))).length = k := by
    apply takeWhile_length_eq
    · exact k2
    · intro j hj
      have := k4 j (Nat.zero_le _) hj
      rw [hrd j (by omega)] at this
      exact decide_eq_true this
    · intro hlt
      have hlt5 : k < 5 := hlt
      rw [hrd k hlt5] at k5
      exact decide_eq_false k5
  refine ⟨?_, ?_, ?_⟩
  · rw [hlen]; exact k3
  · rw [hlen]; exact k2
  · intro o ho
    have := k6 o ho
    show o < 6
    omega

theorem battcheck_within_table_witness :
    battcheck (voltage_blinks 100 120 140 160 180) 150 6 = some 3 ∧
    battcheck (voltage_blinks 100 120 140 160 180) 255 256 = some 5 :=
  ⟨(battcheck_within_table 100 120 140 160 180 150 6 (by decide) (by decide)).1,
   (battcheck_within_table 100 120 140 160 180 255 256 (by decide) (by decide)).1⟩

end Convoy
